import Mathlib

/-!
The list parser of the Kaleidoscope front end.

A shallow embedding of `src/parser/list_parser.cc`: the recursive-descent,
precedence-climbing parser that turns a vector of classified tokens into
`ExprAST` / `PrototypeAST` / `FunctionAST` nodes.

* A parser object is its token vector together with the index `curr_token`.
* Every parse method returns an `Outcome`: a node with the parser state after
  the call, an absent result (`nullptr`, with the message given to
  `LogError`) with the state after the call, or undefined behaviour (a read
  of `tokens[curr_token]` past the end of the vector, or control reaching the
  end of a value-returning function).
* The methods are mutually recursive.  Each one is written once, as a
  `...Body` that receives the methods it calls as arguments; the knot is tied
  by recursion on a call-depth budget (`...Fuel`), and the method itself runs
  the budgeted version with a budget that is proved to suffice.
-/

/-- Modelled from the spec: the `Token` enumeration, whose declaration is not
among the sources.  The kinds named in `list_parser.cc` keep their names;
`tok_op sym` stands for the operator-symbol kinds, one per symbol. -/
inductive Token where
  | tok_eof
  | tok_def
  | tok_extern
  | tok_identifier
  | tok_number
  | tok_if
  | tok_then
  | tok_else
  | tok_for
  | tok_in
  | tok_lparen
  | tok_rparen
  | tok_comma
  | tok_equal
  | tok_op (sym : Nat)
  deriving DecidableEq, Repr

/-- One element of the `tokens` vector: the fields the parser reads.  The
numeric payload is a `double` in the source; the parser only copies it, so it
is represented here by an integer code. -/
structure TokenWrapper where
  type : Token
  value : Int
  str_content : String
  deriving DecidableEq, Repr

/-- What the parser uses but does not define: the precedence lookup of
`utils/operators.h`, the integer value of each `Token` enumerator (it decides
the truth value of an enumerator used as a condition), and the text that
`boost::format` produces for a token kind. -/
structure Externals where
  getTokenPrecedence : Token → Int
  tokenValue : Token → Int
  formatToken : Token → String

/-- Expression nodes built by the parser. -/
inductive ExprAST where
  | NumberExprAST (value : Int)
  | VariableExprAST (name : String)
  | BinaryExprAST (op : Token) (lhs rhs : ExprAST)
  | CallExprAST (callee : String) (args : List ExprAST)
  | IfExprAST (condition then_expression else_expression : ExprAST)
  | ForExprAST (identifier : String) (start end_ : ExprAST) (step : Option ExprAST)
      (body : ExprAST)

/-- A function prototype: its name and its parameter names. -/
structure PrototypeAST where
  name : String
  args : List String
  deriving DecidableEq, Repr

/-- A function definition: prototype and body. -/
structure FunctionAST where
  proto : PrototypeAST
  body : ExprAST

/-- The parser object: the token vector and the cursor into it. -/
structure ListParser where
  tokens : List TokenWrapper
  curr_token : Nat
  deriving DecidableEq, Repr

/-- The two ways a call can leave defined behaviour. -/
inductive Undefined where
  | outOfBounds (index : Nat)
  | noReturn
  deriving DecidableEq, Repr

/-- Result of a parse method.  `ok a p`: a non-null result `a`, parser state
`p` after the call.  `absent msg p`: `nullptr`, where `msg` is the message that
was handed to `LogError`, parser state `p` after the call.  `undefined u`: the
call ran into undefined behaviour.  `outOfFuel`: the call-depth budget of a
`...Fuel` function was used up (the methods themselves never yield it). -/
inductive Outcome (α : Type) where
  | ok (a : α) (p : ListParser)
  | absent (msg : String) (p : ListParser)
  | undefined (u : Undefined)
  | outOfFuel

namespace Outcome

/-- The pattern `auto V = f(); if (!V) return nullptr; ...`: go on with the
rest of the method only when `f` returned a node. -/
def andThen {α β : Type} (r : Outcome α) (k : α → ListParser → Outcome β) : Outcome β :=
  match r with
  | ok a p => k a p
  | absent msg p => absent msg p
  | undefined u => undefined u
  | outOfFuel => outOfFuel

end Outcome

/-- The function `LogError` (and `LogErrorP`): report `msg`, return `nullptr`. -/
def LogError {α : Type} (msg : String) (p : ListParser) : Outcome α :=
  Outcome.absent msg p

namespace ListParser

/-- The element `tokens[curr_token]`, when there is one. -/
def peek (p : ListParser) : Option TokenWrapper :=
  p.tokens[p.curr_token]?

/-- The statement `curr_token++`. -/
def next (p : ListParser) : ListParser :=
  { p with curr_token := p.curr_token + 1 }

/-- A read of `tokens[curr_token]`: undefined behaviour when the index is not
below the size of the vector, otherwise the rest of the method runs with the
element. -/
def read {β : Type} (p : ListParser) (k : TokenWrapper → Outcome β) : Outcome β :=
  match p.peek with
  | none => Outcome.undefined (Undefined.outOfBounds p.curr_token)
  | some t => k t

/-- The assignment `tokens[curr_token].type = ty`, where `t` is the element
that is there. -/
def assignType (p : ListParser) (t : TokenWrapper) (ty : Token) : ListParser :=
  { p with tokens := p.tokens.set p.curr_token { t with type := ty } }

/-- Source lines 12-16. -/
def parseNumberExpr (p : ListParser) : Outcome ExprAST :=
  p.read fun t_wrapper =>
  Outcome.ok (ExprAST.NumberExprAST t_wrapper.value) p.next

/-- Source lines 18-28, with the call of `parseExpression` as an argument. -/
def parseParenExprBody (parseExpression : ListParser → Outcome ExprAST)
    (p : ListParser) : Outcome ExprAST :=
  let p := p.next
  (parseExpression p).andThen fun V p =>
  p.read fun t =>
  if t.type ≠ Token.tok_rparen then LogError "Expected ')'" p
  else
    let p := p.next
    Outcome.ok V p

/-- Source lines 43-58: the `while (true)` loop that collects the arguments of
a call.  `parseArgs` is the loop itself (the next iteration); leaving the loop
by `break` yields the collected arguments.  The tests of lines 50 and 52 read
the same element, here read once. -/
def parseArgsBody (parseExpression : ListParser → Outcome ExprAST)
    (parseArgs : List ExprAST → ListParser → Outcome (List ExprAST))
    (arguments : List ExprAST) (p : ListParser) : Outcome (List ExprAST) :=
  (parseExpression p).andThen fun argument p =>
  let arguments := arguments ++ [argument]
  p.read fun t =>
  if t.type = Token.tok_rparen then Outcome.ok arguments p
  else if t.type = Token.tok_comma then
    let p := p.next
    parseArgs arguments p
  else LogError "Expected ')' or ',' in the argument list" p

/-- Source lines 30-63, with the argument loop as an argument. -/
def parseIdentifierExprBody
    (parseArgs : List ExprAST → ListParser → Outcome (List ExprAST))
    (p : ListParser) : Outcome ExprAST :=
  p.read fun t =>
  let id := t.str_content
  let p := p.next
  p.read fun t =>
  if t.type ≠ Token.tok_lparen then Outcome.ok (ExprAST.VariableExprAST id) p
  else
    let p := p.next
    p.read fun t =>
    if t.type ≠ Token.tok_rparen then
      (parseArgs [] p).andThen fun arguments p =>
      let p := p.next
      Outcome.ok (ExprAST.CallExprAST id arguments) p
    else
      let p := p.next
      Outcome.ok (ExprAST.CallExprAST id []) p

/-- Source lines 65-76, with the four recursive methods as arguments.  The
message of the `default` case is built from the kind of the current token. -/
def parsePrimaryBody (env : Externals)
    (parseIdentifierExpr parseParenExpr parseIfExpr parseForExpr :
      ListParser → Outcome ExprAST)
    (p : ListParser) : Outcome ExprAST :=
  p.read fun t =>
  match t.type with
  | Token.tok_identifier => parseIdentifierExpr p
  | Token.tok_number => parseNumberExpr p
  | Token.tok_lparen => parseParenExpr p
  | Token.tok_if => parseIfExpr p
  | Token.tok_for => parseForExpr p
  | ty => LogError ("Unknown token when expecting an expression: " ++ env.formatToken ty) p

/-- Source lines 78-97.  `parseBinOpRHS` is both the recursive call of line 92
and the next iteration of the `while (true)` loop.  Line 85 reads the element
that line 80 has read, then moves the cursor.  `precedence + 1` is computed
only when `precedence < next_precedence`, so it stays in the range of `int`
and the unbounded integers used here agree with the machine integers. -/
def parseBinOpRHSBody (env : Externals)
    (parsePrimary : ListParser → Outcome ExprAST)
    (parseBinOpRHS : Int → ExprAST → ListParser → Outcome ExprAST)
    (expression_precedence : Int) (left_side : ExprAST) (p : ListParser) :
    Outcome ExprAST :=
  p.read fun t =>
  let precedence := env.getTokenPrecedence t.type
  if precedence < expression_precedence then Outcome.ok left_side p
  else
    let op := t.type
    let p := p.next
    (parsePrimary p).andThen fun right_side p =>
    p.read fun t =>
    let next_precedence := env.getTokenPrecedence t.type
    if precedence < next_precedence then
      (parseBinOpRHS (precedence + 1) right_side p).andThen fun right_side p =>
      parseBinOpRHS expression_precedence (ExprAST.BinaryExprAST op left_side right_side) p
    else
      parseBinOpRHS expression_precedence (ExprAST.BinaryExprAST op left_side right_side) p

/-- Source lines 99-104. -/
def parseExpressionBody
    (parsePrimary : ListParser → Outcome ExprAST)
    (parseBinOpRHS : Int → ExprAST → ListParser → Outcome ExprAST)
    (p : ListParser) : Outcome ExprAST :=
  (parsePrimary p).andThen fun left_side p =>
  parseBinOpRHS 0 left_side p

/-- Source lines 161-179.  Line 166 is an assignment: it stores `tok_then` in
the current token and its value, `tok_then`, is the condition. -/
def parseIfExprBody (env : Externals) (parseExpression : ListParser → Outcome ExprAST)
    (p : ListParser) : Outcome ExprAST :=
  let p := p.next
  (parseExpression p).andThen fun condition p =>
  p.read fun t =>
  let p := p.assignType t Token.tok_then
  if env.tokenValue Token.tok_then ≠ 0 then LogError "expected then" p
  else
    let p := p.next
    (parseExpression p).andThen fun then_expression p =>
    p.read fun t =>
    if t.type ≠ Token.tok_else then LogError "Expected else" p
    else
      let p := p.next
      (parseExpression p).andThen fun else_expression p =>
      Outcome.ok (ExprAST.IfExprAST condition then_expression else_expression) p

/-- Source lines 214-223: the end of `parseForExpr`, from the test for `in`. -/
def parseForExprIn (parseExpression : ListParser → Outcome ExprAST)
    (identifier : String) (start end_ : ExprAST) (step : Option ExprAST)
    (p : ListParser) : Outcome ExprAST :=
  p.read fun t =>
  if t.type ≠ Token.tok_in then LogError "expected 'in' after for" p
  else
    let p := p.next
    (parseExpression p).andThen fun body p =>
    Outcome.ok (ExprAST.ForExprAST identifier start end_ step body) p

/-- Source lines 181-212, followed by `parseForExprIn`. -/
def parseForExprBody (parseExpression : ListParser → Outcome ExprAST)
    (p : ListParser) : Outcome ExprAST :=
  let p := p.next
  p.read fun t =>
  if t.type ≠ Token.tok_identifier then LogError "expected identifier after for" p
  else
    let identifier := t.str_content
    let p := p.next
    p.read fun t =>
    if t.type ≠ Token.tok_equal then LogError "expected '=' after for" p
    else
      let p := p.next
      (parseExpression p).andThen fun start p =>
      p.read fun t =>
      if t.type ≠ Token.tok_comma then LogError "expected ',' after for start value" p
      else
        let p := p.next
        (parseExpression p).andThen fun end_ p =>
        p.read fun t =>
        if t.type = Token.tok_comma then
          let p := p.next
          (parseExpression p).andThen fun step p =>
          parseForExprIn parseExpression identifier start end_ (some step) p
        else parseForExprIn parseExpression identifier start end_ none p

mutual

/-- The method `parsePrimary`, run to call depth at most `fuel`. -/
def parsePrimaryFuel (env : Externals) : Nat → ListParser → Outcome ExprAST
  | 0, _ => Outcome.outOfFuel
  | n + 1, p =>
    parsePrimaryBody env (fun q => parseIdentifierExprFuel env n q)
      (fun q => parseParenExprFuel env n q) (fun q => parseIfExprFuel env n q)
      (fun q => parseForExprFuel env n q) p

/-- The method `parseIdentifierExpr`, run to call depth at most `fuel`. -/
def parseIdentifierExprFuel (env : Externals) : Nat → ListParser → Outcome ExprAST
  | 0, _ => Outcome.outOfFuel
  | n + 1, p => parseIdentifierExprBody (fun a q => parseArgsFuel env n a q) p

/-- The argument loop of `parseIdentifierExpr`, run to depth at most `fuel`. -/
def parseArgsFuel (env : Externals) :
    Nat → List ExprAST → ListParser → Outcome (List ExprAST)
  | 0, _, _ => Outcome.outOfFuel
  | n + 1, a, p =>
    parseArgsBody (fun q => parseExpressionFuel env n q)
      (fun a q => parseArgsFuel env n a q) a p

/-- The method `parseParenExpr`, run to call depth at most `fuel`. -/
def parseParenExprFuel (env : Externals) : Nat → ListParser → Outcome ExprAST
  | 0, _ => Outcome.outOfFuel
  | n + 1, p => parseParenExprBody (fun q => parseExpressionFuel env n q) p

/-- The method `parseIfExpr`, run to call depth at most `fuel`. -/
def parseIfExprFuel (env : Externals) : Nat → ListParser → Outcome ExprAST
  | 0, _ => Outcome.outOfFuel
  | n + 1, p => parseIfExprBody env (fun q => parseExpressionFuel env n q) p

/-- The method `parseForExpr`, run to call depth at most `fuel`. -/
def parseForExprFuel (env : Externals) : Nat → ListParser → Outcome ExprAST
  | 0, _ => Outcome.outOfFuel
  | n + 1, p => parseForExprBody (fun q => parseExpressionFuel env n q) p

/-- The method `parseBinOpRHS`, run to call depth at most `fuel`. -/
def parseBinOpRHSFuel (env : Externals) :
    Nat → Int → ExprAST → ListParser → Outcome ExprAST
  | 0, _, _, _ => Outcome.outOfFuel
  | n + 1, prec, left_side, p =>
    parseBinOpRHSBody env (fun q => parsePrimaryFuel env n q)
      (fun c l q => parseBinOpRHSFuel env n c l q) prec left_side p

/-- The method `parseExpression`, run to call depth at most `fuel`. -/
def parseExpressionFuel (env : Externals) : Nat → ListParser → Outcome ExprAST
  | 0, _ => Outcome.outOfFuel
  | n + 1, p =>
    parseExpressionBody (fun q => parsePrimaryFuel env n q)
      (fun c l q => parseBinOpRHSFuel env n c l q) p

end

/-- Number of tokens from the cursor to the end of the vector. -/
def remaining (p : ListParser) : Nat :=
  p.tokens.length - p.curr_token

/-- A call-depth budget that suffices for every method started in state `p`
(three levels of calls for each remaining token, and four more). -/
def budget (p : ListParser) : Nat :=
  3 * p.remaining + 4

/-- The method `parsePrimary`. -/
def parsePrimary (env : Externals) (p : ListParser) : Outcome ExprAST :=
  parsePrimaryFuel env p.budget p

/-- The method `parseIdentifierExpr`. -/
def parseIdentifierExpr (env : Externals) (p : ListParser) : Outcome ExprAST :=
  parseIdentifierExprFuel env p.budget p

/-- The argument loop of `parseIdentifierExpr` (source lines 43-58), entered
with the arguments collected so far. -/
def parseArgs (env : Externals) (arguments : List ExprAST) (p : ListParser) :
    Outcome (List ExprAST) :=
  parseArgsFuel env p.budget arguments p

/-- The method `parseParenExpr`. -/
def parseParenExpr (env : Externals) (p : ListParser) : Outcome ExprAST :=
  parseParenExprFuel env p.budget p

/-- The method `parseIfExpr`. -/
def parseIfExpr (env : Externals) (p : ListParser) : Outcome ExprAST :=
  parseIfExprFuel env p.budget p

/-- The method `parseForExpr`. -/
def parseForExpr (env : Externals) (p : ListParser) : Outcome ExprAST :=
  parseForExprFuel env p.budget p

/-- The method `parseBinOpRHS`. -/
def parseBinOpRHS (env : Externals) (expression_precedence : Int) (left_side : ExprAST)
    (p : ListParser) : Outcome ExprAST :=
  parseBinOpRHSFuel env p.budget expression_precedence left_side p

/-- The method `parseExpression`. -/
def parseExpression (env : Externals) (p : ListParser) : Outcome ExprAST :=
  parseExpressionFuel env p.budget p

/-- Source lines 123-129: the loop that collects parameter names, run for at
most `fuel` iterations. -/
def parsePrototypeLoopFuel : Nat → List String → ListParser → Outcome (List String)
  | 0, _, _ => Outcome.outOfFuel
  | n + 1, argument_names, p =>
    p.read fun argument =>
    if argument.type = Token.tok_identifier then
      parsePrototypeLoopFuel n (argument_names ++ [argument.str_content]) p.next
    else Outcome.ok argument_names p

/-- Source lines 123-129: the loop that collects parameter names (every
iteration consumes a token, so one iteration more than the remaining tokens
is never reached). -/
def parsePrototypeLoop (argument_names : List String) (p : ListParser) :
    Outcome (List String) :=
  parsePrototypeLoopFuel (p.remaining + 1) argument_names p

/-- The method `parsePrototype`, source lines 106-137. -/
def parsePrototype (p : ListParser) : Outcome PrototypeAST :=
  p.read fun token =>
  if token.type ≠ Token.tok_identifier then LogError "Expected function name in prototype" p
  else
    let function_name := token.str_content
    let p := p.next
    p.read fun t =>
    if t.type ≠ Token.tok_lparen then LogError "Expected '(' in prototype" p
    else
      let p := p.next
      (parsePrototypeLoop [] p).andThen fun argument_names p =>
      p.read fun t =>
      if t.type ≠ Token.tok_rparen then LogError "Expected ')' in prototype" p
      else
        let p := p.next
        Outcome.ok (PrototypeAST.mk function_name argument_names) p

/-- The method `parseDefinition`, source lines 139-147.  When the body
expression is absent, control reaches the closing brace of the function
without a `return`. -/
def parseDefinition (env : Externals) (p : ListParser) : Outcome FunctionAST :=
  let p := p.next
  (parsePrototype p).andThen fun prototype p =>
  match parseExpression env p with
  | Outcome.ok expression p => Outcome.ok (FunctionAST.mk prototype expression) p
  | Outcome.absent _ _ => Outcome.undefined Undefined.noReturn
  | Outcome.undefined u => Outcome.undefined u
  | Outcome.outOfFuel => Outcome.outOfFuel

/-- The method `parseTopLevelExpr`, source lines 149-154.  When the expression
is absent, control reaches the closing brace of the function without a
`return`. -/
def parseTopLevelExpr (env : Externals) (p : ListParser) : Outcome FunctionAST :=
  match parseExpression env p with
  | Outcome.ok expression p =>
    let prototype := PrototypeAST.mk "anon_expr" []
    Outcome.ok (FunctionAST.mk prototype expression) p
  | Outcome.absent _ _ => Outcome.undefined Undefined.noReturn
  | Outcome.undefined u => Outcome.undefined u
  | Outcome.outOfFuel => Outcome.outOfFuel

/-- The method `parseExtern`, source lines 156-159. -/
def parseExtern (p : ListParser) : Outcome PrototypeAST :=
  let p := p.next
  parsePrototype p

end ListParser


/-! ## Function lookup (`utils/functions.cc`) and the lowering of `Pose2dExprAST`
(`src/ast/built_ins/Pose2dExprAST.cc`)

The LLVM objects are represented by what these two files use of them: a
module is its function table, a value is a handle, an instruction builder is
the list of the instructions it has inserted, in order. -/

namespace llvm

/-- A function of a module, the target of an `llvm::Function*`. -/
structure Function where
  id : Nat
  deriving DecidableEq, Repr

/-- A module: its table of functions by name. -/
structure Module where
  functions : List (String × Function)
  deriving DecidableEq, Repr

/-- The call `Module::getFunction(Name)`: the function of that name, or null. -/
def Module.getFunction (m : Module) (Name : String) : Option Function :=
  m.functions.lookup Name

/-- An integer constant of a given width, as made by
`Constant::getIntegerValue(Type::getInt32Ty(TheContext), APInt(32, v))`. -/
structure ConstantInt where
  numBits : Nat
  value : Nat
  deriving DecidableEq, Repr

/-- The target of a non-null `llvm::Value*`: a value that a sub-expression
lowered to, or the address computed by a `getelementptr` from a base and a
list of constant indices (two `getelementptr` instructions with the same base
and indices are the same address). -/
inductive Value where
  | named (id : Nat)
  | element (base : Value) (indices : List ConstantInt)
  deriving DecidableEq, Repr

/-- The instructions that `Pose2dExprAST::codegen` inserts, and `other` for
the instructions that lowering a sub-expression inserts. -/
inductive Instruction where
  | GetElementPtr (inBounds : Bool) (base : Value) (indices : List ConstantInt)
      (name : String)
  | Store (value pointer : Value)
  | other (id : Nat)
  deriving DecidableEq, Repr

/-- The global `Builder`: the instructions inserted so far, in order. -/
structure IRBuilder where
  instructions : List Instruction
  deriving DecidableEq, Repr

/-- Result of a call into the builder: the value it returns with the builder
after the call, or undefined behaviour (a null operand was handed to the
builder, which dereferences its operands), with the builder as it was then. -/
inductive Emitted (α : Type) where
  | ok (a : α) (b : IRBuilder)
  | undefined (b : IRBuilder)
  deriving DecidableEq, Repr

/-- Go on with the rest of the function after a call into the builder. -/
def Emitted.andThen {α β : Type} (r : Emitted α) (k : α → IRBuilder → Emitted β) :
    Emitted β :=
  match r with
  | Emitted.ok a b => k a b
  | Emitted.undefined b => Emitted.undefined b

/-- The instructions in the builder when the call ended. -/
def Emitted.instructions {α : Type} : Emitted α → List Instruction
  | Emitted.ok _ b => b.instructions
  | Emitted.undefined b => b.instructions

/-- The calls `Builder.CreateGEP(Ptr, IdxList, Name)` (`inBounds` false) and
`Builder.CreateInBoundsGEP(Ptr, IdxList, Name)` (`inBounds` true): insert the
address computation and return it. -/
def IRBuilder.CreateGEP (inBounds : Bool) (Ptr : Option Value) (IdxList : List ConstantInt)
    (Name : String) (b : IRBuilder) : Emitted Value :=
  match Ptr with
  | none => Emitted.undefined b
  | some base =>
    Emitted.ok (Value.element base IdxList)
      { instructions := b.instructions ++ [Instruction.GetElementPtr inBounds base IdxList Name] }

/-- The call `Builder.CreateStore(Val, Ptr)`: insert the store. -/
def IRBuilder.CreateStore (Val : Option Value) (Ptr : Value) (b : IRBuilder) : Emitted Unit :=
  match Val with
  | none => Emitted.undefined b
  | some v =>
    Emitted.ok () { instructions := b.instructions ++ [Instruction.Store v Ptr] }

end llvm

/-- The globals `TheModule` and `FunctionProtos` of `utils/functions.cc`. -/
structure Globals where
  TheModule : llvm.Module
  FunctionProtos : List (String × PrototypeAST)
  deriving DecidableEq, Repr

/-- What a call of `getFunction` did: the pointer it returned, the globals
after the call, and the prototypes whose `codegen` it ran, in order. -/
structure Resolved where
  result : Option llvm.Function
  globals : Globals
  codegenRuns : List PrototypeAST
  deriving DecidableEq, Repr

/-- The function `getFunction`, source lines 10-23 of `utils/functions.cc`.
`codegen` is `PrototypeAST::codegen`, which is not among the sources: it
returns a function or null and may change the globals. -/
def getFunction (codegen : PrototypeAST → Globals → Option llvm.Function × Globals)
    (Name : String) (g : Globals) : Resolved :=
  match g.TheModule.getFunction Name with
  | some F => { result := some F, globals := g, codegenRuns := [] }
  | none =>
    match g.FunctionProtos.lookup Name with
    | some proto =>
      let r := codegen proto g
      { result := r.1, globals := r.2, codegenRuns := [proto] }
    | none => { result := none, globals := g, codegenRuns := [] }

/-- The node built for a `Pose2D` construction: the three field expressions
and the expression that yields the storage. -/
structure Pose2dExprAST where
  x : ExprAST
  y : ExprAST
  theta : ExprAST
  destination : ExprAST

namespace Pose2dExprAST

/-- The constant `i32 v` used as an index (`APInt zero(32, 0)` and so on). -/
def index (v : Nat) : llvm.ConstantInt :=
  { numBits := 32, value := v }

/-- The method `Pose2dExprAST::codegen`, source lines 4-49.  `lower` is the
virtual `codegen` of the sub-expressions, which is not among the sources: it
returns a value or null and may insert instructions.  `instance_` is the
local `instance` of the source. -/
def codegen (lower : ExprAST → llvm.IRBuilder → Option llvm.Value × llvm.IRBuilder)
    (e : Pose2dExprAST) (Builder : llvm.IRBuilder) : llvm.Emitted (Option llvm.Value) :=
  let (ptr_x, Builder) := lower e.x Builder
  let (ptr_y, Builder) := lower e.y Builder
  let (ptr_theta, Builder) := lower e.theta Builder
  let (instance_, Builder) := lower e.destination Builder
  let x_pos := [index 0, index 0]
  let y_pos := [index 0, index 1]
  let theta_pos := [index 0, index 2]
  (Builder.CreateGEP false instance_ x_pos "gep_pose2_x").andThen fun gep_x Builder =>
  (Builder.CreateStore ptr_x gep_x).andThen fun _ Builder =>
  (Builder.CreateGEP true instance_ y_pos "gep_pose2_y").andThen fun gep_y Builder =>
  (Builder.CreateStore ptr_y gep_y).andThen fun _ Builder =>
  (Builder.CreateGEP true instance_ theta_pos "gep_pose2_theta").andThen
    fun gep_theta Builder =>
  (Builder.CreateStore ptr_theta gep_theta).andThen fun _ Builder =>
  llvm.Emitted.ok instance_ Builder

end Pose2dExprAST
/-! ## Predicates used in the statements -/

namespace Outcome

/-- The parser state a call returned with, when it returned. -/
def finalState {α : Type} : Outcome α → Option ListParser
  | ok _ p => some p
  | absent _ p => some p
  | undefined _ => none
  | outOfFuel => none

end Outcome

namespace ListParser

/-- State `q` can follow state `p`: the cursor of `p` was on a token, the
vector has kept its size, and the cursor has not moved back nor past the end. -/
def Reach (p q : ListParser) : Prop :=
  p.curr_token < p.tokens.length ∧ q.tokens.length = p.tokens.length ∧
    p.curr_token ≤ q.curr_token ∧ q.curr_token ≤ q.tokens.length

/-- What holds of the outcome of a method that starts by reading the token
under the cursor, started in state `p`: a returned state follows `p`; a read
past the end of the vector, when the cursor of `p` was not itself past the
end, is a read of the index right after the last token; and the call-depth
budget was not used up. -/
def Post {α : Type} (p : ListParser) : Outcome α → Prop
  | Outcome.ok _ q => Reach p q
  | Outcome.absent _ q => Reach p q
  | Outcome.undefined (Undefined.outOfBounds i) =>
    p.curr_token ≤ p.tokens.length → i = p.tokens.length
  | Outcome.undefined Undefined.noReturn => True
  | Outcome.outOfFuel => False

/-- The same for a method that starts by moving the cursor over the token it
is on: here the read past the end is at the index right after the last token
when the cursor of `p` was on a token. -/
def PostS {α : Type} (p : ListParser) : Outcome α → Prop
  | Outcome.ok _ q => Reach p q
  | Outcome.absent _ q => Reach p q
  | Outcome.undefined (Undefined.outOfBounds i) =>
    p.curr_token < p.tokens.length → i = p.tokens.length
  | Outcome.undefined Undefined.noReturn => True
  | Outcome.outOfFuel => False

/-- What holds of the outcome of the argument loop: `Post`, and the loop is
left by `break` with the cursor on a token. -/
def PostArgs {α : Type} (p : ListParser) (r : Outcome α) : Prop :=
  Post p r ∧ ∀ a q, r = Outcome.ok a q → q.curr_token < q.tokens.length

/-- The cursor invariant of a call started in state `p` with outcome `r`: when
the call returned (with a node or with an absent result), the vector has the
size it had, and the cursor is not before its old position and not past the
end of the vector; and when the call, started with the cursor on a token, read
past the end of the vector, the cursor was right after the last token. -/
def KeepsCursor {α : Type} (p : ListParser) (r : Outcome α) : Prop :=
  (∀ q, r.finalState = some q →
    q.tokens.length = p.tokens.length ∧ p.curr_token ≤ q.curr_token ∧
      q.curr_token ≤ p.tokens.length) ∧
  (∀ i, r = Outcome.undefined (Undefined.outOfBounds i) →
    p.curr_token < p.tokens.length → i = p.tokens.length)

/-- Token `t`, followed by token `following`, is a number token or a variable
token: an identifier that `parseIdentifierExpr` reads as a variable, which it
does when the token after it is not `(`. -/
def IsOperand (t following : TokenWrapper) : Prop :=
  t.type = Token.tok_number ∨
    (t.type = Token.tok_identifier ∧ following.type ≠ Token.tok_lparen)

/-- The node of a number or variable token. -/
def operandNode (t : TokenWrapper) : ExprAST :=
  if t.type = Token.tok_number then ExprAST.NumberExprAST t.value
  else ExprAST.VariableExprAST t.str_content

/-- The token kind has a precedence: `parseBinOpRHS`, entered from
`parseExpression` with minimum precedence 0, takes it for a binary operator. -/
def HasPrecedence (env : Externals) (ty : Token) : Prop :=
  0 ≤ env.getTokenPrecedence ty

/-- `ParsesArgs env p args q`: starting in state `p`, the expressions of a
comma-separated list parse one after the other to the nodes `args`, and the
last of them ends in state `q`, where the token is `)`. -/
inductive ParsesArgs (env : Externals) : ListParser → List ExprAST → ListParser → Prop where
  | last {p q : ListParser} {a : ExprAST} {t : TokenWrapper} :
      parseExpression env p = Outcome.ok a q → q.peek = some t →
      t.type = Token.tok_rparen → ParsesArgs env p [a] q
  | more {p q r : ListParser} {a : ExprAST} {rest : List ExprAST} {t : TokenWrapper} :
      parseExpression env p = Outcome.ok a q → q.peek = some t →
      t.type = Token.tok_comma → ParsesArgs env q.next rest r →
      ParsesArgs env p (a :: rest) r

/-- `ParsesArgsUpTo env p args q`: starting in state `p`, the first expressions
of an argument list parse one after the other to the nodes `args`, with a
comma between each two of them, and the last of them ends in state `q`
(whatever the token there is). -/
inductive ParsesArgsUpTo (env : Externals) :
    ListParser → List ExprAST → ListParser → Prop where
  | one {p q : ListParser} {a : ExprAST} :
      parseExpression env p = Outcome.ok a q → ParsesArgsUpTo env p [a] q
  | more {p q r : ListParser} {a : ExprAST} {rest : List ExprAST} {t : TokenWrapper} :
      parseExpression env p = Outcome.ok a q → q.peek = some t →
      t.type = Token.tok_comma → ParsesArgsUpTo env q.next rest r →
      ParsesArgsUpTo env p (a :: rest) r

/-- On an outcome with a node, the cursor of the returned state is at least
`n`. -/
def CursorFrom {α : Type} (n : Nat) (r : Outcome α) : Prop :=
  ∀ a q, r = Outcome.ok a q → n ≤ q.curr_token

/-- Progress of a call started in state `p` with outcome `r`: when the call
returned a node, the cursor is strictly greater than before the call. -/
def Progress {α : Type} (p : ListParser) (r : Outcome α) : Prop :=
  ∀ a q, r = Outcome.ok a q → p.curr_token < q.curr_token

/-- An element of the in-order traversal of an expression tree: a node that
is not a binary operation, or the operator of a binary operation. -/
inductive Item where
  | operand (node : ExprAST)
  | operator (op : Token)

/-- The in-order traversal of an expression tree: left operand, operator,
right operand. -/
def inorder : ExprAST → List Item
  | ExprAST.BinaryExprAST op lhs rhs => inorder lhs ++ Item.operator op :: inorder rhs
  | e => [Item.operand e]

/-- The token that follows an operand which is followed by the pairs `rest`
(operator token, operand token) and then by the token `stop`. -/
def nextToken (rest : List (TokenWrapper × TokenWrapper)) (stop : TokenWrapper) :
    TokenWrapper :=
  match rest with
  | [] => stop
  | (op, _) :: _ => op

/-- In the pairs `rest` (operator token, operand token), followed by the token
`stop`, every operator token has a precedence and every operand token is a
number or variable token. -/
def OperatorsAndOperands (env : Externals) :
    List (TokenWrapper × TokenWrapper) → TokenWrapper → Prop
  | [], _ => True
  | (op, x) :: rest, stop =>
    HasPrecedence env op.type ∧ IsOperand x (nextToken rest stop) ∧
      OperatorsAndOperands env rest stop

/-- The tokens of a list of pairs (operator token, operand token). -/
def tokensOf : List (TokenWrapper × TokenWrapper) → List TokenWrapper
  | [] => []
  | (op, x) :: rest => op :: x :: tokensOf rest

/-- The traversal elements of a list of pairs (operator token, operand
token): the kind of the operator token, the node of the operand token. -/
def itemsOf : List (TokenWrapper × TokenWrapper) → List Item
  | [] => []
  | (op, x) :: rest =>
    Item.operator op.type :: Item.operand (operandNode x) :: itemsOf rest

/-- From index `i` on, the vector `toks` holds the pairs `rest` (operator
token with a precedence, number or variable token) and then the token
`stop`. -/
def ChainAt (env : Externals) (toks : List TokenWrapper) (stop : TokenWrapper) :
    Nat → List (TokenWrapper × TokenWrapper) → Prop
  | i, [] => toks[i]? = some stop
  | i, (op, x) :: rest =>
    toks[i]? = some op ∧ toks[i + 1]? = some x ∧ HasPrecedence env op.type ∧
      IsOperand x (nextToken rest stop) ∧ ChainAt env toks stop (i + 2) rest

/-- The token kind is an end-of-stream kind: it has no precedence and is
none of identifier, number, `(`, `)`, `,`, `=`, `if`, `then`, `else`, `for`,
`in`, `def`, `extern`. -/
def IsEndKind (env : Externals) (ty : Token) : Prop :=
  ¬ HasPrecedence env ty ∧ ty ≠ Token.tok_identifier ∧ ty ≠ Token.tok_number ∧
    ty ≠ Token.tok_lparen ∧ ty ≠ Token.tok_rparen ∧ ty ≠ Token.tok_comma ∧
    ty ≠ Token.tok_equal ∧ ty ≠ Token.tok_if ∧ ty ≠ Token.tok_then ∧
    ty ≠ Token.tok_else ∧ ty ≠ Token.tok_for ∧ ty ≠ Token.tok_in ∧
    ty ≠ Token.tok_def ∧ ty ≠ Token.tok_extern

/-- The last token of the vector is an end-of-stream token. -/
def EndsWithEndKind (env : Externals) (toks : List TokenWrapper) : Prop :=
  ∃ e, toks.getLast? = some e ∧ IsEndKind env e.type

/-- State `q` has the vector `toks` and its cursor is on a token. -/
def OnToken (toks : List TokenWrapper) (q : ListParser) : Prop :=
  q.tokens = toks ∧ q.curr_token < toks.length

/-- No read of the call was a read past the end of the token vector. -/
def InBounds {α : Type} (r : Outcome α) : Prop :=
  ∀ i, r ≠ Outcome.undefined (Undefined.outOfBounds i)

/-- No read of the call was a read past the end of the token vector, and when
the call returned a node, the returned state satisfies `P`. -/
def SafeOut {α : Type} (P : ListParser → Prop) : Outcome α → Prop
  | Outcome.ok _ q => P q
  | Outcome.absent _ _ => True
  | Outcome.undefined (Undefined.outOfBounds _) => False
  | Outcome.undefined Undefined.noReturn => True
  | Outcome.outOfFuel => True

/-- State `q` has the vector `toks` and its cursor is on a `)`. -/
def OnRparen (toks : List TokenWrapper) (q : ListParser) : Prop :=
  OnToken toks q ∧ ∃ t, q.peek = some t ∧ t.type = Token.tok_rparen

/-- The failure of a sub-parse with outcome `s` is the failure of the call
with outcome `r`: when `s` is an absent result, `r` is the absent result with
the same message and the same parser state, so that the cursor is where the
sub-parse left it. -/
def HandsOn {α β : Type} (s : Outcome α) (r : Outcome β) : Prop :=
  ∀ msg q, s = Outcome.absent msg q → r = Outcome.absent msg q

/-- The call did not end at the closing brace of a function without a
`return`. -/
def ReachesReturn {α : Type} (r : Outcome α) : Prop :=
  r ≠ Outcome.undefined Undefined.noReturn

end ListParser

/-! ## Example inputs -/

namespace Example

/-- An operator table and enumerator values in the style of the Kaleidoscope
tutorial: `<` (symbol 0) has precedence 10, `+` and `-` (1, 2) have 20, `*`
(3) has 40, every other kind has none (-1); the named kinds are numbered
-1, -2, ... and symbol `s` has value `s + 1`. -/
def env : Externals where
  getTokenPrecedence := fun ty =>
    match ty with
    | Token.tok_op 0 => 10
    | Token.tok_op 1 => 20
    | Token.tok_op 2 => 20
    | Token.tok_op 3 => 40
    | _ => -1
  tokenValue := fun ty =>
    match ty with
    | Token.tok_eof => -1
    | Token.tok_def => -2
    | Token.tok_extern => -3
    | Token.tok_identifier => -4
    | Token.tok_number => -5
    | Token.tok_if => -6
    | Token.tok_then => -7
    | Token.tok_else => -8
    | Token.tok_for => -9
    | Token.tok_in => -10
    | Token.tok_lparen => -11
    | Token.tok_rparen => -12
    | Token.tok_comma => -13
    | Token.tok_equal => -14
    | Token.tok_op sym => (sym : Int) + 1
  formatToken := fun _ => "token"

/-- The example table with the value 0 for the enumerator `tok_then` (as if it
were the first enumerator of an `enum` without initialisers). -/
def envThenZero : Externals where
  getTokenPrecedence := env.getTokenPrecedence
  tokenValue := fun ty =>
    match ty with
    | Token.tok_then => 0
    | ty => env.tokenValue ty
  formatToken := env.formatToken

/-- A token without payload. -/
def tk (ty : Token) : TokenWrapper := ⟨ty, 0, ""⟩

/-- A number token. -/
def num (v : Int) : TokenWrapper := ⟨Token.tok_number, v, ""⟩

/-- An identifier token. -/
def ident (s : String) : TokenWrapper := ⟨Token.tok_identifier, 0, s⟩

/-- The stream `a + b * c` and end of stream. -/
def sumProduct : List TokenWrapper :=
  [ident "a", tk (Token.tok_op 1), ident "b", tk (Token.tok_op 3), ident "c", tk Token.tok_eof]

/-- The stream `if x then 1 else 2` and end of stream. -/
def ifThenElse : List TokenWrapper :=
  [tk Token.tok_if, ident "x", tk Token.tok_then, num 1, tk Token.tok_else, num 2,
    tk Token.tok_eof]

/-- The stream `f(a, b, c)` and end of stream. -/
def callThree : List TokenWrapper :=
  [ident "f", tk Token.tok_lparen, ident "a", tk Token.tok_comma, ident "b",
    tk Token.tok_comma, ident "c", tk Token.tok_rparen, tk Token.tok_eof]

/-- The stream `f()` and end of stream. -/
def callNone : List TokenWrapper :=
  [ident "f", tk Token.tok_lparen, tk Token.tok_rparen, tk Token.tok_eof]

/-- The stream `for i = 0, 10, 1 in body` and end of stream. -/
def forStep : List TokenWrapper :=
  [tk Token.tok_for, ident "i", tk Token.tok_equal, num 0, tk Token.tok_comma, num 10,
    tk Token.tok_comma, num 1, tk Token.tok_in, ident "body", tk Token.tok_eof]

/-- The stream `for i = 0, 10 in body` and end of stream. -/
def forNoStep : List TokenWrapper :=
  [tk Token.tok_for, ident "i", tk Token.tok_equal, num 0, tk Token.tok_comma, num 10,
    tk Token.tok_in, ident "body", tk Token.tok_eof]

/-- The stream `( (1) )`. -/
def nestedParens : List TokenWrapper :=
  [tk Token.tok_lparen, tk Token.tok_lparen, num 1, tk Token.tok_rparen, tk Token.tok_rparen]

/-- The stream `f(a b c)` and end of stream. -/
def protoSpaces : List TokenWrapper :=
  [ident "f", tk Token.tok_lparen, ident "a", ident "b", ident "c", tk Token.tok_rparen,
    tk Token.tok_eof]

/-- The stream `def f() )` and end of stream: the prototype `f()` followed by
a token that starts no expression. -/
def defBadBody : List TokenWrapper :=
  [tk Token.tok_def, ident "f", tk Token.tok_lparen, tk Token.tok_rparen, tk Token.tok_rparen,
    tk Token.tok_eof]

/-- The stream `if x else 2` and end of stream. -/
def ifNoThen : List TokenWrapper :=
  [tk Token.tok_if, ident "x", tk Token.tok_else, num 2, tk Token.tok_eof]

/-- The stream `ifNoThen` with `then` in the place of its `else`. -/
def ifNoThenAfter : List TokenWrapper :=
  [tk Token.tok_if, ident "x", tk Token.tok_then, num 2, tk Token.tok_eof]

/-- The stream `if x , 1 else 2` and end of stream: a comma where `then`
belongs. -/
def ifComma : List TokenWrapper :=
  [tk Token.tok_if, ident "x", tk Token.tok_comma, num 1, tk Token.tok_else, num 2,
    tk Token.tok_eof]

/-- The stream `ifComma` with `then` in the place of its comma. -/
def ifCommaAfter : List TokenWrapper :=
  [tk Token.tok_if, ident "x", tk Token.tok_then, num 1, tk Token.tok_else, num 2,
    tk Token.tok_eof]

/-- The stream `)` and end of stream: no expression starts here. -/
def noExpression : List TokenWrapper :=
  [tk Token.tok_rparen, tk Token.tok_eof]

/-- The stream `f(a,)` and end of stream. -/
def callTrailingComma : List TokenWrapper :=
  [ident "f", tk Token.tok_lparen, ident "a", tk Token.tok_comma, tk Token.tok_rparen,
    tk Token.tok_eof]

/-- The stream `f(a = b)` and end of stream: neither `)` nor `,` after the
first argument. -/
def callNoSeparator : List TokenWrapper :=
  [ident "f", tk Token.tok_lparen, ident "a", tk Token.tok_equal, ident "b",
    tk Token.tok_rparen, tk Token.tok_eof]

/-- The stream `for 1` and end of stream. -/
def forNoIdentifier : List TokenWrapper :=
  [tk Token.tok_for, num 1, tk Token.tok_eof]

/-- The stream `for i = 0, 10 then` and end of stream: no `in`. -/
def forNoIn : List TokenWrapper :=
  [tk Token.tok_for, ident "i", tk Token.tok_equal, num 0, tk Token.tok_comma, num 10,
    tk Token.tok_then, tk Token.tok_eof]

/-- The tokens of `1 - 2 - 3 * 4 + 5` followed by the end of the input. -/
def fiveOperands : List TokenWrapper :=
  [num 1, tk (Token.tok_op 2), num 2, tk (Token.tok_op 2), num 3, tk (Token.tok_op 3),
    num 4, tk (Token.tok_op 1), num 5, tk Token.tok_eof]

/-- The stream `( 1` and end of stream: the `)` is missing. -/
def parenNoClose : List TokenWrapper :=
  [tk Token.tok_lparen, num 1, tk Token.tok_eof]

end Example


/-! ## Predicates and example inputs for lookup and lowering -/

namespace llvm

/-- The instruction is an address computation or a store. -/
def Instruction.isAccess : Instruction → Bool
  | Instruction.GetElementPtr _ _ _ _ => true
  | Instruction.Store _ _ => true
  | Instruction.other _ => false

end llvm

namespace Example

/-- A prototype `f(a b)`. -/
def protoF : PrototypeAST := { name := "f", args := ["a", "b"] }

/-- Globals in which the module has a function `f` and `FunctionProtos` has
entries for `f` and for `g`. -/
def globals : Globals where
  TheModule := { functions := [("f", { id := 1 })] }
  FunctionProtos := [("f", protoF), ("g", { name := "g", args := [] })]

/-- A stand-in for `PrototypeAST::codegen`: it adds a function of the
prototype's name to the module and returns it. -/
def protoCodegen (proto : PrototypeAST) (g : Globals) : Option llvm.Function × Globals :=
  (some { id := 7 },
    { g with TheModule := { functions := g.TheModule.functions ++ [(proto.name, { id := 7 })] } })

/-- The node `Pose2D` with fields `x`, `y`, `theta` and destination `pose`. -/
def pose : Pose2dExprAST where
  x := ExprAST.VariableExprAST "x"
  y := ExprAST.VariableExprAST "y"
  theta := ExprAST.VariableExprAST "theta"
  destination := ExprAST.VariableExprAST "pose"

/-- A lowering of the sub-expressions that inserts one instruction for each:
`x` lowers to value 1 and inserts instruction 1, `y` to 2, `theta` to 3,
`pose` to the storage handle 4 and inserts instruction 4; other expressions
do not lower. -/
def lowerMarked (e : ExprAST) (b : llvm.IRBuilder) : Option llvm.Value × llvm.IRBuilder :=
  match e with
  | ExprAST.VariableExprAST "x" =>
    (some (llvm.Value.named 1), { instructions := b.instructions ++ [llvm.Instruction.other 1] })
  | ExprAST.VariableExprAST "y" =>
    (some (llvm.Value.named 2), { instructions := b.instructions ++ [llvm.Instruction.other 2] })
  | ExprAST.VariableExprAST "theta" =>
    (some (llvm.Value.named 3), { instructions := b.instructions ++ [llvm.Instruction.other 3] })
  | ExprAST.VariableExprAST "pose" =>
    (some (llvm.Value.named 4), { instructions := b.instructions ++ [llvm.Instruction.other 4] })
  | _ => (none, b)

/-- The same lowering, except that `x` does not lower: an unbound variable. -/
def lowerXFails (e : ExprAST) (b : llvm.IRBuilder) : Option llvm.Value × llvm.IRBuilder :=
  match e with
  | ExprAST.VariableExprAST "x" => (none, b)
  | e => lowerMarked e b

/-- A lowering under which no expression lowers: every result is null and no
instruction is inserted. -/
def lowerNone (_ : ExprAST) (b : llvm.IRBuilder) : Option llvm.Value × llvm.IRBuilder :=
  (none, b)

end Example
/-! ## Cursor lemmas -/

namespace ListParser

@[simp] theorem next_tokens (p : ListParser) : p.next.tokens = p.tokens := rfl

@[simp] theorem next_curr_token (p : ListParser) : p.next.curr_token = p.curr_token + 1 := rfl

@[simp] theorem assignType_curr_token (p : ListParser) (t : TokenWrapper) (ty : Token) :
    (p.assignType t ty).curr_token = p.curr_token := rfl

@[simp] theorem assignType_length (p : ListParser) (t : TokenWrapper) (ty : Token) :
    (p.assignType t ty).tokens.length = p.tokens.length := by
  simp [assignType]

theorem peek_lt {p : ListParser} {t : TokenWrapper} (h : p.peek = some t) :
    p.curr_token < p.tokens.length := by
  unfold peek at h
  exact (List.getElem?_eq_some.mp h).1

theorem peek_none_of_le {p : ListParser} (h : p.tokens.length ≤ p.curr_token) :
    p.peek = none := by
  unfold peek
  exact List.getElem?_eq_none h

theorem Reach.trans {p q r : ListParser} (h₁ : Reach p q) (h₂ : Reach q r) : Reach p r := by
  unfold Reach at *
  omega

theorem reach_self_of_lt {p : ListParser} (h : p.curr_token < p.tokens.length) :
    Reach p p :=
  ⟨h, rfl, Nat.le_refl _, Nat.le_of_lt h⟩

theorem reach_next_of_lt {p : ListParser} (h : p.curr_token < p.tokens.length) :
    Reach p p.next :=
  ⟨h, rfl, Nat.le_succ _, h⟩

theorem reach_self {p : ListParser} {t : TokenWrapper} (h : p.peek = some t) : Reach p p :=
  reach_self_of_lt (peek_lt h)

theorem reach_next {p : ListParser} {t : TokenWrapper} (h : p.peek = some t) :
    Reach p p.next :=
  reach_next_of_lt (peek_lt h)

theorem reach_assign {p : ListParser} {t : TokenWrapper} (h : p.peek = some t) (ty : Token) :
    Reach p (p.assignType t ty) :=
  ⟨peek_lt h, assignType_length p t ty, Nat.le_refl _,
    (assignType_length p t ty).symm ▸ Nat.le_of_lt (peek_lt h)⟩

theorem reach_assign_next {p : ListParser} {t : TokenWrapper} (h : p.peek = some t)
    (ty : Token) : Reach p (p.assignType t ty).next :=
  ⟨peek_lt h, assignType_length p t ty, Nat.le_succ _,
    (assignType_length p t ty).symm ▸ peek_lt h⟩

theorem reach_of_next {p q : ListParser} (h : Reach p.next q) : Reach p q := by
  obtain ⟨h1, h2, h3, h4⟩ := h
  rw [next_tokens] at h1 h2
  rw [next_curr_token] at h1 h3
  exact ⟨by omega, h2, by omega, h4⟩

theorem Post.of_reach {α : Type} {p q : ListParser} {r : Outcome α} (h : Reach p q)
    (hr : Post q r) : Post p r := by
  cases r with
  | ok a s => exact h.trans hr
  | absent msg s => exact h.trans hr
  | undefined u =>
    cases u with
    | outOfBounds i => exact fun _ => (hr h.2.2.2).trans h.2.1
    | noReturn => trivial
  | outOfFuel => exact hr

theorem Post.of_next {α : Type} {p : ListParser} {r : Outcome α} (hr : Post p.next r) :
    PostS p r := by
  cases r with
  | ok a s => exact reach_of_next hr
  | absent msg s => exact reach_of_next hr
  | undefined u =>
    cases u with
    | outOfBounds i => exact fun hlt => hr hlt
    | noReturn => trivial
  | outOfFuel => exact hr

theorem PostS.post {α : Type} {p : ListParser} {r : Outcome α} (hr : PostS p r)
    (hlt : p.curr_token < p.tokens.length) : Post p r := by
  cases r with
  | ok a s => exact hr
  | absent msg s => exact hr
  | undefined u =>
    cases u with
    | outOfBounds i => exact fun _ => hr hlt
    | noReturn => trivial
  | outOfFuel => exact hr

theorem Post.postS {α : Type} {p : ListParser} {r : Outcome α} (hr : Post p r) :
    PostS p r := by
  cases r with
  | ok a s => exact hr
  | absent msg s => exact hr
  | undefined u =>
    cases u with
    | outOfBounds i => exact fun hlt => hr (Nat.le_of_lt hlt)
    | noReturn => trivial
  | outOfFuel => exact hr

theorem Post.undefined_cast {α β : Type} {p : ListParser} {u : Undefined}
    (h : Post (α := α) p (Outcome.undefined u)) : Post (α := β) p (Outcome.undefined u) := by
  cases u with
  | outOfBounds i => exact h
  | noReturn => trivial

theorem post_ne_outOfFuel {α : Type} {p : ListParser} {r : Outcome α} (h : Post p r) :
    r ≠ Outcome.outOfFuel := by
  intro e
  rw [e] at h
  exact h

theorem postS_ne_outOfFuel {α : Type} {p : ListParser} {r : Outcome α} (h : PostS p r) :
    r ≠ Outcome.outOfFuel := by
  intro e
  rw [e] at h
  exact h

/-- A read with the cursor past the last token is a read right after it, when
the cursor was not further. -/
theorem post_outOfBounds {α : Type} {p : ListParser} (h : p.peek = none) :
    Post (α := α) p (Outcome.undefined (Undefined.outOfBounds p.curr_token)) := by
  intro hle
  unfold peek at h
  have := List.getElem?_eq_none_iff.mp h
  omega

/-- Two runs of `r.andThen k` agree, and satisfy `Post`, when their parts do. -/
theorem andThen_agree {α β : Type} {p : ListParser} {r r' : Outcome α}
    {k k' : α → ListParser → Outcome β} (hr : r = r' ∧ Post p r)
    (hk : ∀ a q, r = Outcome.ok a q → Reach p q → k a q = k' a q ∧ Post p (k a q)) :
    r.andThen k = r'.andThen k' ∧ Post p (r.andThen k) := by
  obtain ⟨rfl, hp⟩ := hr
  cases r with
  | ok a q => exact hk a q rfl hp
  | absent msg q => exact ⟨rfl, hp⟩
  | undefined u =>
    exact ⟨rfl, hp.undefined_cast⟩
  | outOfFuel => exact ⟨rfl, hp⟩

/-- Two runs of a read agree, and satisfy `Post`, when their continuations do. -/
theorem read_agree {β : Type} {p : ListParser} {k k' : TokenWrapper → Outcome β}
    (hk : ∀ t, p.peek = some t → k t = k' t ∧ Post p (k t)) :
    p.read k = p.read k' ∧ Post p (p.read k) := by
  unfold read
  cases h : p.peek with
  | none => exact ⟨rfl, post_outOfBounds h⟩
  | some t => exact hk t h

theorem agree_of_reach {β : Type} {p q : ListParser} {r r' : Outcome β} (h : Reach p q)
    (hr : r = r' ∧ Post q r) : r = r' ∧ Post p r :=
  ⟨hr.1, Post.of_reach h hr.2⟩

theorem agree_of_next {β : Type} {p : ListParser} {r r' : Outcome β}
    (hr : r = r' ∧ Post p.next r) : r = r' ∧ PostS p r :=
  ⟨hr.1, Post.of_next hr.2⟩

theorem parseNumberExpr_post (p : ListParser) : Post p (parseNumberExpr p) :=
  (@read_agree ExprAST p _ (fun t => Outcome.ok (ExprAST.NumberExprAST t.value) p.next)
    (fun _ ht => ⟨rfl, reach_next ht⟩)).2

/-! ## Each method body depends only on how the methods it calls behave ahead
of the cursor -/

theorem parseParenExprBody_agree {f g : ListParser → Outcome ExprAST} {p : ListParser}
    (h : f p.next = g p.next ∧ Post p.next (f p.next)) :
    parseParenExprBody f p = parseParenExprBody g p ∧ PostS p (parseParenExprBody f p) := by
  unfold parseParenExprBody
  apply agree_of_next
  apply andThen_agree h
  intro V q _ hq
  apply agree_of_reach hq
  apply read_agree
  intro t ht
  split
  · exact ⟨rfl, reach_self ht⟩
  · exact ⟨rfl, reach_next ht⟩

theorem parseArgsBody_agree {f g : ListParser → Outcome ExprAST}
    {fa ga : List ExprAST → ListParser → Outcome (List ExprAST)} {p : ListParser}
    (a : List ExprAST) (h : f p = g p ∧ Post p (f p))
    (ha : ∀ b q, q.tokens.length = p.tokens.length → p.curr_token < q.curr_token →
      q.curr_token ≤ q.tokens.length → fa b q = ga b q ∧ PostArgs q (fa b q)) :
    parseArgsBody f fa a p = parseArgsBody g ga a p ∧ PostArgs p (parseArgsBody f fa a p) := by
  have key : ∀ argument q, Reach p q →
      (q.read fun t =>
        if t.type = Token.tok_rparen then Outcome.ok (a ++ [argument]) q
        else if t.type = Token.tok_comma then fa (a ++ [argument]) q.next
        else LogError "Expected ')' or ',' in the argument list" q) =
      (q.read fun t =>
        if t.type = Token.tok_rparen then Outcome.ok (a ++ [argument]) q
        else if t.type = Token.tok_comma then ga (a ++ [argument]) q.next
        else LogError "Expected ')' or ',' in the argument list" q) ∧
      PostArgs q (q.read fun t =>
        if t.type = Token.tok_rparen then Outcome.ok (a ++ [argument]) q
        else if t.type = Token.tok_comma then fa (a ++ [argument]) q.next
        else LogError "Expected ')' or ',' in the argument list" q) := by
    intro argument q hq
    unfold read
    cases ht : q.peek with
    | none =>
      exact ⟨rfl, post_outOfBounds ht, fun _ _ h => by cases h⟩
    | some t =>
      have hlt := peek_lt ht
      by_cases h1 : t.type = Token.tok_rparen
      · simp only [h1, if_true]
        refine ⟨trivial, reach_self ht, fun _ _ h => ?_⟩
        cases h
        exact hlt
      · by_cases h2 : t.type = Token.tok_comma
        · simp only [h2, if_true, if_false, reduceCtorEq]
          have hn := reach_next ht
          have hh := ha (a ++ [argument]) q.next (hn.2.1.trans hq.2.1)
            (by have := hq.2.2.1; simp only [next_curr_token]; omega) hn.2.2.2
          exact ⟨hh.1, Post.of_reach hn hh.2.1, hh.2.2⟩
        · simp only [h1, h2, if_false]
          exact ⟨trivial, reach_self ht, fun _ _ h => by cases h⟩
  unfold parseArgsBody
  obtain ⟨he, hp⟩ := h
  rw [← he]
  cases hf : f p with
  | ok argument q =>
    rw [hf] at hp
    have := key argument q hp
    exact ⟨this.1, Post.of_reach hp this.2.1, this.2.2⟩
  | absent msg q =>
    rw [hf] at hp
    exact ⟨rfl, hp, fun _ _ h => by cases h⟩
  | undefined u =>
    rw [hf] at hp
    exact ⟨rfl, hp.undefined_cast, fun _ _ h => by cases h⟩
  | outOfFuel =>
    rw [hf] at hp
    exact hp.elim

theorem parseIdentifierExprBody_agree
    {fa ga : List ExprAST → ListParser → Outcome (List ExprAST)} {p : ListParser}
    (ha : ∀ q, q.tokens.length = p.tokens.length → p.curr_token + 2 ≤ q.curr_token →
      q.curr_token ≤ q.tokens.length → fa [] q = ga [] q ∧ PostArgs q (fa [] q)) :
    parseIdentifierExprBody fa p = parseIdentifierExprBody ga p ∧
      Post p (parseIdentifierExprBody fa p) := by
  unfold parseIdentifierExprBody
  apply read_agree
  intro t ht
  have h1 := reach_next ht
  apply agree_of_reach h1
  apply read_agree
  intro t1 ht1
  split
  · exact ⟨rfl, reach_self ht1⟩
  · have h2 := reach_next ht1
    apply agree_of_reach h2
    apply read_agree
    intro t2 ht2
    split
    · have hh := ha p.next.next (h2.2.1.trans h1.2.1)
        (by simp only [next_curr_token]; omega) h2.2.2.2
      apply andThen_agree ⟨hh.1, hh.2.1⟩
      intro arguments q hq hr
      have hlt := hh.2.2 arguments q hq
      exact ⟨rfl, hr.trans (reach_next_of_lt hlt)⟩
    · exact ⟨rfl, reach_next ht2⟩

theorem parsePrimaryBody_agree (env : Externals)
    {f₁ g₁ f₂ g₂ f₃ g₃ f₄ g₄ : ListParser → Outcome ExprAST} {p : ListParser}
    (h₁ : p.curr_token < p.tokens.length → f₁ p = g₁ p ∧ Post p (f₁ p))
    (h₂ : p.curr_token < p.tokens.length → f₂ p = g₂ p ∧ PostS p (f₂ p))
    (h₃ : p.curr_token < p.tokens.length → f₃ p = g₃ p ∧ PostS p (f₃ p))
    (h₄ : p.curr_token < p.tokens.length → f₄ p = g₄ p ∧ PostS p (f₄ p)) :
    parsePrimaryBody env f₁ f₂ f₃ f₄ p = parsePrimaryBody env g₁ g₂ g₃ g₄ p ∧
      Post p (parsePrimaryBody env f₁ f₂ f₃ f₄ p) := by
  unfold parsePrimaryBody
  apply read_agree
  intro t ht
  have hlt := peek_lt ht
  split
  · exact h₁ hlt
  · exact ⟨rfl, parseNumberExpr_post p⟩
  · exact ⟨(h₂ hlt).1, (h₂ hlt).2.post hlt⟩
  · exact ⟨(h₃ hlt).1, (h₃ hlt).2.post hlt⟩
  · exact ⟨(h₄ hlt).1, (h₄ hlt).2.post hlt⟩
  · exact ⟨rfl, reach_self ht⟩

theorem parseBinOpRHSBody_agree (env : Externals)
    {f g : ListParser → Outcome ExprAST}
    {fb gb : Int → ExprAST → ListParser → Outcome ExprAST} {p : ListParser}
    (c : Int) (l : ExprAST)
    (h : ∀ q, q.tokens.length = p.tokens.length → p.curr_token < q.curr_token →
      q.curr_token ≤ q.tokens.length → f q = g q ∧ Post q (f q))
    (hb : ∀ c l q, q.tokens.length = p.tokens.length → p.curr_token < q.curr_token →
      q.curr_token ≤ q.tokens.length → fb c l q = gb c l q ∧ Post q (fb c l q)) :
    parseBinOpRHSBody env f fb c l p = parseBinOpRHSBody env g gb c l p ∧
      Post p (parseBinOpRHSBody env f fb c l p) := by
  unfold parseBinOpRHSBody
  apply read_agree
  intro t ht
  dsimp only
  split
  · exact ⟨rfl, reach_self ht⟩
  · have h1 := reach_next ht
    apply agree_of_reach h1
    apply andThen_agree
      (h p.next h1.2.1 (by simp only [next_curr_token]; omega) h1.2.2.2)
    intro right_side q _ hq
    have hq1 : q.tokens.length = p.tokens.length := hq.2.1.trans h1.2.1
    have hq2 : p.curr_token < q.curr_token := by
      have := hq.2.2.1
      simp only [next_curr_token] at this
      omega
    apply agree_of_reach hq
    apply read_agree
    intro t' _
    dsimp only
    split
    · apply andThen_agree (hb _ _ q hq1 hq2 hq.2.2.2)
      intro right_side' q' _ hq'
      apply agree_of_reach hq'
      exact hb _ _ q' (hq'.2.1.trans hq1) (by have := hq'.2.2.1; omega) hq'.2.2.2
    · exact hb _ _ q hq1 hq2 hq.2.2.2

theorem parseExpressionBody_agree
    {f g : ListParser → Outcome ExprAST}
    {fb gb : Int → ExprAST → ListParser → Outcome ExprAST} {p : ListParser}
    (h : f p = g p ∧ Post p (f p))
    (hb : ∀ c l q, q.tokens.length = p.tokens.length → p.curr_token ≤ q.curr_token →
      fb c l q = gb c l q ∧ Post q (fb c l q)) :
    parseExpressionBody f fb p = parseExpressionBody g gb p ∧
      Post p (parseExpressionBody f fb p) := by
  unfold parseExpressionBody
  apply andThen_agree h
  intro left_side q _ hq
  apply agree_of_reach hq
  exact hb _ _ q hq.2.1 hq.2.2.1

theorem parseIfExprBody_agree (env : Externals) {f g : ListParser → Outcome ExprAST}
    {p : ListParser}
    (h : ∀ q, q.tokens.length = p.tokens.length → p.curr_token < q.curr_token →
      f q = g q ∧ Post q (f q)) :
    parseIfExprBody env f p = parseIfExprBody env g p ∧
      PostS p (parseIfExprBody env f p) := by
  unfold parseIfExprBody
  apply agree_of_next
  apply andThen_agree (h p.next rfl (by simp only [next_curr_token]; omega))
  intro condition q _ hq
  have hq1 : q.tokens.length = p.tokens.length := hq.2.1
  have hq2 : p.curr_token < q.curr_token := by
    have := hq.2.2.1
    simp only [next_curr_token] at this
    omega
  apply agree_of_reach hq
  apply read_agree
  intro t ht
  split
  · exact ⟨rfl, reach_assign ht _⟩
  · apply agree_of_reach (reach_assign_next ht Token.tok_then)
    apply andThen_agree
      (h _ (by simp only [next_tokens, assignType_length]; exact hq1)
        (by simp only [next_curr_token, assignType_curr_token]; omega))
    intro then_expression q' _ hq'
    have hq1' : q'.tokens.length = p.tokens.length := by
      have := hq'.2.1
      simp only [next_tokens, assignType_length] at this
      omega
    have hq2' : p.curr_token < q'.curr_token := by
      have := hq'.2.2.1
      simp only [next_curr_token, assignType_curr_token] at this
      omega
    apply agree_of_reach hq'
    apply read_agree
    intro t' ht'
    split
    · exact ⟨rfl, reach_self ht'⟩
    · apply agree_of_reach (reach_next ht')
      apply andThen_agree
        (h _ (by simp only [next_tokens]; exact hq1')
          (by simp only [next_curr_token]; omega))
      intro else_expression q'' _ hq''
      exact ⟨rfl, hq''⟩

theorem parseForExprIn_agree {f g : ListParser → Outcome ExprAST} {p : ListParser}
    (identifier : String) (start end_ : ExprAST) (step : Option ExprAST)
    (h : ∀ q, q.tokens.length = p.tokens.length → p.curr_token < q.curr_token →
      f q = g q ∧ Post q (f q)) :
    parseForExprIn f identifier start end_ step p =
        parseForExprIn g identifier start end_ step p ∧
      Post p (parseForExprIn f identifier start end_ step p) := by
  unfold parseForExprIn
  apply read_agree
  intro t ht
  split
  · exact ⟨rfl, reach_self ht⟩
  · apply agree_of_reach (reach_next ht)
    dsimp only
    apply andThen_agree (h p.next rfl (by simp only [next_curr_token]; omega))
    intro body q _ hq
    exact ⟨rfl, hq⟩

theorem parseForExprBody_agree {f g : ListParser → Outcome ExprAST} {p : ListParser}
    (h : ∀ q, q.tokens.length = p.tokens.length → p.curr_token < q.curr_token →
      f q = g q ∧ Post q (f q)) :
    parseForExprBody f p = parseForExprBody g p ∧ PostS p (parseForExprBody f p) := by
  unfold parseForExprBody
  apply agree_of_next
  apply read_agree
  intro t ht
  split
  · exact ⟨rfl, reach_self ht⟩
  · apply agree_of_reach (reach_next ht)
    dsimp only
    apply read_agree
    intro t1 ht1
    split
    · exact ⟨rfl, reach_self ht1⟩
    · apply agree_of_reach (reach_next ht1)
      dsimp only
      apply andThen_agree
        (h p.next.next.next rfl (by simp only [next_curr_token]; omega))
      intro start q _ hq
      have hq1 : q.tokens.length = p.tokens.length := hq.2.1
      have hq2 : p.curr_token < q.curr_token := by
        have := hq.2.2.1
        simp only [next_curr_token] at this
        omega
      apply agree_of_reach hq
      apply read_agree
      intro t2 ht2
      split
      · exact ⟨rfl, reach_self ht2⟩
      · apply agree_of_reach (reach_next ht2)
        dsimp only
        apply andThen_agree
          (h q.next (by simp only [next_tokens]; exact hq1)
            (by simp only [next_curr_token]; omega))
        intro end_ q' _ hq'
        have hq1' : q'.tokens.length = p.tokens.length := by
          have := hq'.2.1
          simp only [next_tokens] at this
          omega
        have hq2' : p.curr_token < q'.curr_token := by
          have := hq'.2.2.1
          simp only [next_curr_token] at this
          omega
        apply agree_of_reach hq'
        apply read_agree
        intro t3 ht3
        split
        · apply agree_of_reach (reach_next ht3)
          dsimp only
          apply andThen_agree
            (h q'.next (by simp only [next_tokens]; exact hq1')
              (by simp only [next_curr_token]; omega))
          intro step q'' _ hq''
          apply agree_of_reach hq''
          apply parseForExprIn_agree
          intro s hs1 hs2
          apply h
          · have := hq''.2.1
            simp only [next_tokens] at this
            omega
          · have := hq''.2.2.1
            simp only [next_curr_token] at this
            omega
        · apply parseForExprIn_agree
          intro s hs1 hs2
          exact h s (hs1.trans hq1') (by omega)

/-! ## The call-depth budget suffices -/

/-- With a budget of at least three levels per remaining token (plus a
constant that depends on the method), a larger budget changes nothing, the
budget is not used up, and a returned state follows the start state. -/
theorem fuel_agree (env : Externals) (n : Nat) :
    (∀ p m, 3 * remaining p + 2 ≤ n → n ≤ m →
      parsePrimaryFuel env n p = parsePrimaryFuel env m p ∧
        Post p (parsePrimaryFuel env n p)) ∧
    (∀ p m, 3 * remaining p + 1 ≤ n → n ≤ m →
      parseIdentifierExprFuel env n p = parseIdentifierExprFuel env m p ∧
        Post p (parseIdentifierExprFuel env n p)) ∧
    (∀ a p m, 3 * remaining p + 4 ≤ n → n ≤ m →
      parseArgsFuel env n a p = parseArgsFuel env m a p ∧
        PostArgs p (parseArgsFuel env n a p)) ∧
    (∀ p m, 3 * remaining p + 1 ≤ n → 4 ≤ n → n ≤ m →
      parseParenExprFuel env n p = parseParenExprFuel env m p ∧
        PostS p (parseParenExprFuel env n p)) ∧
    (∀ p m, 3 * remaining p + 1 ≤ n → 4 ≤ n → n ≤ m →
      parseIfExprFuel env n p = parseIfExprFuel env m p ∧
        PostS p (parseIfExprFuel env n p)) ∧
    (∀ p m, 3 * remaining p + 1 ≤ n → 4 ≤ n → n ≤ m →
      parseForExprFuel env n p = parseForExprFuel env m p ∧
        PostS p (parseForExprFuel env n p)) ∧
    (∀ c l p m, 3 * remaining p + 1 ≤ n → n ≤ m →
      parseBinOpRHSFuel env n c l p = parseBinOpRHSFuel env m c l p ∧
        Post p (parseBinOpRHSFuel env n c l p)) ∧
    (∀ p m, 3 * remaining p + 3 ≤ n → n ≤ m →
      parseExpressionFuel env n p = parseExpressionFuel env m p ∧
        Post p (parseExpressionFuel env n p)) := by
  induction n with
  | zero =>
    refine ⟨?_, ?_, ?_, ?_, ?_, ?_, ?_, ?_⟩ <;> intros <;> omega
  | succ n ih =>
    obtain ⟨ihPr, ihId, ihA, ihParen, ihIf, ihFor, ihB, ihE⟩ := ih
    refine ⟨?_, ?_, ?_, ?_, ?_, ?_, ?_, ?_⟩
    · intro p m hn hm
      obtain ⟨m, rfl⟩ : ∃ k, m = k + 1 := ⟨m - 1, by omega⟩
      simp only [parsePrimaryFuel]
      unfold remaining at hn
      apply parsePrimaryBody_agree
      · intro hlt
        exact ihId p m (by unfold remaining; omega) (by omega)
      · intro hlt
        exact ihParen p m (by unfold remaining; omega) (by omega) (by omega)
      · intro hlt
        exact ihIf p m (by unfold remaining; omega) (by omega) (by omega)
      · intro hlt
        exact ihFor p m (by unfold remaining; omega) (by omega) (by omega)
    · intro p m hn hm
      obtain ⟨m, rfl⟩ : ∃ k, m = k + 1 := ⟨m - 1, by omega⟩
      simp only [parseIdentifierExprFuel]
      unfold remaining at hn
      apply parseIdentifierExprBody_agree
      intro q h1 h2 h3
      exact ihA [] q m (by unfold remaining; omega) (by omega)
    · intro a p m hn hm
      obtain ⟨m, rfl⟩ : ∃ k, m = k + 1 := ⟨m - 1, by omega⟩
      simp only [parseArgsFuel]
      unfold remaining at hn
      apply parseArgsBody_agree
      · exact ihE p m (by unfold remaining; omega) (by omega)
      · intro b q h1 h2 h3
        exact ihA b q m (by unfold remaining; omega) (by omega)
    · intro p m hn h4 hm
      obtain ⟨m, rfl⟩ : ∃ k, m = k + 1 := ⟨m - 1, by omega⟩
      simp only [parseParenExprFuel]
      unfold remaining at hn
      apply parseParenExprBody_agree
      exact ihE p.next m
        (by unfold remaining; simp only [next_tokens, next_curr_token]; omega) (by omega)
    · intro p m hn h4 hm
      obtain ⟨m, rfl⟩ : ∃ k, m = k + 1 := ⟨m - 1, by omega⟩
      simp only [parseIfExprFuel]
      unfold remaining at hn
      apply parseIfExprBody_agree
      intro q h1 h2
      exact ihE q m (by unfold remaining; omega) (by omega)
    · intro p m hn h4 hm
      obtain ⟨m, rfl⟩ : ∃ k, m = k + 1 := ⟨m - 1, by omega⟩
      simp only [parseForExprFuel]
      unfold remaining at hn
      apply parseForExprBody_agree
      intro q h1 h2
      exact ihE q m (by unfold remaining; omega) (by omega)
    · intro c l p m hn hm
      obtain ⟨m, rfl⟩ : ∃ k, m = k + 1 := ⟨m - 1, by omega⟩
      simp only [parseBinOpRHSFuel]
      unfold remaining at hn
      apply parseBinOpRHSBody_agree
      · intro q h1 h2 h3
        exact ihPr q m (by unfold remaining; omega) (by omega)
      · intro c' l' q h1 h2 h3
        exact ihB c' l' q m (by unfold remaining; omega) (by omega)
    · intro p m hn hm
      obtain ⟨m, rfl⟩ : ∃ k, m = k + 1 := ⟨m - 1, by omega⟩
      simp only [parseExpressionFuel]
      unfold remaining at hn
      apply parseExpressionBody_agree
      · exact ihPr p m (by unfold remaining; omega) (by omega)
      · intro c l q h1 h2
        exact ihB c l q m (by unfold remaining; omega) (by omega)

/-! ## The methods: independence of the budget, and their defining equations -/

theorem parsePrimaryFuel_eq (env : Externals) {n : Nat} {p : ListParser}
    (h : 3 * remaining p + 2 ≤ n) :
    parsePrimaryFuel env n p = parsePrimary env p ∧ Post p (parsePrimaryFuel env n p) := by
  have a := (fuel_agree env n).1 p (max n (budget p)) h (Nat.le_max_left _ _)
  have b := (fuel_agree env (budget p)).1 p (max n (budget p))
    (by unfold budget; omega) (Nat.le_max_right _ _)
  exact ⟨a.1.trans b.1.symm, a.2⟩

theorem parseIdentifierExprFuel_eq (env : Externals) {n : Nat} {p : ListParser}
    (h : 3 * remaining p + 1 ≤ n) :
    parseIdentifierExprFuel env n p = parseIdentifierExpr env p ∧
      Post p (parseIdentifierExprFuel env n p) := by
  have a := (fuel_agree env n).2.1 p (max n (budget p)) h (Nat.le_max_left _ _)
  have b := (fuel_agree env (budget p)).2.1 p (max n (budget p))
    (by unfold budget; omega) (Nat.le_max_right _ _)
  exact ⟨a.1.trans b.1.symm, a.2⟩

theorem parseArgsFuel_eq (env : Externals) {n : Nat} (a : List ExprAST) {p : ListParser}
    (h : 3 * remaining p + 4 ≤ n) :
    parseArgsFuel env n a p = parseArgs env a p ∧ PostArgs p (parseArgsFuel env n a p) := by
  have x := (fuel_agree env n).2.2.1 a p (max n (budget p)) h (Nat.le_max_left _ _)
  have y := (fuel_agree env (budget p)).2.2.1 a p (max n (budget p))
    (by unfold budget; omega) (Nat.le_max_right _ _)
  exact ⟨x.1.trans y.1.symm, x.2⟩

theorem parseParenExprFuel_eq (env : Externals) {n : Nat} {p : ListParser}
    (h : 3 * remaining p + 1 ≤ n) (h4 : 4 ≤ n) :
    parseParenExprFuel env n p = parseParenExpr env p ∧
      PostS p (parseParenExprFuel env n p) := by
  have a := (fuel_agree env n).2.2.2.1 p (max n (budget p)) h h4 (Nat.le_max_left _ _)
  have b := (fuel_agree env (budget p)).2.2.2.1 p (max n (budget p))
    (by unfold budget; omega) (by unfold budget; omega) (Nat.le_max_right _ _)
  exact ⟨a.1.trans b.1.symm, a.2⟩

theorem parseIfExprFuel_eq (env : Externals) {n : Nat} {p : ListParser}
    (h : 3 * remaining p + 1 ≤ n) (h4 : 4 ≤ n) :
    parseIfExprFuel env n p = parseIfExpr env p ∧ PostS p (parseIfExprFuel env n p) := by
  have a := (fuel_agree env n).2.2.2.2.1 p (max n (budget p)) h h4 (Nat.le_max_left _ _)
  have b := (fuel_agree env (budget p)).2.2.2.2.1 p (max n (budget p))
    (by unfold budget; omega) (by unfold budget; omega) (Nat.le_max_right _ _)
  exact ⟨a.1.trans b.1.symm, a.2⟩

theorem parseForExprFuel_eq (env : Externals) {n : Nat} {p : ListParser}
    (h : 3 * remaining p + 1 ≤ n) (h4 : 4 ≤ n) :
    parseForExprFuel env n p = parseForExpr env p ∧ PostS p (parseForExprFuel env n p) := by
  have a := (fuel_agree env n).2.2.2.2.2.1 p (max n (budget p)) h h4 (Nat.le_max_left _ _)
  have b := (fuel_agree env (budget p)).2.2.2.2.2.1 p (max n (budget p))
    (by unfold budget; omega) (by unfold budget; omega) (Nat.le_max_right _ _)
  exact ⟨a.1.trans b.1.symm, a.2⟩

theorem parseBinOpRHSFuel_eq (env : Externals) {n : Nat} (c : Int) (l : ExprAST)
    {p : ListParser} (h : 3 * remaining p + 1 ≤ n) :
    parseBinOpRHSFuel env n c l p = parseBinOpRHS env c l p ∧
      Post p (parseBinOpRHSFuel env n c l p) := by
  have a := (fuel_agree env n).2.2.2.2.2.2.1 c l p (max n (budget p)) h (Nat.le_max_left _ _)
  have b := (fuel_agree env (budget p)).2.2.2.2.2.2.1 c l p (max n (budget p))
    (by unfold budget; omega) (Nat.le_max_right _ _)
  exact ⟨a.1.trans b.1.symm, a.2⟩

theorem parseExpressionFuel_eq (env : Externals) {n : Nat} {p : ListParser}
    (h : 3 * remaining p + 3 ≤ n) :
    parseExpressionFuel env n p = parseExpression env p ∧
      Post p (parseExpressionFuel env n p) := by
  have a := (fuel_agree env n).2.2.2.2.2.2.2 p (max n (budget p)) h (Nat.le_max_left _ _)
  have b := (fuel_agree env (budget p)).2.2.2.2.2.2.2 p (max n (budget p))
    (by unfold budget; omega) (Nat.le_max_right _ _)
  exact ⟨a.1.trans b.1.symm, a.2⟩

theorem budget_succ (p : ListParser) : budget p = (3 * remaining p + 3) + 1 := rfl

/-- The defining equation of `parsePrimary` (source lines 65-76). -/
theorem parsePrimary_eq (env : Externals) (p : ListParser) :
    parsePrimary env p =
      parsePrimaryBody env (parseIdentifierExpr env) (parseParenExpr env) (parseIfExpr env)
        (parseForExpr env) p := by
  unfold parsePrimary
  rw [budget_succ]
  simp only [parsePrimaryFuel]
  refine (parsePrimaryBody_agree env ?_ ?_ ?_ ?_).1
  · intro _
    exact parseIdentifierExprFuel_eq env (n := 3 * remaining p + 3) (p := p) (by omega)
  · intro hlt
    exact parseParenExprFuel_eq env (n := 3 * remaining p + 3) (p := p) (by omega)
      (by unfold remaining; omega)
  · intro hlt
    exact parseIfExprFuel_eq env (n := 3 * remaining p + 3) (p := p) (by omega)
      (by unfold remaining; omega)
  · intro hlt
    exact parseForExprFuel_eq env (n := 3 * remaining p + 3) (p := p) (by omega)
      (by unfold remaining; omega)

/-- The defining equation of `parseIdentifierExpr` (source lines 30-63). -/
theorem parseIdentifierExpr_eq (env : Externals) (p : ListParser) :
    parseIdentifierExpr env p = parseIdentifierExprBody (parseArgs env) p := by
  unfold parseIdentifierExpr
  rw [budget_succ]
  simp only [parseIdentifierExprFuel]
  refine (parseIdentifierExprBody_agree ?_).1
  intro q h1 h2 h3
  exact parseArgsFuel_eq env (n := 3 * remaining p + 3) [] (p := q)
    (by unfold remaining; omega)

/-- The defining equation of the argument loop (source lines 43-58). -/
theorem parseArgs_eq (env : Externals) (a : List ExprAST) (p : ListParser) :
    parseArgs env a p = parseArgsBody (parseExpression env) (parseArgs env) a p := by
  unfold parseArgs
  rw [budget_succ]
  simp only [parseArgsFuel]
  refine (parseArgsBody_agree a ?_ ?_).1
  · exact parseExpressionFuel_eq env (n := 3 * remaining p + 3) (p := p) (by omega)
  · intro b q h1 h2 h3
    exact parseArgsFuel_eq env (n := 3 * remaining p + 3) b (p := q)
      (by unfold remaining; omega)

/-- The defining equation of `parseParenExpr` (source lines 18-28). -/
theorem parseParenExpr_eq (env : Externals) (p : ListParser) :
    parseParenExpr env p = parseParenExprBody (parseExpression env) p := by
  unfold parseParenExpr
  rw [budget_succ]
  simp only [parseParenExprFuel]
  refine (parseParenExprBody_agree ?_).1
  exact parseExpressionFuel_eq env (n := 3 * remaining p + 3) (p := p.next)
    (by unfold remaining; simp only [next_tokens, next_curr_token]; omega)

/-- The defining equation of `parseIfExpr` (source lines 161-179). -/
theorem parseIfExpr_eq (env : Externals) (p : ListParser) :
    parseIfExpr env p = parseIfExprBody env (parseExpression env) p := by
  unfold parseIfExpr
  rw [budget_succ]
  simp only [parseIfExprFuel]
  refine (parseIfExprBody_agree env ?_).1
  intro q h1 h2
  exact parseExpressionFuel_eq env (n := 3 * remaining p + 3) (p := q)
    (by unfold remaining; omega)

/-- The defining equation of `parseForExpr` (source lines 181-224). -/
theorem parseForExpr_eq (env : Externals) (p : ListParser) :
    parseForExpr env p = parseForExprBody (parseExpression env) p := by
  unfold parseForExpr
  rw [budget_succ]
  simp only [parseForExprFuel]
  refine (parseForExprBody_agree ?_).1
  intro q h1 h2
  exact parseExpressionFuel_eq env (n := 3 * remaining p + 3) (p := q)
    (by unfold remaining; omega)

/-- The defining equation of `parseBinOpRHS` (source lines 78-97). -/
theorem parseBinOpRHS_eq (env : Externals) (c : Int) (l : ExprAST) (p : ListParser) :
    parseBinOpRHS env c l p =
      parseBinOpRHSBody env (parsePrimary env) (parseBinOpRHS env) c l p := by
  unfold parseBinOpRHS
  rw [budget_succ]
  simp only [parseBinOpRHSFuel]
  refine (parseBinOpRHSBody_agree env c l ?_ ?_).1
  · intro q h1 h2 h3
    exact parsePrimaryFuel_eq env (n := 3 * remaining p + 3) (p := q)
      (by unfold remaining; omega)
  · intro c' l' q h1 h2 h3
    exact parseBinOpRHSFuel_eq env (n := 3 * remaining p + 3) c' l' (p := q)
      (by unfold remaining; omega)

/-- The defining equation of `parseExpression` (source lines 99-104). -/
theorem parseExpression_eq (env : Externals) (p : ListParser) :
    parseExpression env p =
      parseExpressionBody (parsePrimary env) (parseBinOpRHS env) p := by
  unfold parseExpression
  rw [budget_succ]
  simp only [parseExpressionFuel]
  refine (parseExpressionBody_agree ?_ ?_).1
  · exact parsePrimaryFuel_eq env (n := 3 * remaining p + 3) (p := p) (by omega)
  · intro c l q h1 h2
    exact parseBinOpRHSFuel_eq env (n := 3 * remaining p + 3) c l (p := q)
      (by unfold remaining; omega)

theorem parsePrimary_post (env : Externals) (p : ListParser) : Post p (parsePrimary env p) :=
  (parsePrimaryFuel_eq env (p := p) (n := budget p) (by unfold budget; omega)).2

theorem parseIdentifierExpr_post (env : Externals) (p : ListParser) :
    Post p (parseIdentifierExpr env p) :=
  (parseIdentifierExprFuel_eq env (p := p) (n := budget p) (by unfold budget; omega)).2

theorem parseArgs_post (env : Externals) (a : List ExprAST) (p : ListParser) :
    PostArgs p (parseArgs env a p) :=
  (parseArgsFuel_eq env a (p := p) (n := budget p) (by unfold budget; omega)).2

theorem parseParenExpr_post (env : Externals) (p : ListParser) :
    PostS p (parseParenExpr env p) :=
  (parseParenExprFuel_eq env (p := p) (n := budget p) (by unfold budget; omega)
    (by unfold budget; omega)).2

theorem parseIfExpr_post (env : Externals) (p : ListParser) : PostS p (parseIfExpr env p) :=
  (parseIfExprFuel_eq env (p := p) (n := budget p) (by unfold budget; omega)
    (by unfold budget; omega)).2

theorem parseForExpr_post (env : Externals) (p : ListParser) :
    PostS p (parseForExpr env p) :=
  (parseForExprFuel_eq env (p := p) (n := budget p) (by unfold budget; omega)
    (by unfold budget; omega)).2

theorem parseBinOpRHS_post (env : Externals) (c : Int) (l : ExprAST) (p : ListParser) :
    Post p (parseBinOpRHS env c l p) :=
  (parseBinOpRHSFuel_eq env c l (p := p) (n := budget p) (by unfold budget; omega)).2

theorem parseExpression_post (env : Externals) (p : ListParser) :
    Post p (parseExpression env p) :=
  (parseExpressionFuel_eq env (p := p) (n := budget p) (by unfold budget; omega)).2

end ListParser
/-! ## Reading tokens at known positions -/

namespace ListParser

theorem read_of_peek {β : Type} {p : ListParser} {t : TokenWrapper}
    (k : TokenWrapper → Outcome β) (h : p.peek = some t) : p.read k = k t := by
  unfold read
  rw [h]

theorem peek_mk (toks : List TokenWrapper) (i : Nat) :
    (ListParser.mk toks i).peek = toks[i]? := rfl

theorem next_mk (toks : List TokenWrapper) (i : Nat) :
    (ListParser.mk toks i).next = ListParser.mk toks (i + 1) := rfl

theorem getElem?_append_offset {α : Type} (pre l : List α) (k : Nat) :
    (pre ++ l)[pre.length + k]? = l[k]? := by
  rw [List.getElem?_append_right (Nat.le_add_right _ _), Nat.add_sub_cancel_left]

/-- The token under the cursor when the cursor is `k` tokens after `pre`. -/
theorem peek_append (pre l : List TokenWrapper) (k : Nat) :
    (ListParser.mk (pre ++ l) (pre.length + k)).peek = l[k]? :=
  getElem?_append_offset pre l k

theorem peek_append_zero (pre l : List TokenWrapper) :
    (ListParser.mk (pre ++ l) pre.length).peek = l[0]? :=
  peek_append pre l 0

theorem operand_not_default {t t' : TokenWrapper} (h : IsOperand t t') :
    t.type = Token.tok_number ∨ t.type = Token.tok_identifier :=
  h.elim Or.inl fun h => Or.inr h.1

/-- A number or variable token parses to its node and is consumed. -/
theorem parsePrimary_operand (env : Externals) {p : ListParser} {t t' : TokenWrapper}
    (h : p.peek = some t) (h' : p.next.peek = some t') (ho : IsOperand t t') :
    parsePrimary env p = Outcome.ok (operandNode t) p.next := by
  rw [parsePrimary_eq]
  unfold parsePrimaryBody
  rw [read_of_peek _ h]
  rcases ho with hn | ⟨hi, hl⟩
  · simp only [hn]
    unfold parseNumberExpr
    rw [read_of_peek _ h]
    simp [operandNode, hn]
  · simp only [hi]
    rw [parseIdentifierExpr_eq]
    unfold parseIdentifierExprBody
    rw [read_of_peek _ h]
    dsimp only
    rw [read_of_peek _ h']
    simp [operandNode, hi, hl]

/-- The loop of `parseBinOpRHS` ends at a token of lower precedence. -/
theorem parseBinOpRHS_stop (env : Externals) {c : Int} (l : ExprAST) {p : ListParser}
    {t : TokenWrapper} (h : p.peek = some t) (hlt : env.getTokenPrecedence t.type < c) :
    parseBinOpRHS env c l p = Outcome.ok l p := by
  rw [parseBinOpRHS_eq]
  unfold parseBinOpRHSBody
  rw [read_of_peek _ h]
  simp [hlt]

/-- One iteration of the loop of `parseBinOpRHS` whose right operand is a
number or variable token. -/
theorem parseBinOpRHS_operand (env : Externals) {c : Int} (l : ExprAST) {p : ListParser}
    {op t t' : TokenWrapper} (h : p.peek = some op)
    (hge : c ≤ env.getTokenPrecedence op.type)
    (h1 : p.next.peek = some t) (h2 : p.next.next.peek = some t') (ho : IsOperand t t') :
    parseBinOpRHS env c l p =
      if env.getTokenPrecedence op.type < env.getTokenPrecedence t'.type then
        (parseBinOpRHS env (env.getTokenPrecedence op.type + 1) (operandNode t)
            p.next.next).andThen fun right_side q =>
          parseBinOpRHS env c (ExprAST.BinaryExprAST op.type l right_side) q
      else
        parseBinOpRHS env c (ExprAST.BinaryExprAST op.type l (operandNode t)) p.next.next := by
  rw [parseBinOpRHS_eq]
  unfold parseBinOpRHSBody
  rw [read_of_peek _ h]
  dsimp only
  rw [if_neg (by omega), parsePrimary_operand env h1 h2 ho]
  simp only [Outcome.andThen]
  rw [read_of_peek _ h2]

/-! ## C1: grouping by precedence -/

/-- C1.  For every precedence lookup and every token stream in which the
cursor is on `p1 OP1 p2 OP2 p3 stop`, where `p1`, `p2`, `p3` are number or
variable tokens, `OP1` and `OP2` have a precedence and `stop` has none:
`parseExpression` returns `BinaryOp(OP1, p1, BinaryOp(OP2, p2, p3))` when the
precedence of `OP2` is greater than that of `OP1`, and
`BinaryOp(OP2, BinaryOp(OP1, p1, p2), p3)` when it is less or equal; in both
cases the cursor is left on `stop`. -/
theorem parseExpression_groups_by_precedence (env : Externals)
    (pre post : List TokenWrapper) (p1 o1 p2 o2 p3 stop : TokenWrapper)
    (h1 : IsOperand p1 o1) (h2 : IsOperand p2 o2) (h3 : IsOperand p3 stop)
    (ho1 : HasPrecedence env o1.type) (ho2 : HasPrecedence env o2.type)
    (hstop : ¬ HasPrecedence env stop.type) :
    (env.getTokenPrecedence o1.type < env.getTokenPrecedence o2.type →
      parseExpression env
          ⟨pre ++ p1 :: o1 :: p2 :: o2 :: p3 :: stop :: post, pre.length⟩ =
        Outcome.ok
          (ExprAST.BinaryExprAST o1.type (operandNode p1)
            (ExprAST.BinaryExprAST o2.type (operandNode p2) (operandNode p3)))
          ⟨pre ++ p1 :: o1 :: p2 :: o2 :: p3 :: stop :: post, pre.length + 5⟩) ∧
    (env.getTokenPrecedence o2.type ≤ env.getTokenPrecedence o1.type →
      parseExpression env
          ⟨pre ++ p1 :: o1 :: p2 :: o2 :: p3 :: stop :: post, pre.length⟩ =
        Outcome.ok
          (ExprAST.BinaryExprAST o2.type
            (ExprAST.BinaryExprAST o1.type (operandNode p1) (operandNode p2))
            (operandNode p3))
          ⟨pre ++ p1 :: o1 :: p2 :: o2 :: p3 :: stop :: post, pre.length + 5⟩) := by
  unfold HasPrecedence at ho1 ho2 hstop
  generalize hp : (ListParser.mk (pre ++ p1 :: o1 :: p2 :: o2 :: p3 :: stop :: post)
    pre.length) = p
  have e5 : ListParser.mk (pre ++ p1 :: o1 :: p2 :: o2 :: p3 :: stop :: post)
      (pre.length + 5) = p.next.next.next.next.next := by
    rw [← hp]
    rfl
  have hk0 : p.peek = some p1 := by
    rw [← hp]
    exact (peek_append pre (p1 :: o1 :: p2 :: o2 :: p3 :: stop :: post) 0).trans (by simp)
  have hk1 : p.next.peek = some o1 := by
    rw [← hp]
    exact (peek_append pre (p1 :: o1 :: p2 :: o2 :: p3 :: stop :: post) 1).trans (by simp)
  have hk2 : p.next.next.peek = some p2 := by
    rw [← hp]
    exact (peek_append pre (p1 :: o1 :: p2 :: o2 :: p3 :: stop :: post) 2).trans (by simp)
  have hk3 : p.next.next.next.peek = some o2 := by
    rw [← hp]
    exact (peek_append pre (p1 :: o1 :: p2 :: o2 :: p3 :: stop :: post) 3).trans (by simp)
  have hk4 : p.next.next.next.next.peek = some p3 := by
    rw [← hp]
    exact (peek_append pre (p1 :: o1 :: p2 :: o2 :: p3 :: stop :: post) 4).trans (by simp)
  have hk5 : p.next.next.next.next.next.peek = some stop := by
    rw [← hp]
    exact (peek_append pre (p1 :: o1 :: p2 :: o2 :: p3 :: stop :: post) 5).trans (by simp)
  rw [e5, parseExpression_eq]
  unfold parseExpressionBody
  rw [parsePrimary_operand env hk0 hk1 h1]
  simp only [Outcome.andThen]
  rw [parseBinOpRHS_operand env _ hk1 ho1 hk2 hk3 h2]
  constructor
  · intro hlt
    rw [if_pos hlt, parseBinOpRHS_operand env _ hk3 (by omega) hk4 hk5 h3,
      if_neg (by omega), parseBinOpRHS_stop env _ hk5 (by omega)]
    simp only [Outcome.andThen]
    rw [parseBinOpRHS_stop env _ hk5 (by omega)]
  · intro hle
    rw [if_neg (by omega), parseBinOpRHS_operand env _ hk3 ho2 hk4 hk5 h3,
      if_neg (by omega), parseBinOpRHS_stop env _ hk5 (by omega)]

/-- C1 at `a + b * c` (the product binds tighter) with the example table. -/
theorem parseExpression_groups_by_precedence_witness :
    parseExpression Example.env ⟨Example.sumProduct, 0⟩ =
      Outcome.ok
        (ExprAST.BinaryExprAST (Token.tok_op 1) (ExprAST.VariableExprAST "a")
          (ExprAST.BinaryExprAST (Token.tok_op 3) (ExprAST.VariableExprAST "b")
            (ExprAST.VariableExprAST "c")))
        ⟨Example.sumProduct, 5⟩ :=
  (parseExpression_groups_by_precedence Example.env [] []
    (Example.ident "a") (Example.tk (Token.tok_op 1)) (Example.ident "b")
    (Example.tk (Token.tok_op 3)) (Example.ident "c") (Example.tk Token.tok_eof)
    (Or.inr ⟨rfl, by decide⟩) (Or.inr ⟨rfl, by decide⟩) (Or.inr ⟨rfl, by decide⟩)
    (by unfold HasPrecedence; decide) (by unfold HasPrecedence; decide)
    (by unfold HasPrecedence; decide)).1 (by decide)

/-! ## C2: the test for `then` in `parseIfExpr` -/

/-- Line 166 of `parseIfExpr` with a non-zero enumerator `tok_then`: once the
condition has parsed, the token after it is overwritten and the call ends
with "expected then". -/
theorem parseIfExpr_of_nonzero (env : Externals) {p q : ListParser}
    {condition : ExprAST} {t : TokenWrapper}
    (hc : parseExpression env p.next = Outcome.ok condition q) (ht : q.peek = some t)
    (hv : env.tokenValue Token.tok_then ≠ 0) :
    parseIfExpr env p = Outcome.absent "expected then" (q.assignType t Token.tok_then) := by
  rw [parseIfExpr_eq]
  unfold parseIfExprBody
  dsimp only
  rw [hc]
  simp only [Outcome.andThen]
  rw [read_of_peek _ ht]
  rw [if_pos hv]
  rfl

/-- Line 166 of `parseIfExpr` with the value 0 for the enumerator `tok_then`:
once the condition has parsed, the token after it is overwritten and the call
goes on with the `then` branch. -/
theorem parseIfExpr_of_zero (env : Externals) {p q : ListParser}
    {condition : ExprAST} {t : TokenWrapper}
    (hc : parseExpression env p.next = Outcome.ok condition q) (ht : q.peek = some t)
    (hv : env.tokenValue Token.tok_then = 0) :
    parseIfExpr env p =
      (parseExpression env (q.assignType t Token.tok_then).next).andThen
        fun then_expression q₂ =>
          q₂.read fun te =>
            if te.type ≠ Token.tok_else then LogError "Expected else" q₂
            else
              (parseExpression env q₂.next).andThen fun else_expression q₃ =>
                Outcome.ok (ExprAST.IfExprAST condition then_expression else_expression)
                  q₃ := by
  rw [parseIfExpr_eq]
  unfold parseIfExprBody
  dsimp only
  rw [hc]
  simp only [Outcome.andThen]
  rw [read_of_peek _ ht]
  rw [if_neg (by simp [hv])]

/-- C2 (the code departs from it).  Once the condition has parsed, the outcome
of `parseIfExpr` does not depend on whether the token `t` after the condition
is `then`: line 166 assigns `tok_then` to that token and tests the assigned
value.  When the enumerator `tok_then` has a non-zero value, the call returns
the absent result with the message "expected then" whatever `t` is, `then`
included, so no `If` node is ever returned.  When its value is 0, the message
is never given: whatever `t` is, if the branches parse, with `else` between
them, the `If` node is returned. -/
theorem parseIfExpr_then_test_is_assignment (env : Externals) (p q : ListParser)
    (condition : ExprAST) (t : TokenWrapper)
    (hc : parseExpression env p.next = Outcome.ok condition q) (ht : q.peek = some t) :
    (env.tokenValue Token.tok_then ≠ 0 →
      parseIfExpr env p =
        Outcome.absent "expected then" (q.assignType t Token.tok_then)) ∧
    (env.tokenValue Token.tok_then = 0 →
      ∀ (q₂ q₃ : ListParser) (te : TokenWrapper) (T E : ExprAST),
        parseExpression env (q.assignType t Token.tok_then).next = Outcome.ok T q₂ →
        q₂.peek = some te → te.type = Token.tok_else →
        parseExpression env q₂.next = Outcome.ok E q₃ →
        parseIfExpr env p = Outcome.ok (ExprAST.IfExprAST condition T E) q₃) := by
  constructor
  · intro hv
    exact parseIfExpr_of_nonzero env hc ht hv
  · intro hv q₂ q₃ te T E hT hte helse hE
    rw [parseIfExpr_of_zero env hc ht hv, hT]
    simp only [Outcome.andThen]
    rw [read_of_peek _ hte, if_neg (by simp [helse]), hE]

/-- C2 at `if x then 1 else 2` with the example table: the `then` is there, and
the call still ends with "expected then", the cursor on the `then`; and at
`if x , 1 else 2` with the value 0 for `tok_then`: the comma is taken for the
`then`. -/
theorem parseIfExpr_then_test_is_assignment_witness :
    parseIfExpr Example.env ⟨Example.ifThenElse, 0⟩ =
        Outcome.absent "expected then" ⟨Example.ifThenElse, 2⟩ ∧
      parseIfExpr Example.envThenZero ⟨Example.ifComma, 0⟩ =
        Outcome.ok
          (ExprAST.IfExprAST (ExprAST.VariableExprAST "x") (ExprAST.NumberExprAST 1)
            (ExprAST.NumberExprAST 2))
          ⟨Example.ifCommaAfter, 6⟩ :=
  ⟨(parseIfExpr_then_test_is_assignment Example.env ⟨Example.ifThenElse, 0⟩
      ⟨Example.ifThenElse, 2⟩ (ExprAST.VariableExprAST "x") (Example.tk Token.tok_then)
      rfl rfl).1 (by decide),
    (parseIfExpr_then_test_is_assignment Example.envThenZero ⟨Example.ifComma, 0⟩
      ⟨Example.ifComma, 2⟩ (ExprAST.VariableExprAST "x") (Example.tk Token.tok_comma)
      rfl rfl).2 rfl ⟨Example.ifCommaAfter, 4⟩ ⟨Example.ifCommaAfter, 6⟩
      (Example.tk Token.tok_else) (ExprAST.NumberExprAST 1) (ExprAST.NumberExprAST 2)
      rfl rfl rfl rfl⟩

/-! ## C3: calls -/

/-- An expression starts with a token, and that token is not `)`. -/
theorem parseExpression_ok_peek (env : Externals) {p q : ListParser} {a : ExprAST}
    (h : parseExpression env p = Outcome.ok a q) :
    ∃ t, p.peek = some t ∧ t.type ≠ Token.tok_rparen := by
  rw [parseExpression_eq] at h
  unfold parseExpressionBody at h
  rw [parsePrimary_eq] at h
  unfold parsePrimaryBody read at h
  cases hp : p.peek with
  | none =>
    rw [hp] at h
    simp [Outcome.andThen] at h
  | some t =>
    refine ⟨t, rfl, ?_⟩
    intro hr
    rw [hp] at h
    simp [hr, LogError, Outcome.andThen] at h

/-- The argument loop collects the nodes of a comma-separated list. -/
theorem parseArgs_of_parsesArgs (env : Externals) {p q : ListParser} {args : List ExprAST}
    (h : ParsesArgs env p args q) :
    ∀ acc, parseArgs env acc p = Outcome.ok (acc ++ args) q := by
  induction h with
  | last he ht hr =>
    intro acc
    rw [parseArgs_eq]
    unfold parseArgsBody
    rw [he]
    simp only [Outcome.andThen]
    rw [read_of_peek _ ht]
    simp [hr]
  | more he ht hc _ ih =>
    intro acc
    rw [parseArgs_eq]
    unfold parseArgsBody
    rw [he]
    simp only [Outcome.andThen]
    rw [read_of_peek _ ht]
    simp [hc, ih]

/-- C3.  With the cursor on a token followed by `(`: when the next token is
`)`, `parseIdentifierExpr` returns the call of the first token's text with no
arguments and leaves the cursor three tokens further; when instead a
comma-separated list of `n >= 1` expressions follows, whose last expression
ends in state `q` on a `)`, it returns the call of the first token's text
with exactly the nodes of these expressions, in order, and leaves the cursor
just past that `)`. -/
theorem parseIdentifierExpr_call (env : Externals) (p : ListParser) (t t1 : TokenWrapper)
    (hid : p.peek = some t) (hlp : p.next.peek = some t1)
    (h1 : t1.type = Token.tok_lparen) :
    (∀ t2, p.next.next.peek = some t2 → t2.type = Token.tok_rparen →
      parseIdentifierExpr env p =
        Outcome.ok (ExprAST.CallExprAST t.str_content []) p.next.next.next) ∧
    (∀ args q, ParsesArgs env p.next.next args q →
      parseIdentifierExpr env p =
        Outcome.ok (ExprAST.CallExprAST t.str_content args) q.next) := by
  constructor
  · intro t2 ht2 hr
    rw [parseIdentifierExpr_eq]
    unfold parseIdentifierExprBody
    rw [read_of_peek _ hid]
    dsimp only
    rw [read_of_peek _ hlp]
    rw [if_neg (by simp [h1])]
    rw [read_of_peek _ ht2]
    rw [if_neg (by simp [hr])]
  · intro args q hargs
    have hfirst : ∃ t2, p.next.next.peek = some t2 ∧ t2.type ≠ Token.tok_rparen := by
      cases hargs with
      | last he _ _ => exact parseExpression_ok_peek env he
      | more he _ _ _ => exact parseExpression_ok_peek env he
    obtain ⟨t2, ht2, hr⟩ := hfirst
    rw [parseIdentifierExpr_eq]
    unfold parseIdentifierExprBody
    rw [read_of_peek _ hid]
    dsimp only
    rw [read_of_peek _ hlp]
    rw [if_neg (by simp [h1])]
    rw [read_of_peek _ ht2]
    rw [if_pos hr, parseArgs_of_parsesArgs env hargs []]
    rfl

/-- C3 at `f()` and at `f(a, b, c)`. -/
theorem parseIdentifierExpr_call_witness :
    parseIdentifierExpr Example.env ⟨Example.callNone, 0⟩ =
        Outcome.ok (ExprAST.CallExprAST "f" []) ⟨Example.callNone, 3⟩ ∧
      parseIdentifierExpr Example.env ⟨Example.callThree, 0⟩ =
        Outcome.ok
          (ExprAST.CallExprAST "f"
            [ExprAST.VariableExprAST "a", ExprAST.VariableExprAST "b",
              ExprAST.VariableExprAST "c"])
          ⟨Example.callThree, 8⟩ :=
  ⟨(parseIdentifierExpr_call Example.env ⟨Example.callNone, 0⟩ (Example.ident "f")
      (Example.tk Token.tok_lparen) rfl rfl rfl).1 (Example.tk Token.tok_rparen) rfl rfl,
    (parseIdentifierExpr_call Example.env ⟨Example.callThree, 0⟩ (Example.ident "f")
      (Example.tk Token.tok_lparen) rfl rfl rfl).2 _ ⟨Example.callThree, 7⟩
      (ParsesArgs.more (q := ⟨Example.callThree, 3⟩) (t := Example.tk Token.tok_comma)
        rfl rfl rfl
        (ParsesArgs.more (q := ⟨Example.callThree, 5⟩) (t := Example.tk Token.tok_comma)
          rfl rfl rfl
          (ParsesArgs.last (t := Example.tk Token.tok_rparen) rfl rfl rfl)))⟩

/-! ## C4: `for` with and without a step -/

/-- C4.  With the cursor on `for`, followed by an identifier `id`, `=`, an
expression parsing to `S`, `,` and an expression parsing to `E`: when `,`, an
expression parsing to `P`, `in` and an expression parsing to `B` follow,
`parseForExpr` returns the `For` node of `id`, `S`, `E`, step `P` and `B`;
when `in` and an expression parsing to `B` follow directly, it returns the
same node with the step absent.  The cursor is left where `B` ends. -/
theorem parseForExpr_step_optional (env : Externals) (p q₁ q₂ : ListParser)
    (tid teq tc t₂ : TokenWrapper) (S E : ExprAST)
    (hid : p.next.peek = some tid) (hidt : tid.type = Token.tok_identifier)
    (heq : p.next.next.peek = some teq) (heqt : teq.type = Token.tok_equal)
    (hS : parseExpression env p.next.next.next = Outcome.ok S q₁)
    (hc : q₁.peek = some tc) (hct : tc.type = Token.tok_comma)
    (hE : parseExpression env q₁.next = Outcome.ok E q₂)
    (h₂ : q₂.peek = some t₂) :
    (∀ (q₃ q₄ : ListParser) (tin : TokenWrapper) (P B : ExprAST),
      t₂.type = Token.tok_comma →
      parseExpression env q₂.next = Outcome.ok P q₃ →
      q₃.peek = some tin → tin.type = Token.tok_in →
      parseExpression env q₃.next = Outcome.ok B q₄ →
      parseForExpr env p =
        Outcome.ok (ExprAST.ForExprAST tid.str_content S E (some P) B) q₄) ∧
    (∀ (q₄ : ListParser) (B : ExprAST),
      t₂.type = Token.tok_in →
      parseExpression env q₂.next = Outcome.ok B q₄ →
      parseForExpr env p =
        Outcome.ok (ExprAST.ForExprAST tid.str_content S E none B) q₄) := by
  have start : parseForExpr env p =
      if t₂.type = Token.tok_comma then
        (parseExpression env q₂.next).andThen fun step r =>
          parseForExprIn (parseExpression env) tid.str_content S E (some step) r
      else parseForExprIn (parseExpression env) tid.str_content S E none q₂ := by
    rw [parseForExpr_eq]
    unfold parseForExprBody
    dsimp only
    rw [read_of_peek _ hid, if_neg (by simp [hidt]), read_of_peek _ heq,
      if_neg (by simp [heqt]), hS]
    simp only [Outcome.andThen]
    rw [read_of_peek _ hc, if_neg (by simp [hct]), hE]
    simp only [Outcome.andThen]
    rw [read_of_peek _ h₂]
  constructor
  · intro q₃ q₄ tin P B ht hP hin hint hB
    rw [start, if_pos ht, hP]
    simp only [Outcome.andThen]
    unfold parseForExprIn
    rw [read_of_peek _ hin, if_neg (by simp [hint])]
    dsimp only
    rw [hB]
    rfl
  · intro q₄ B ht hB
    rw [start, if_neg (by simp [ht])]
    unfold parseForExprIn
    rw [read_of_peek _ h₂, if_neg (by simp [ht])]
    dsimp only
    rw [hB]
    rfl

/-- C4 at `for i = 0, 10, 1 in body` and at `for i = 0, 10 in body`. -/
theorem parseForExpr_step_optional_witness :
    parseForExpr Example.env ⟨Example.forStep, 0⟩ =
        Outcome.ok
          (ExprAST.ForExprAST "i" (ExprAST.NumberExprAST 0) (ExprAST.NumberExprAST 10)
            (some (ExprAST.NumberExprAST 1)) (ExprAST.VariableExprAST "body"))
          ⟨Example.forStep, 10⟩ ∧
      parseForExpr Example.env ⟨Example.forNoStep, 0⟩ =
        Outcome.ok
          (ExprAST.ForExprAST "i" (ExprAST.NumberExprAST 0) (ExprAST.NumberExprAST 10)
            none (ExprAST.VariableExprAST "body"))
          ⟨Example.forNoStep, 8⟩ :=
  ⟨(parseForExpr_step_optional Example.env ⟨Example.forStep, 0⟩ ⟨Example.forStep, 4⟩
      ⟨Example.forStep, 6⟩ (Example.ident "i") (Example.tk Token.tok_equal)
      (Example.tk Token.tok_comma) (Example.tk Token.tok_comma) (ExprAST.NumberExprAST 0)
      (ExprAST.NumberExprAST 10) rfl rfl rfl rfl rfl rfl rfl rfl rfl).1
      ⟨Example.forStep, 8⟩ ⟨Example.forStep, 10⟩ (Example.tk Token.tok_in)
      (ExprAST.NumberExprAST 1) (ExprAST.VariableExprAST "body") rfl rfl rfl rfl rfl,
    (parseForExpr_step_optional Example.env ⟨Example.forNoStep, 0⟩ ⟨Example.forNoStep, 4⟩
      ⟨Example.forNoStep, 6⟩ (Example.ident "i") (Example.tk Token.tok_equal)
      (Example.tk Token.tok_comma) (Example.tk Token.tok_in) (ExprAST.NumberExprAST 0)
      (ExprAST.NumberExprAST 10) rfl rfl rfl rfl rfl rfl rfl rfl rfl).2
      ⟨Example.forNoStep, 8⟩ (ExprAST.VariableExprAST "body") rfl rfl⟩

/-! ## C5: parentheses -/

/-- C5.  Parentheses are transparent: when the expression after the `(` under
the cursor parses to node `V` and ends in state `q` on a `)`, `parseParenExpr`
returns `V` itself and leaves the cursor just past that `)`.  In particular,
for every precedence lookup in which `)` has no precedence, `( (1) )` parses
to the number literal 1 with the cursor past the last token. -/
theorem parseParenExpr_transparent (env : Externals) :
    (∀ (p q : ListParser) (V : ExprAST) (t : TokenWrapper),
      parseExpression env p.next = Outcome.ok V q → q.peek = some t →
      t.type = Token.tok_rparen → parseParenExpr env p = Outcome.ok V q.next) ∧
    (¬ HasPrecedence env Token.tok_rparen →
      parseParenExpr env ⟨Example.nestedParens, 0⟩ =
        Outcome.ok (ExprAST.NumberExprAST 1) ⟨Example.nestedParens, 5⟩) := by
  have general : ∀ (p q : ListParser) (V : ExprAST) (t : TokenWrapper),
      parseExpression env p.next = Outcome.ok V q → q.peek = some t →
      t.type = Token.tok_rparen → parseParenExpr env p = Outcome.ok V q.next := by
    intro p q V t hV ht hr
    rw [parseParenExpr_eq]
    unfold parseParenExprBody
    dsimp only
    rw [hV]
    simp only [Outcome.andThen]
    rw [read_of_peek _ ht, if_neg (by simp [hr])]
  refine ⟨general, fun hprec => ?_⟩
  unfold HasPrecedence at hprec
  have stop3 : ∀ l, parseBinOpRHS env 0 l ⟨Example.nestedParens, 3⟩ =
      Outcome.ok l ⟨Example.nestedParens, 3⟩ := fun l =>
    parseBinOpRHS_stop env l (t := Example.tk Token.tok_rparen) rfl
      (by show env.getTokenPrecedence Token.tok_rparen < 0; omega)
  have stop4 : ∀ l, parseBinOpRHS env 0 l ⟨Example.nestedParens, 4⟩ =
      Outcome.ok l ⟨Example.nestedParens, 4⟩ := fun l =>
    parseBinOpRHS_stop env l (t := Example.tk Token.tok_rparen) rfl
      (by show env.getTokenPrecedence Token.tok_rparen < 0; omega)
  have inner : parseExpression env ⟨Example.nestedParens, 2⟩ =
      Outcome.ok (ExprAST.NumberExprAST 1) ⟨Example.nestedParens, 3⟩ := by
    rw [parseExpression_eq]
    unfold parseExpressionBody
    rw [@parsePrimary_operand env ⟨Example.nestedParens, 2⟩ (Example.num 1)
      (Example.tk Token.tok_rparen) rfl rfl (Or.inl rfl)]
    exact stop3 _
  have middle : parseExpression env ⟨Example.nestedParens, 1⟩ =
      Outcome.ok (ExprAST.NumberExprAST 1) ⟨Example.nestedParens, 4⟩ := by
    rw [parseExpression_eq]
    unfold parseExpressionBody
    rw [parsePrimary_eq]
    unfold parsePrimaryBody
    rw [read_of_peek (p := ⟨Example.nestedParens, 1⟩) (t := Example.tk Token.tok_lparen) _ rfl]
    show (parseParenExpr env ⟨Example.nestedParens, 1⟩).andThen _ = _
    rw [general ⟨Example.nestedParens, 1⟩ ⟨Example.nestedParens, 3⟩ _
      (Example.tk Token.tok_rparen) inner rfl rfl]
    exact stop4 _
  exact general ⟨Example.nestedParens, 0⟩ ⟨Example.nestedParens, 4⟩ _
    (Example.tk Token.tok_rparen) middle rfl rfl

/-- C5 at `( (1) )` with the example table. -/
theorem parseParenExpr_transparent_witness :
    parseParenExpr Example.env ⟨Example.nestedParens, 0⟩ =
      Outcome.ok (ExprAST.NumberExprAST 1) ⟨Example.nestedParens, 5⟩ :=
  (parseParenExpr_transparent Example.env).2 (by unfold HasPrecedence; decide)

/-! ## C6: prototypes -/

/-- The parameter loop over a run of identifier tokens that ends at a token of
another kind. -/
theorem parsePrototypeLoopFuel_ids (stop : TokenWrapper) (rest : List TokenWrapper)
    (hstop : stop.type ≠ Token.tok_identifier) :
    ∀ (ids front : List TokenWrapper) (acc : List String) (n : Nat),
      (∀ t ∈ ids, t.type = Token.tok_identifier) → ids.length + 1 ≤ n →
      parsePrototypeLoopFuel n acc ⟨front ++ (ids ++ stop :: rest), front.length⟩ =
        Outcome.ok (acc ++ ids.map TokenWrapper.str_content)
          ⟨front ++ (ids ++ stop :: rest), front.length + ids.length⟩ := by
  intro ids
  induction ids with
  | nil =>
    intro front acc n _ hn
    obtain ⟨n, rfl⟩ : ∃ k, n = k + 1 := ⟨n - 1, by omega⟩
    unfold parsePrototypeLoopFuel
    have hpk : (ListParser.mk (front ++ ([] ++ stop :: rest)) front.length).peek = some stop :=
      (peek_append_zero front _).trans (by simp)
    rw [read_of_peek _ hpk]
    simp [hstop]
  | cons t ids ih =>
    intro front acc n hids hn
    obtain ⟨n, rfl⟩ : ∃ k, n = k + 1 := ⟨n - 1, by omega⟩
    have ht : t.type = Token.tok_identifier := hids t (List.mem_cons_self _ _)
    unfold parsePrototypeLoopFuel
    have hpk : (ListParser.mk (front ++ (t :: ids ++ stop :: rest)) front.length).peek =
        some t :=
      (peek_append_zero front _).trans (by simp)
    rw [read_of_peek _ hpk]
    rw [if_pos ht]
    have e : front ++ (t :: ids ++ stop :: rest) = (front ++ [t]) ++ (ids ++ stop :: rest) := by
      simp
    have := ih (front ++ [t]) (acc ++ [t.str_content]) n
      (fun x hx => hids x (List.mem_cons_of_mem _ hx)) (by simp at hn; omega)
    simp only [List.length_append, List.length_singleton] at this
    rw [next_mk, e, this]
    simp [Nat.add_assoc, Nat.add_comm 1]

/-- C6.  With the cursor on an identifier `fn` followed by `(`, `n >= 0`
identifier tokens with nothing between them, and a token `stop` of another
kind: when `stop` is `)`, `parsePrototype` returns the prototype named by the
text of `fn` whose parameter names are the texts of the `n` identifiers in
order, the cursor just past the `)`; when `stop` is a comma, it returns the
absent result with the message "Expected ')' in prototype", the cursor on the
comma. -/
theorem parsePrototype_params (pre rest ids : List TokenWrapper) (fn lp stop : TokenWrapper)
    (hfn : fn.type = Token.tok_identifier) (hlp : lp.type = Token.tok_lparen)
    (hids : ∀ t ∈ ids, t.type = Token.tok_identifier) :
    (stop.type = Token.tok_rparen →
      parsePrototype ⟨pre ++ fn :: lp :: (ids ++ stop :: rest), pre.length⟩ =
        Outcome.ok (PrototypeAST.mk fn.str_content (ids.map TokenWrapper.str_content))
          ⟨pre ++ fn :: lp :: (ids ++ stop :: rest), pre.length + ids.length + 3⟩) ∧
    (stop.type = Token.tok_comma →
      parsePrototype ⟨pre ++ fn :: lp :: (ids ++ stop :: rest), pre.length⟩ =
        Outcome.absent "Expected ')' in prototype"
          ⟨pre ++ fn :: lp :: (ids ++ stop :: rest), pre.length + ids.length + 2⟩) := by
  have e : pre ++ fn :: lp :: (ids ++ stop :: rest) =
      (pre ++ [fn, lp]) ++ (ids ++ stop :: rest) := by simp
  have e2 : pre.length + 1 + 1 = (pre ++ [fn, lp]).length := by simp
  have hend : (ListParser.mk ((pre ++ [fn, lp]) ++ (ids ++ stop :: rest))
      ((pre ++ [fn, lp]).length + ids.length)).peek = some stop := by
    rw [← List.append_assoc, ← List.length_append]
    exact (peek_append_zero _ _).trans (by simp)
  have key : ∀ (hs : stop.type ≠ Token.tok_identifier),
      parsePrototype ⟨pre ++ fn :: lp :: (ids ++ stop :: rest), pre.length⟩ =
        if stop.type ≠ Token.tok_rparen then
          LogError "Expected ')' in prototype"
            ⟨(pre ++ [fn, lp]) ++ (ids ++ stop :: rest), (pre ++ [fn, lp]).length + ids.length⟩
        else
          Outcome.ok (PrototypeAST.mk fn.str_content (ids.map TokenWrapper.str_content))
            (ListParser.mk ((pre ++ [fn, lp]) ++ (ids ++ stop :: rest))
              ((pre ++ [fn, lp]).length + ids.length)).next := by
    intro hs
    have hk0 : (ListParser.mk (pre ++ fn :: lp :: (ids ++ stop :: rest)) pre.length).peek =
        some fn :=
      (peek_append_zero pre _).trans (by simp)
    have hk1 : (ListParser.mk (pre ++ fn :: lp :: (ids ++ stop :: rest))
        (pre.length + 1)).peek = some lp :=
      (peek_append pre _ 1).trans (by simp)
    unfold parsePrototype
    rw [read_of_peek _ hk0, if_neg (by simp [hfn])]
    dsimp only
    rw [next_mk, read_of_peek _ hk1, if_neg (by simp [hlp])]
    rw [next_mk, e, e2]
    unfold parsePrototypeLoop
    rw [parsePrototypeLoopFuel_ids stop rest hs ids (pre ++ [fn, lp]) [] _ hids
      (by unfold remaining; simp; omega)]
    simp only [Outcome.andThen, List.nil_append]
    rw [read_of_peek _ hend]
  constructor
  · intro hr
    rw [key (by simp [hr]), if_neg (by simp [hr]), next_mk, e]
    simp [Nat.add_assoc, Nat.add_comm 2]
  · intro hc
    rw [key (by simp [hc]), if_pos (by simp [hc]), e]
    simp [LogError, Nat.add_assoc, Nat.add_comm 2]

/-- C6 at `f(a b c)` and at `f(a, b, c)`. -/
theorem parsePrototype_params_witness :
    parsePrototype ⟨Example.protoSpaces, 0⟩ =
        Outcome.ok (PrototypeAST.mk "f" ["a", "b", "c"]) ⟨Example.protoSpaces, 6⟩ ∧
      parsePrototype ⟨Example.callThree, 0⟩ =
        Outcome.absent "Expected ')' in prototype" ⟨Example.callThree, 3⟩ :=
  ⟨(parsePrototype_params [] [Example.tk Token.tok_eof]
      [Example.ident "a", Example.ident "b", Example.ident "c"] (Example.ident "f")
      (Example.tk Token.tok_lparen) (Example.tk Token.tok_rparen) rfl rfl
      (by decide)).1 rfl,
    (parsePrototype_params []
      [Example.ident "b", Example.tk Token.tok_comma, Example.ident "c",
        Example.tk Token.tok_rparen, Example.tk Token.tok_eof]
      [Example.ident "a"] (Example.ident "f")
      (Example.tk Token.tok_lparen) (Example.tk Token.tok_comma) rfl rfl
      (by decide)).2 rfl⟩

/-! ## C7 and C8: top-level expressions and definitions -/

/-- C7.  When `parseExpression` returns node `E` and state `q`,
`parseTopLevelExpr` returns the function whose prototype is named "anon_expr"
and has no parameters and whose body is `E`, with the same state `q`. -/
theorem parseTopLevelExpr_wraps (env : Externals) (p q : ListParser) (E : ExprAST)
    (h : parseExpression env p = Outcome.ok E q) :
    parseTopLevelExpr env p =
      Outcome.ok (FunctionAST.mk (PrototypeAST.mk "anon_expr" []) E) q := by
  unfold parseTopLevelExpr
  rw [h]

/-- C7 at `a + b * c`. -/
theorem parseTopLevelExpr_wraps_witness :
    parseTopLevelExpr Example.env ⟨Example.sumProduct, 0⟩ =
      Outcome.ok
        (FunctionAST.mk (PrototypeAST.mk "anon_expr" [])
          (ExprAST.BinaryExprAST (Token.tok_op 1) (ExprAST.VariableExprAST "a")
            (ExprAST.BinaryExprAST (Token.tok_op 3) (ExprAST.VariableExprAST "b")
              (ExprAST.VariableExprAST "c"))))
        ⟨Example.sumProduct, 5⟩ :=
  parseTopLevelExpr_wraps Example.env ⟨Example.sumProduct, 0⟩ ⟨Example.sumProduct, 5⟩ _ rfl

/-- C8 (the code departs from it).  When the prototype after `def` parses and
the body expression is absent, `parseDefinition` does not return an absent
result: control reaches the end of the function without a `return`; and so
does `parseTopLevelExpr` when its expression is absent. -/
theorem parseDefinition_absent_body_no_return (env : Externals) :
    (∀ (p q r : ListParser) (prototype : PrototypeAST) (msg : String),
      parsePrototype p.next = Outcome.ok prototype q →
      parseExpression env q = Outcome.absent msg r →
      parseDefinition env p = Outcome.undefined Undefined.noReturn) ∧
    (∀ (p r : ListParser) (msg : String),
      parseExpression env p = Outcome.absent msg r →
      parseTopLevelExpr env p = Outcome.undefined Undefined.noReturn) := by
  constructor
  · intro p q r prototype msg hp he
    unfold parseDefinition
    dsimp only
    rw [hp]
    simp only [Outcome.andThen]
    rw [he]
  · intro p r msg he
    unfold parseTopLevelExpr
    rw [he]

/-- C8 at `def f() )` and, for `parseTopLevelExpr`, at `)`. -/
theorem parseDefinition_absent_body_no_return_witness :
    parseDefinition Example.env ⟨Example.defBadBody, 0⟩ =
        Outcome.undefined Undefined.noReturn ∧
      parseTopLevelExpr Example.env ⟨Example.noExpression, 0⟩ =
        Outcome.undefined Undefined.noReturn :=
  ⟨(parseDefinition_absent_body_no_return Example.env).1 ⟨Example.defBadBody, 0⟩
      ⟨Example.defBadBody, 4⟩ ⟨Example.defBadBody, 4⟩ (PrototypeAST.mk "f" [])
      ("Unknown token when expecting an expression: " ++ "token") rfl rfl,
    (parseDefinition_absent_body_no_return Example.env).2 ⟨Example.noExpression, 0⟩
      ⟨Example.noExpression, 0⟩
      ("Unknown token when expecting an expression: " ++ "token") rfl⟩

/-! ## C9: the token vector -/

/-- C9 (the code departs from it).  For every precedence lookup in which
`else` and end of stream have no precedence, and for every value of the
enumerator `tok_then`, `parseIfExpr` on `if x else 2` returns an absent result
and leaves a token vector that differs from the one it was given: the `else`
after the condition has become a `then`. -/
theorem parseIfExpr_overwrites_token (env : Externals)
    (helse : ¬ HasPrecedence env Token.tok_else)
    (heof : ¬ HasPrecedence env Token.tok_eof) :
    (parseIfExpr env ⟨Example.ifNoThen, 0⟩).finalState.map ListParser.tokens =
        some Example.ifNoThenAfter ∧
      Example.ifNoThenAfter ≠ Example.ifNoThen := by
  unfold HasPrecedence at helse heof
  have hcond : parseExpression env (ListParser.mk Example.ifNoThen 0).next =
      Outcome.ok (ExprAST.VariableExprAST "x") ⟨Example.ifNoThen, 2⟩ := by
    show parseExpression env ⟨Example.ifNoThen, 1⟩ = _
    rw [parseExpression_eq]
    unfold parseExpressionBody
    rw [@parsePrimary_operand env ⟨Example.ifNoThen, 1⟩ (Example.ident "x")
      (Example.tk Token.tok_else) rfl rfl (Or.inr ⟨rfl, by decide⟩)]
    exact parseBinOpRHS_stop env _ (t := Example.tk Token.tok_else) rfl
      (by show env.getTokenPrecedence Token.tok_else < 0; omega)
  have hthen : parseExpression env ⟨Example.ifNoThenAfter, 3⟩ =
      Outcome.ok (ExprAST.NumberExprAST 2) ⟨Example.ifNoThenAfter, 4⟩ := by
    rw [parseExpression_eq]
    unfold parseExpressionBody
    rw [@parsePrimary_operand env ⟨Example.ifNoThenAfter, 3⟩ (Example.num 2)
      (Example.tk Token.tok_eof) rfl rfl (Or.inl rfl)]
    exact parseBinOpRHS_stop env _ (t := Example.tk Token.tok_eof) rfl
      (by show env.getTokenPrecedence Token.tok_eof < 0; omega)
  refine ⟨?_, by decide⟩
  by_cases hv : env.tokenValue Token.tok_then = 0
  · rw [parseIfExpr_of_zero env hcond (t := Example.tk Token.tok_else) rfl hv]
    show ((parseExpression env ⟨Example.ifNoThenAfter, 3⟩).andThen _).finalState.map _ = _
    rw [hthen]
    rfl
  · rw [parseIfExpr_of_nonzero env hcond (t := Example.tk Token.tok_else) rfl hv]
    rfl

/-- C9 with the example table. -/
theorem parseIfExpr_overwrites_token_witness :
    (parseIfExpr Example.env ⟨Example.ifNoThen, 0⟩).finalState.map ListParser.tokens =
      some Example.ifNoThenAfter :=
  (parseIfExpr_overwrites_token Example.env (by unfold HasPrecedence; decide)
    (by unfold HasPrecedence; decide)).1

/-! ## C10: the cursor invariant -/

theorem read_post {β : Type} {p : ListParser} {k : TokenWrapper → Outcome β}
    (hk : ∀ t, p.peek = some t → Post p (k t)) : Post p (p.read k) :=
  (@read_agree β p k k fun t ht => ⟨rfl, hk t ht⟩).2

theorem andThen_post {α β : Type} {p : ListParser} {r : Outcome α}
    {k : α → ListParser → Outcome β} (hr : Post p r)
    (hk : ∀ a q, r = Outcome.ok a q → Reach p q → Post p (k a q)) :
    Post p (r.andThen k) :=
  (@andThen_agree α β p r r k k ⟨rfl, hr⟩ fun a q h hq => ⟨rfl, hk a q h hq⟩).2

theorem parsePrototypeLoopFuel_post :
    ∀ (n : Nat) (acc : List String) (p : ListParser), remaining p + 1 ≤ n →
      Post p (parsePrototypeLoopFuel n acc p) := by
  intro n
  induction n with
  | zero =>
    intro acc p h
    omega
  | succ n ih =>
    intro acc p h
    unfold parsePrototypeLoopFuel
    apply read_post
    intro t ht
    have hlt := peek_lt ht
    split
    · apply Post.of_reach (reach_next ht)
      apply ih
      unfold remaining at *
      simp only [next_tokens, next_curr_token]
      omega
    · exact reach_self ht

theorem parsePrototype_post (p : ListParser) : Post p (parsePrototype p) := by
  unfold parsePrototype
  apply read_post
  intro t ht
  split
  · exact reach_self ht
  · apply Post.of_reach (reach_next ht)
    apply read_post
    intro t1 ht1
    split
    · exact reach_self ht1
    · apply Post.of_reach (reach_next ht1)
      apply andThen_post (parsePrototypeLoopFuel_post _ _ _ (Nat.le_refl _))
      intro names q _ hq
      apply Post.of_reach hq
      apply read_post
      intro t2 ht2
      split
      · exact reach_self ht2
      · exact reach_next ht2

theorem parseTopLevelExpr_post (env : Externals) (p : ListParser) :
    Post p (parseTopLevelExpr env p) := by
  have h := parseExpression_post env p
  unfold parseTopLevelExpr
  cases he : parseExpression env p with
  | ok a q =>
    rw [he] at h
    exact h
  | absent msg q => trivial
  | undefined u =>
    rw [he] at h
    exact h.undefined_cast
  | outOfFuel =>
    rw [he] at h
    exact h

theorem parseDefinition_post (env : Externals) (p : ListParser) :
    PostS p (parseDefinition env p) := by
  unfold parseDefinition
  apply Post.of_next
  apply andThen_post (parsePrototype_post p.next)
  intro prototype q _ hq
  apply Post.of_reach hq
  have h := parseExpression_post env q
  cases he : parseExpression env q with
  | ok a r =>
    rw [he] at h
    exact h
  | absent msg r => trivial
  | undefined u =>
    rw [he] at h
    exact h.undefined_cast
  | outOfFuel =>
    rw [he] at h
    exact h

theorem parseExtern_post (p : ListParser) : PostS p (parseExtern p) :=
  Post.of_next (parsePrototype_post p.next)

theorem keepsCursor_of_postS {α : Type} {p : ListParser} {r : Outcome α}
    (h : PostS p r) : KeepsCursor p r := by
  constructor
  · intro q hq
    cases r with
    | ok a s =>
      cases hq
      obtain ⟨_, h2, h3, h4⟩ := h
      exact ⟨h2, h3, h2 ▸ h4⟩
    | absent msg s =>
      cases hq
      obtain ⟨_, h2, h3, h4⟩ := h
      exact ⟨h2, h3, h2 ▸ h4⟩
    | undefined u => cases hq
    | outOfFuel => cases hq
  · intro i hi hlt
    subst hi
    exact h hlt

theorem keepsCursor_of_post {α : Type} {p : ListParser} {r : Outcome α} (h : Post p r) :
    KeepsCursor p r :=
  keepsCursor_of_postS h.postS

end ListParser

/-! ## C11 and C12: `getFunction` -/

theorem lookup_eq_none_of_not_key {β : Type} (Name : String) :
    ∀ (l : List (String × β)), Name ∉ l.map Prod.fst → l.lookup Name = none := by
  intro l
  induction l with
  | nil => intro _; rfl
  | cons a l ih =>
    intro h
    obtain ⟨k, v⟩ := a
    simp only [List.map_cons, List.mem_cons, not_or] at h
    have hk : (Name == k) = false := by
      simp [h.1]
    simp only [List.lookup, hk]
    exact ih h.2

/-- C11.  For every name that is neither the name of a function of the current
module nor a key of `FunctionProtos`, `getFunction` returns null, leaves the
globals (the module's function table and `FunctionProtos`) as they were, and
runs no prototype's `codegen`. -/
theorem getFunction_unknown_name
    (codegen : PrototypeAST → Globals → Option llvm.Function × Globals)
    (Name : String) (g : Globals)
    (hm : Name ∉ g.TheModule.functions.map Prod.fst)
    (hp : Name ∉ g.FunctionProtos.map Prod.fst) :
    getFunction codegen Name g = { result := none, globals := g, codegenRuns := [] } := by
  unfold getFunction llvm.Module.getFunction
  rw [lookup_eq_none_of_not_key Name _ hm, lookup_eq_none_of_not_key Name _ hp]

/-- C11 at the name `h` in the example globals. -/
theorem getFunction_unknown_name_witness :
    getFunction Example.protoCodegen "h" Example.globals =
      { result := none, globals := Example.globals, codegenRuns := [] } :=
  getFunction_unknown_name Example.protoCodegen "h" Example.globals (by decide) (by decide)

/-- C12.  `getFunction` resolves against the module first: when the module has
a function of that name it returns it, runs no `codegen` and leaves the
globals as they were, whatever `FunctionProtos` holds; when the module has
none and `FunctionProtos` has an entry, it returns what that prototype's
`codegen` returns, with the globals that `codegen` left; and a `codegen` is
run only in that second case. -/
theorem getFunction_module_first
    (codegen : PrototypeAST → Globals → Option llvm.Function × Globals)
    (Name : String) (g : Globals) :
    (∀ F, g.TheModule.getFunction Name = some F →
      getFunction codegen Name g = { result := some F, globals := g, codegenRuns := [] }) ∧
    (∀ proto, g.TheModule.getFunction Name = none →
      g.FunctionProtos.lookup Name = some proto →
      getFunction codegen Name g =
        { result := (codegen proto g).1, globals := (codegen proto g).2,
          codegenRuns := [proto] }) ∧
    ((getFunction codegen Name g).codegenRuns ≠ [] →
      g.TheModule.getFunction Name = none ∧
        ∃ proto, g.FunctionProtos.lookup Name = some proto) := by
  refine ⟨?_, ?_, ?_⟩
  · intro F hF
    unfold getFunction
    rw [hF]
  · intro proto hm hp
    unfold getFunction
    rw [hm, hp]
  · unfold getFunction
    cases hm : g.TheModule.getFunction Name with
    | some F => simp
    | none =>
      cases hp : g.FunctionProtos.lookup Name with
      | some proto => simp
      | none => simp

/-- C12 at the name `f`, which the example module and `FunctionProtos` both
have, and at `g`, which only `FunctionProtos` has. -/
theorem getFunction_module_first_witness :
    getFunction Example.protoCodegen "f" Example.globals =
        { result := some { id := 1 }, globals := Example.globals, codegenRuns := [] } ∧
      (getFunction Example.protoCodegen "g" Example.globals).codegenRuns =
        [{ name := "g", args := [] }] :=
  ⟨(getFunction_module_first Example.protoCodegen "f" Example.globals).1 _ (by decide),
    congrArg Resolved.codegenRuns
      ((getFunction_module_first Example.protoCodegen "g" Example.globals).2.1 _
        (by decide) (by decide))⟩

/-! ## C13, C14 and C17: lowering of `Pose2dExprAST` -/

namespace Pose2dExprAST

/-- The end of `codegen` (source lines 28-48) once the four sub-expressions
have been lowered. -/
theorem codegen_eq (lower : ExprAST → llvm.IRBuilder → Option llvm.Value × llvm.IRBuilder)
    (e : Pose2dExprAST) (b : llvm.IRBuilder) :
    codegen lower e b =
      ((lower e.destination (lower e.theta (lower e.y (lower e.x b).2).2).2).2.CreateGEP false
          (lower e.destination (lower e.theta (lower e.y (lower e.x b).2).2).2).1
          [index 0, index 0] "gep_pose2_x").andThen fun gep_x B =>
        (B.CreateStore (lower e.x b).1 gep_x).andThen fun _ B =>
        (B.CreateGEP true
          (lower e.destination (lower e.theta (lower e.y (lower e.x b).2).2).2).1
          [index 0, index 1] "gep_pose2_y").andThen fun gep_y B =>
        (B.CreateStore (lower e.y (lower e.x b).2).1 gep_y).andThen fun _ B =>
        (B.CreateGEP true
          (lower e.destination (lower e.theta (lower e.y (lower e.x b).2).2).2).1
          [index 0, index 2] "gep_pose2_theta").andThen fun gep_theta B =>
        (B.CreateStore (lower e.theta (lower e.y (lower e.x b).2).2).1 gep_theta).andThen
          fun _ B =>
        llvm.Emitted.ok
          (lower e.destination (lower e.theta (lower e.y (lower e.x b).2).2).2).1 B := rfl

/-- The outcome of `codegen` in terms of what the four sub-expressions lower
to, values or null. -/
theorem codegen_of_lowered
    (lower : ExprAST → llvm.IRBuilder → Option llvm.Value × llvm.IRBuilder)
    (e : Pose2dExprAST) (b₀ b₁ b₂ b₃ b₄ : llvm.IRBuilder) (px py pt pd : Option llvm.Value)
    (hx : lower e.x b₀ = (px, b₁)) (hy : lower e.y b₁ = (py, b₂))
    (ht : lower e.theta b₂ = (pt, b₃)) (hd : lower e.destination b₃ = (pd, b₄)) :
    codegen lower e b₀ =
      (b₄.CreateGEP false pd [index 0, index 0] "gep_pose2_x").andThen fun gep_x B =>
        (B.CreateStore px gep_x).andThen fun _ B =>
        (B.CreateGEP true pd [index 0, index 1] "gep_pose2_y").andThen fun gep_y B =>
        (B.CreateStore py gep_y).andThen fun _ B =>
        (B.CreateGEP true pd [index 0, index 2] "gep_pose2_theta").andThen fun gep_theta B =>
        (B.CreateStore pt gep_theta).andThen fun _ B =>
        llvm.Emitted.ok pd B := by
  rw [codegen_eq, hx]
  dsimp only
  rw [hy]
  dsimp only
  rw [ht]
  dsimp only
  rw [hd]

/-- C14, counterexample.  With the example lowering under which `x` does not
lower, the outcome of `codegen` is not an absent result, and the address
computation for the field `x` has been inserted. -/
theorem codegen_absent_field_counterexample :
    (Example.lowerXFails Example.pose.x { instructions := [] }).1 = none ∧
      codegen Example.lowerXFails Example.pose { instructions := [] } =
        llvm.Emitted.undefined
          { instructions :=
              [llvm.Instruction.other 2, llvm.Instruction.other 3, llvm.Instruction.other 4,
                llvm.Instruction.GetElementPtr false (llvm.Value.named 4) [index 0, index 0]
                  "gep_pose2_x"] } := by
  decide

/-- C14, amended.  `codegen` makes no test of what its sub-expressions lower
to and never returns an absent result.  The four sub-expressions are lowered
whatever the earlier ones yielded.  When `destination` yields null, the null
handle is handed to the first address computation, with no address
computation and no store inserted.  When `destination` yields `h` and `x`
yields null, the (0,0) address computation is inserted and the null value is
handed to the store; when `y` is the first field to yield null, this happens
at the store of `y`, after three instructions; when `theta` is, at the store
of `theta`, after five. -/
theorem codegen_makes_no_test
    (lower : ExprAST → llvm.IRBuilder → Option llvm.Value × llvm.IRBuilder)
    (e : Pose2dExprAST) (b₀ b₁ b₂ b₃ b₄ : llvm.IRBuilder) (px py pt pd : Option llvm.Value)
    (hx : lower e.x b₀ = (px, b₁)) (hy : lower e.y b₁ = (py, b₂))
    (ht : lower e.theta b₂ = (pt, b₃)) (hd : lower e.destination b₃ = (pd, b₄)) :
    (∀ b, codegen lower e b₀ ≠ llvm.Emitted.ok none b) ∧
    (pd = none → codegen lower e b₀ = llvm.Emitted.undefined b₄) ∧
    (∀ h, pd = some h → px = none →
      codegen lower e b₀ =
        llvm.Emitted.undefined
          { instructions := b₄.instructions ++
              [llvm.Instruction.GetElementPtr false h [index 0, index 0] "gep_pose2_x"] }) ∧
    (∀ h vx, pd = some h → px = some vx → py = none →
      codegen lower e b₀ =
        llvm.Emitted.undefined
          { instructions := b₄.instructions ++
              [llvm.Instruction.GetElementPtr false h [index 0, index 0] "gep_pose2_x",
                llvm.Instruction.Store vx (llvm.Value.element h [index 0, index 0]),
                llvm.Instruction.GetElementPtr true h [index 0, index 1] "gep_pose2_y"] }) ∧
    (∀ h vx vy, pd = some h → px = some vx → py = some vy → pt = none →
      codegen lower e b₀ =
        llvm.Emitted.undefined
          { instructions := b₄.instructions ++
              [llvm.Instruction.GetElementPtr false h [index 0, index 0] "gep_pose2_x",
                llvm.Instruction.Store vx (llvm.Value.element h [index 0, index 0]),
                llvm.Instruction.GetElementPtr true h [index 0, index 1] "gep_pose2_y",
                llvm.Instruction.Store vy (llvm.Value.element h [index 0, index 1]),
                llvm.Instruction.GetElementPtr true h [index 0, index 2]
                  "gep_pose2_theta"] }) := by
  rw [codegen_of_lowered lower e b₀ b₁ b₂ b₃ b₄ px py pt pd hx hy ht hd]
  refine ⟨?_, ?_, ?_, ?_, ?_⟩
  · intro b
    cases pd with
    | none => simp [llvm.IRBuilder.CreateGEP, llvm.Emitted.andThen]
    | some h =>
      cases px <;> cases py <;> cases pt <;>
        simp [llvm.IRBuilder.CreateGEP, llvm.IRBuilder.CreateStore, llvm.Emitted.andThen]
  · intro h
    subst h
    rfl
  · intro h hd' hx'
    subst hd' hx'
    rfl
  · intro h vx hd' hx' hy'
    subst hd' hx' hy'
    simp [llvm.IRBuilder.CreateGEP, llvm.IRBuilder.CreateStore, llvm.Emitted.andThen]
  · intro h vx vy hd' hx' hy' ht'
    subst hd' hx' hy' ht'
    simp [llvm.IRBuilder.CreateGEP, llvm.IRBuilder.CreateStore, llvm.Emitted.andThen]

/-- C14, amended, with the example lowering under which nothing lowers: the
null handle of `destination` reaches the builder with nothing inserted. -/
theorem codegen_makes_no_test_witness :
    codegen Example.lowerNone Example.pose { instructions := [] } =
      llvm.Emitted.undefined { instructions := [] } :=
  (codegen_makes_no_test Example.lowerNone Example.pose { instructions := [] }
    { instructions := [] } { instructions := [] } { instructions := [] }
    { instructions := [] } none none none none rfl rfl rfl rfl).2.1 rfl

/-- C17, counterexample.  With the example lowering, in which each
sub-expression inserts its own instruction, the instruction of `destination`
(instruction 4) is inserted after those of `x`, `y` and `theta` (instructions
1, 2, 3), not before them. -/
theorem codegen_destination_first_counterexample :
    (codegen Example.lowerMarked Example.pose { instructions := [] }).instructions.take 4 =
        [llvm.Instruction.other 1, llvm.Instruction.other 2, llvm.Instruction.other 3,
          llvm.Instruction.other 4] ∧
      ¬ ((codegen Example.lowerMarked Example.pose { instructions := [] }).instructions.indexOf
            (llvm.Instruction.other 4) <
          (codegen Example.lowerMarked Example.pose { instructions := [] }).instructions.indexOf
            (llvm.Instruction.other 1)) := by
  decide

/-- C17, amended.  `codegen` lowers the field value expressions first, in the
order `x`, `y`, `theta`, and the `destination` sub-expression last: `x` is
lowered in the builder state of the call, `y` in the state that lowering `x`
left, `theta` in the state that lowering `y` left, `destination` in the state
that lowering `theta` left; and the instructions in the builder at the end are
those that lowering `destination` left, followed only by address computations
and stores. -/
theorem codegen_lowers_destination_last
    (lower : ExprAST → llvm.IRBuilder → Option llvm.Value × llvm.IRBuilder)
    (e : Pose2dExprAST) (b₀ b₁ b₂ b₃ b₄ : llvm.IRBuilder) (px py pt pd : Option llvm.Value)
    (hx : lower e.x b₀ = (px, b₁)) (hy : lower e.y b₁ = (py, b₂))
    (ht : lower e.theta b₂ = (pt, b₃)) (hd : lower e.destination b₃ = (pd, b₄)) :
    ∃ added,
      (codegen lower e b₀).instructions = b₄.instructions ++ added ∧
        ∀ i ∈ added, i.isAccess = true := by
  rw [codegen_of_lowered lower e b₀ b₁ b₂ b₃ b₄ px py pt pd hx hy ht hd]
  cases pd with
  | none => exact ⟨[], by simp [llvm.IRBuilder.CreateGEP, llvm.Emitted.andThen,
      llvm.Emitted.instructions], by simp⟩
  | some h =>
    cases px with
    | none =>
      exact ⟨[llvm.Instruction.GetElementPtr false h [index 0, index 0] "gep_pose2_x"],
        by simp [llvm.IRBuilder.CreateGEP, llvm.IRBuilder.CreateStore, llvm.Emitted.andThen,
          llvm.Emitted.instructions],
        by simp [llvm.Instruction.isAccess]⟩
    | some vx =>
      cases py with
      | none =>
        exact ⟨[llvm.Instruction.GetElementPtr false h [index 0, index 0] "gep_pose2_x",
            llvm.Instruction.Store vx (llvm.Value.element h [index 0, index 0]),
            llvm.Instruction.GetElementPtr true h [index 0, index 1] "gep_pose2_y"],
          by simp [llvm.IRBuilder.CreateGEP, llvm.IRBuilder.CreateStore, llvm.Emitted.andThen,
            llvm.Emitted.instructions],
          by simp [llvm.Instruction.isAccess]⟩
      | some vy =>
        cases pt with
        | none =>
          exact ⟨[llvm.Instruction.GetElementPtr false h [index 0, index 0] "gep_pose2_x",
              llvm.Instruction.Store vx (llvm.Value.element h [index 0, index 0]),
              llvm.Instruction.GetElementPtr true h [index 0, index 1] "gep_pose2_y",
              llvm.Instruction.Store vy (llvm.Value.element h [index 0, index 1]),
              llvm.Instruction.GetElementPtr true h [index 0, index 2] "gep_pose2_theta"],
            by simp [llvm.IRBuilder.CreateGEP, llvm.IRBuilder.CreateStore,
              llvm.Emitted.andThen, llvm.Emitted.instructions],
            by simp [llvm.Instruction.isAccess]⟩
        | some vt =>
          exact ⟨[llvm.Instruction.GetElementPtr false h [index 0, index 0] "gep_pose2_x",
              llvm.Instruction.Store vx (llvm.Value.element h [index 0, index 0]),
              llvm.Instruction.GetElementPtr true h [index 0, index 1] "gep_pose2_y",
              llvm.Instruction.Store vy (llvm.Value.element h [index 0, index 1]),
              llvm.Instruction.GetElementPtr true h [index 0, index 2] "gep_pose2_theta",
              llvm.Instruction.Store vt (llvm.Value.element h [index 0, index 2])],
            by simp [llvm.IRBuilder.CreateGEP, llvm.IRBuilder.CreateStore,
              llvm.Emitted.andThen, llvm.Emitted.instructions],
            by simp [llvm.Instruction.isAccess]⟩

/-- C17, amended, with the example lowering: the four instructions of the
sub-expressions come in the order 1 (`x`), 2 (`y`), 3 (`theta`), 4
(`destination`), and what follows them are address computations and stores. -/
theorem codegen_lowers_destination_last_witness :
    ∃ added,
      (codegen Example.lowerMarked Example.pose { instructions := [] }).instructions =
          [llvm.Instruction.other 1, llvm.Instruction.other 2, llvm.Instruction.other 3,
            llvm.Instruction.other 4] ++ added ∧
        ∀ i ∈ added, i.isAccess = true :=
  codegen_lowers_destination_last Example.lowerMarked Example.pose { instructions := [] }
    { instructions := [llvm.Instruction.other 1] }
    { instructions := [llvm.Instruction.other 1, llvm.Instruction.other 2] }
    { instructions :=
        [llvm.Instruction.other 1, llvm.Instruction.other 2, llvm.Instruction.other 3] }
    { instructions :=
        [llvm.Instruction.other 1, llvm.Instruction.other 2, llvm.Instruction.other 3,
          llvm.Instruction.other 4] }
    (some (llvm.Value.named 1)) (some (llvm.Value.named 2)) (some (llvm.Value.named 3))
    (some (llvm.Value.named 4)) rfl rfl rfl rfl

end Pose2dExprAST

namespace ListParser

/-! ## C15: the separators of an argument list -/

/-- The argument loop after the first expressions of a list: it stands at the
token after the last of them. -/
theorem parseArgs_of_parsesArgsUpTo (env : Externals) {p q : ListParser}
    {args : List ExprAST} (h : ParsesArgsUpTo env p args q) :
    ∀ acc, parseArgs env acc p =
      q.read fun t =>
        if t.type = Token.tok_rparen then Outcome.ok (acc ++ args) q
        else if t.type = Token.tok_comma then parseArgs env (acc ++ args) q.next
        else LogError "Expected ')' or ',' in the argument list" q := by
  induction h with
  | one he =>
    intro acc
    rw [parseArgs_eq]
    unfold parseArgsBody
    rw [he]
    rfl
  | more he ht hc _ ih =>
    intro acc
    rw [parseArgs_eq]
    unfold parseArgsBody
    rw [he]
    simp only [Outcome.andThen]
    rw [read_of_peek _ ht]
    simp [hc, ih]

/-- The call of `parseIdentifierExpr` on a token followed by `(` and the first
expressions of an argument list. -/
theorem parseIdentifierExpr_of_parsesArgsUpTo (env : Externals) {p q : ListParser}
    {t t1 : TokenWrapper} {args : List ExprAST}
    (hid : p.peek = some t) (hlp : p.next.peek = some t1) (h1 : t1.type = Token.tok_lparen)
    (hargs : ParsesArgsUpTo env p.next.next args q) :
    parseIdentifierExpr env p =
      (parseArgs env [] p.next.next).andThen fun arguments r =>
        Outcome.ok (ExprAST.CallExprAST t.str_content arguments) r.next := by
  have hfirst : ∃ t2, p.next.next.peek = some t2 ∧ t2.type ≠ Token.tok_rparen := by
    cases hargs with
    | one he => exact parseExpression_ok_peek env he
    | more he _ _ _ => exact parseExpression_ok_peek env he
  obtain ⟨t2, ht2, hr⟩ := hfirst
  rw [parseIdentifierExpr_eq]
  unfold parseIdentifierExprBody
  rw [read_of_peek _ hid]
  dsimp only
  rw [read_of_peek _ hlp]
  rw [if_neg (by simp [h1])]
  rw [read_of_peek _ ht2]
  rw [if_pos hr]

/-- C15.  In the argument list of a call, after each parsed argument (the
arguments `args` so far, the last of which ends in state `q` on a token `tq`):
when `tq` is `)` the list ends and the call with exactly these arguments is
returned; when `tq` is `,` it is consumed and the loop goes on after it with
the arguments collected, so that another argument is required: if no
expression parses there, the call is absent, as it is for a trailing comma
(`)` right after the comma); and when `tq` is of any other kind the result is
absent with the message "Expected ')' or ',' in the argument list", the
cursor on `tq`. -/
theorem parseIdentifierExpr_separators (env : Externals) (p q : ListParser)
    (t t1 tq : TokenWrapper) (args : List ExprAST)
    (hid : p.peek = some t) (hlp : p.next.peek = some t1) (h1 : t1.type = Token.tok_lparen)
    (hargs : ParsesArgsUpTo env p.next.next args q) (hq : q.peek = some tq) :
    (tq.type = Token.tok_rparen →
      parseIdentifierExpr env p =
        Outcome.ok (ExprAST.CallExprAST t.str_content args) q.next) ∧
    (tq.type = Token.tok_comma →
      parseIdentifierExpr env p =
          (parseArgs env args q.next).andThen (fun arguments r =>
            Outcome.ok (ExprAST.CallExprAST t.str_content arguments) r.next) ∧
        (∀ msg r, parseExpression env q.next = Outcome.absent msg r →
          parseIdentifierExpr env p = Outcome.absent msg r) ∧
        (∀ tn, q.next.peek = some tn → tn.type = Token.tok_rparen →
          parseIdentifierExpr env p =
            Outcome.absent
              ("Unknown token when expecting an expression: " ++
                env.formatToken Token.tok_rparen)
              q.next)) ∧
    (tq.type ≠ Token.tok_rparen → tq.type ≠ Token.tok_comma →
      parseIdentifierExpr env p =
        Outcome.absent "Expected ')' or ',' in the argument list" q) := by
  have start := parseIdentifierExpr_of_parsesArgsUpTo env hid hlp h1 hargs
  rw [parseArgs_of_parsesArgsUpTo env hargs [], read_of_peek _ hq] at start
  simp only [List.nil_append] at start
  have absent_of : ∀ msg r, parseExpression env q.next = Outcome.absent msg r →
      parseArgs env args q.next = Outcome.absent msg r := by
    intro msg r he
    rw [parseArgs_eq]
    unfold parseArgsBody
    rw [he]
    rfl
  refine ⟨?_, ?_, ?_⟩
  · intro hr
    rw [start, if_pos hr]
    rfl
  · intro hc
    have hnr : tq.type ≠ Token.tok_rparen := by simp [hc]
    rw [if_neg hnr, if_pos hc] at start
    refine ⟨start, ?_, ?_⟩
    · intro msg r he
      rw [start, absent_of msg r he]
      rfl
    · intro tn htn hr
      have he : parseExpression env q.next =
          Outcome.absent
            ("Unknown token when expecting an expression: " ++
              env.formatToken Token.tok_rparen)
            q.next := by
        rw [parseExpression_eq]
        unfold parseExpressionBody
        rw [parsePrimary_eq]
        unfold parsePrimaryBody
        rw [read_of_peek _ htn]
        simp [hr, LogError, Outcome.andThen]
      rw [start, absent_of _ _ he]
      rfl
  · intro hnr hnc
    rw [start, if_neg hnr, if_neg hnc]
    rfl

/-- C15 at `f(a,)`, the trailing comma, and at `f(a = b)`, where the token
after the first argument is neither `)` nor `,`. -/
theorem parseIdentifierExpr_separators_witness :
    parseIdentifierExpr Example.env ⟨Example.callTrailingComma, 0⟩ =
        Outcome.absent "Unknown token when expecting an expression: token"
          ⟨Example.callTrailingComma, 4⟩ ∧
      parseIdentifierExpr Example.env ⟨Example.callNoSeparator, 0⟩ =
        Outcome.absent "Expected ')' or ',' in the argument list"
          ⟨Example.callNoSeparator, 3⟩ :=
  ⟨((parseIdentifierExpr_separators Example.env ⟨Example.callTrailingComma, 0⟩
      ⟨Example.callTrailingComma, 3⟩ (Example.ident "f") (Example.tk Token.tok_lparen)
      (Example.tk Token.tok_comma) [ExprAST.VariableExprAST "a"] rfl rfl rfl
      (ParsesArgsUpTo.one rfl) rfl).2.1 rfl).2.2 (Example.tk Token.tok_rparen) rfl rfl,
    (parseIdentifierExpr_separators Example.env ⟨Example.callNoSeparator, 0⟩
      ⟨Example.callNoSeparator, 3⟩ (Example.ident "f") (Example.tk Token.tok_lparen)
      (Example.tk Token.tok_equal) [ExprAST.VariableExprAST "a"] rfl rfl rfl
      (ParsesArgsUpTo.one rfl) rfl).2.2 (by decide) (by decide)⟩

/-! ## C16: the errors of `parseForExpr` -/

/-- The end of `parseForExpr` when no `in` is there, and when the body is
absent. -/
theorem parseForExprIn_errors (env : Externals) (identifier : String) (S E : ExprAST)
    (step : Option ExprAST) (q : ListParser) (t : TokenWrapper) (hq : q.peek = some t) :
    (t.type ≠ Token.tok_in →
      parseForExprIn (parseExpression env) identifier S E step q =
        Outcome.absent "expected 'in' after for" q) ∧
    (t.type = Token.tok_in → ∀ msg r, parseExpression env q.next = Outcome.absent msg r →
      parseForExprIn (parseExpression env) identifier S E step q = Outcome.absent msg r) := by
  constructor
  · intro h
    unfold parseForExprIn
    rw [read_of_peek _ hq, if_pos h]
    rfl
  · intro h msg r he
    unfold parseForExprIn
    rw [read_of_peek _ hq, if_neg (by simp [h])]
    dsimp only
    rw [he]
    rfl

/-- C16.  With the cursor on `for`, `parseForExpr` returns an absent result
and no `For` node: with the message "expected identifier after for" when the
next token is not an identifier; with "expected '=' after for" when the token
after the identifier is not `=`; with "expected ',' after for start value"
when the token after the start expression is not `,`; with "expected 'in'
after for" when the token after the end expression is neither `,` nor `in`,
or when the token after the step expression is not `in`; and with the absent
result of the sub-expression when the start, end, step or body expression is
absent. -/
theorem parseForExpr_errors (env : Externals) (p : ListParser) :
    (∀ t, p.next.peek = some t → t.type ≠ Token.tok_identifier →
      parseForExpr env p = Outcome.absent "expected identifier after for" p.next) ∧
    (∀ tid teq, p.next.peek = some tid → tid.type = Token.tok_identifier →
      p.next.next.peek = some teq →
      (teq.type ≠ Token.tok_equal →
        parseForExpr env p = Outcome.absent "expected '=' after for" p.next.next) ∧
      (teq.type = Token.tok_equal →
        (∀ msg r, parseExpression env p.next.next.next = Outcome.absent msg r →
          parseForExpr env p = Outcome.absent msg r) ∧
        (∀ S q₁ tc, parseExpression env p.next.next.next = Outcome.ok S q₁ →
          q₁.peek = some tc →
          (tc.type ≠ Token.tok_comma →
            parseForExpr env p =
              Outcome.absent "expected ',' after for start value" q₁) ∧
          (tc.type = Token.tok_comma →
            (∀ msg r, parseExpression env q₁.next = Outcome.absent msg r →
              parseForExpr env p = Outcome.absent msg r) ∧
            (∀ E q₂ t₂, parseExpression env q₁.next = Outcome.ok E q₂ →
              q₂.peek = some t₂ →
              (t₂.type ≠ Token.tok_comma → t₂.type ≠ Token.tok_in →
                parseForExpr env p = Outcome.absent "expected 'in' after for" q₂) ∧
              (t₂.type = Token.tok_in →
                ∀ msg r, parseExpression env q₂.next = Outcome.absent msg r →
                  parseForExpr env p = Outcome.absent msg r) ∧
              (t₂.type = Token.tok_comma →
                (∀ msg r, parseExpression env q₂.next = Outcome.absent msg r →
                  parseForExpr env p = Outcome.absent msg r) ∧
                (∀ P q₃ t₃, parseExpression env q₂.next = Outcome.ok P q₃ →
                  q₃.peek = some t₃ →
                  (t₃.type ≠ Token.tok_in →
                    parseForExpr env p = Outcome.absent "expected 'in' after for" q₃) ∧
                  (t₃.type = Token.tok_in →
                    ∀ msg r, parseExpression env q₃.next = Outcome.absent msg r →
                      parseForExpr env p = Outcome.absent msg r)))))))) := by
  constructor
  · intro t ht hty
    rw [parseForExpr_eq]
    unfold parseForExprBody
    dsimp only
    rw [read_of_peek _ ht, if_pos hty]
    rfl
  · intro tid teq hid hidt heq
    have step1 : parseForExpr env p =
        if teq.type ≠ Token.tok_equal then LogError "expected '=' after for" p.next.next
        else
          (parseExpression env p.next.next.next).andThen fun start q =>
            q.read fun t =>
              if t.type ≠ Token.tok_comma then
                LogError "expected ',' after for start value" q
              else
                (parseExpression env q.next).andThen fun end_ q' =>
                  q'.read fun t' =>
                    if t'.type = Token.tok_comma then
                      (parseExpression env q'.next).andThen fun step r =>
                        parseForExprIn (parseExpression env) tid.str_content start end_
                          (some step) r
                    else
                      parseForExprIn (parseExpression env) tid.str_content start end_
                        none q' := by
      rw [parseForExpr_eq]
      unfold parseForExprBody
      dsimp only
      rw [read_of_peek _ hid, if_neg (by simp [hidt]), read_of_peek _ heq]
    constructor
    · intro hne
      rw [step1, if_pos hne]
      rfl
    · intro he
      rw [if_neg (by simp [he])] at step1
      constructor
      · intro msg r hS
        rw [step1, hS]
        rfl
      · intro S q₁ tc hS hc
        rw [hS] at step1
        simp only [Outcome.andThen] at step1
        rw [read_of_peek _ hc] at step1
        constructor
        · intro hne
          rw [step1, if_pos hne]
          rfl
        · intro hct
          rw [if_neg (by simp [hct])] at step1
          constructor
          · intro msg r hE
            rw [step1, hE]
          · intro E q₂ t₂ hE h₂
            rw [hE] at step1
            simp only [] at step1
            rw [read_of_peek _ h₂] at step1
            refine ⟨?_, ?_, ?_⟩
            · intro hnc hni
              rw [step1, if_neg hnc]
              exact (parseForExprIn_errors env _ S E none q₂ t₂ h₂).1 hni
            · intro hin msg r hB
              rw [step1, if_neg (by simp [hin])]
              exact (parseForExprIn_errors env _ S E none q₂ t₂ h₂).2 hin msg r hB
            · intro hcomma
              rw [if_pos hcomma] at step1
              constructor
              · intro msg r hP
                rw [step1, hP]
              · intro P q₃ t₃ hP h₃
                rw [hP] at step1
                simp only [] at step1
                constructor
                · intro hni
                  rw [step1]
                  exact (parseForExprIn_errors env _ S E (some P) q₃ t₃ h₃).1 hni
                · intro hin msg r hB
                  rw [step1]
                  exact (parseForExprIn_errors env _ S E (some P) q₃ t₃ h₃).2 hin msg r hB

/-- C16 at `for 1` (no identifier) and at `for i = 0, 10 then` (no `in`). -/
theorem parseForExpr_errors_witness :
    parseForExpr Example.env ⟨Example.forNoIdentifier, 0⟩ =
        Outcome.absent "expected identifier after for" ⟨Example.forNoIdentifier, 1⟩ ∧
      parseForExpr Example.env ⟨Example.forNoIn, 0⟩ =
        Outcome.absent "expected 'in' after for" ⟨Example.forNoIn, 6⟩ :=
  ⟨(parseForExpr_errors Example.env ⟨Example.forNoIdentifier, 0⟩).1 (Example.num 1) rfl
      (by decide),
    ((((((parseForExpr_errors Example.env ⟨Example.forNoIn, 0⟩).2 (Example.ident "i")
      (Example.tk Token.tok_equal) rfl rfl rfl).2 rfl).2 (ExprAST.NumberExprAST 0)
      ⟨Example.forNoIn, 4⟩ (Example.tk Token.tok_comma) rfl rfl).2 rfl).2
      (ExprAST.NumberExprAST 10) ⟨Example.forNoIn, 6⟩ (Example.tk Token.tok_then)
      rfl rfl).1 (by decide) (by decide)⟩

/-! ## C19: progress and termination -/

theorem cursorFrom_read {β : Type} {n : Nat} {p : ListParser}
    {k : TokenWrapper → Outcome β} (h : ∀ t, p.peek = some t → CursorFrom n (k t)) :
    CursorFrom n (p.read k) := by
  cases hp : p.peek with
  | none =>
    intro a q e
    unfold read at e
    rw [hp] at e
    cases e
  | some t =>
    rw [read_of_peek _ hp]
    exact h t hp

theorem cursorFrom_andThen {α β : Type} {n : Nat} {r : Outcome α}
    {k : α → ListParser → Outcome β}
    (h : ∀ b q, r = Outcome.ok b q → CursorFrom n (k b q)) :
    CursorFrom n (r.andThen k) := by
  cases r with
  | ok b q => exact h b q rfl
  | absent msg q =>
    intro a q' e
    cases e
  | undefined u =>
    intro a q' e
    cases e
  | outOfFuel =>
    intro a q' e
    cases e

theorem cursorFrom_ok {α : Type} {n : Nat} {a : α} {q : ListParser}
    (h : n ≤ q.curr_token) : CursorFrom n (Outcome.ok a q) := by
  intro b q' e
  cases e
  exact h

theorem cursorFrom_absent {α : Type} {n : Nat} {msg : String} {q : ListParser} :
    CursorFrom n (Outcome.absent msg q : Outcome α) := by
  intro b q' e
  cases e

theorem cursorFrom_logError {α : Type} {n : Nat} {msg : String} {q : ListParser} :
    CursorFrom n (LogError msg q : Outcome α) :=
  cursorFrom_absent

theorem cursorFrom_of_post {α : Type} {n : Nat} {p : ListParser} {r : Outcome α}
    (h : Post p r) (hn : n ≤ p.curr_token) : CursorFrom n r := by
  intro a q e
  rw [e] at h
  exact Nat.le_trans hn h.2.2.1

theorem le_of_post_ok {α : Type} {p q : ListParser} {r : Outcome α} {a : α}
    (h : Post p r) (e : r = Outcome.ok a q) : p.curr_token ≤ q.curr_token := by
  rw [e] at h
  exact h.2.2.1

theorem parseNumberExpr_progress (p : ListParser) : Progress p (parseNumberExpr p) := by
  unfold parseNumberExpr
  apply cursorFrom_read
  intro t _
  exact cursorFrom_ok (Nat.le_refl _)

theorem parseParenExpr_progress (env : Externals) (p : ListParser) :
    Progress p (parseParenExpr env p) := by
  rw [parseParenExpr_eq]
  unfold parseParenExprBody
  apply cursorFrom_andThen
  intro V q hV
  have h1 : p.curr_token + 1 ≤ q.curr_token := le_of_post_ok (parseExpression_post env p.next) hV
  apply cursorFrom_read
  intro t _
  split
  · exact cursorFrom_logError
  · exact cursorFrom_ok (Nat.le_succ_of_le h1)

theorem parseIfExpr_progress (env : Externals) (p : ListParser) :
    Progress p (parseIfExpr env p) := by
  rw [parseIfExpr_eq]
  unfold parseIfExprBody
  apply cursorFrom_andThen
  intro C q hC
  have h1 : p.curr_token + 1 ≤ q.curr_token := le_of_post_ok (parseExpression_post env p.next) hC
  apply cursorFrom_read
  intro t _
  split
  · exact cursorFrom_logError
  · apply cursorFrom_andThen
    intro T q₂ hT
    have h2 : q.curr_token + 1 ≤ q₂.curr_token :=
      le_of_post_ok (parseExpression_post env (q.assignType t Token.tok_then).next) hT
    apply cursorFrom_read
    intro t₂ _
    split
    · exact cursorFrom_logError
    · apply cursorFrom_andThen
      intro E q₃ hE
      have h3 : q₂.curr_token + 1 ≤ q₃.curr_token :=
        le_of_post_ok (parseExpression_post env q₂.next) hE
      apply cursorFrom_ok
      omega

theorem parseForExprIn_cursorFrom (env : Externals) (identifier : String) (S E : ExprAST)
    (step : Option ExprAST) (q : ListParser) :
    CursorFrom (q.curr_token + 1)
      (parseForExprIn (parseExpression env) identifier S E step q) := by
  unfold parseForExprIn
  apply cursorFrom_read
  intro t _
  split
  · exact cursorFrom_logError
  · apply cursorFrom_andThen
    intro B q₂ hB
    exact cursorFrom_ok (le_of_post_ok (parseExpression_post env q.next) hB)

theorem cursorFrom_mono {α : Type} {n m : Nat} {r : Outcome α} (h : CursorFrom m r)
    (hn : n ≤ m) : CursorFrom n r :=
  fun a q e => Nat.le_trans hn (h a q e)

theorem parseForExpr_progress (env : Externals) (p : ListParser) :
    Progress p (parseForExpr env p) := by
  rw [parseForExpr_eq]
  unfold parseForExprBody
  apply cursorFrom_read
  intro t _
  split
  · exact cursorFrom_logError
  · apply cursorFrom_read
    intro t₁ _
    split
    · exact cursorFrom_logError
    · apply cursorFrom_andThen
      intro S q₁ hS
      have h1 : p.curr_token + 3 ≤ q₁.curr_token :=
        le_of_post_ok (parseExpression_post env p.next.next.next) hS
      apply cursorFrom_read
      intro t₂ _
      split
      · exact cursorFrom_logError
      · apply cursorFrom_andThen
        intro E q₂ hE
        have h2 : q₁.curr_token + 1 ≤ q₂.curr_token :=
          le_of_post_ok (parseExpression_post env q₁.next) hE
        apply cursorFrom_read
        intro t₃ _
        split
        · apply cursorFrom_andThen
          intro P q₃ hP
          have h3 : q₂.curr_token + 1 ≤ q₃.curr_token :=
            le_of_post_ok (parseExpression_post env q₂.next) hP
          exact cursorFrom_mono (parseForExprIn_cursorFrom env _ S E (some P) q₃) (by omega)
        · exact cursorFrom_mono (parseForExprIn_cursorFrom env _ S E none q₂) (by omega)

theorem parseIdentifierExpr_progress (env : Externals) (p : ListParser) :
    Progress p (parseIdentifierExpr env p) := by
  rw [parseIdentifierExpr_eq]
  unfold parseIdentifierExprBody
  apply cursorFrom_read
  intro t _
  apply cursorFrom_read
  intro t₁ _
  split
  · exact cursorFrom_ok (Nat.le_refl _)
  · apply cursorFrom_read
    intro t₂ _
    split
    · apply cursorFrom_andThen
      intro args q hq
      have h1 : p.curr_token + 2 ≤ q.curr_token :=
        le_of_post_ok (parseArgs_post env [] p.next.next).1 hq
      apply cursorFrom_ok
      show p.curr_token + 1 ≤ q.curr_token + 1
      omega
    · apply cursorFrom_ok
      show p.curr_token + 1 ≤ p.curr_token + 1 + 1 + 1
      omega

theorem parsePrimary_progress (env : Externals) (p : ListParser) :
    Progress p (parsePrimary env p) := by
  rw [parsePrimary_eq]
  unfold parsePrimaryBody
  apply cursorFrom_read
  intro t _
  split
  · exact parseIdentifierExpr_progress env p
  · exact parseNumberExpr_progress p
  · exact parseParenExpr_progress env p
  · exact parseIfExpr_progress env p
  · exact parseForExpr_progress env p
  · exact cursorFrom_logError

theorem parseExpression_progress (env : Externals) (p : ListParser) :
    Progress p (parseExpression env p) := by
  rw [parseExpression_eq]
  unfold parseExpressionBody
  apply cursorFrom_andThen
  intro l q hl
  exact cursorFrom_of_post (parseBinOpRHS_post env 0 l q) (parsePrimary_progress env p l q hl)

theorem parsePrototype_progress (p : ListParser) : Progress p (parsePrototype p) := by
  unfold parsePrototype
  apply cursorFrom_read
  intro t _
  split
  · exact cursorFrom_logError
  · apply cursorFrom_read
    intro t₁ _
    split
    · exact cursorFrom_logError
    · apply cursorFrom_andThen
      intro names q hq
      have h1 : p.curr_token + 2 ≤ q.curr_token :=
        le_of_post_ok (parsePrototypeLoopFuel_post _ [] p.next.next (Nat.le_refl _)) hq
      apply cursorFrom_read
      intro t₂ _
      split
      · exact cursorFrom_logError
      · apply cursorFrom_ok
        show p.curr_token + 1 ≤ q.curr_token + 1
        omega

/-- One iteration of the loop of `parseBinOpRHS` that goes on to the next
one: the operator is consumed, the operand after it parses, and the loop goes
on (after the recursive call for a tighter operator, when there is one) with
the cursor strictly after its position at the start of the iteration. -/
theorem parseBinOpRHS_iteration (env : Externals) (c : Int) (lhs rhs : ExprAST)
    (p q : ListParser) (t t₁ : TokenWrapper) (ht : p.peek = some t)
    (hc : ¬ env.getTokenPrecedence t.type < c)
    (hr : parsePrimary env p.next = Outcome.ok rhs q) (h₁ : q.peek = some t₁) :
    p.curr_token < q.curr_token ∧
    (¬ env.getTokenPrecedence t.type < env.getTokenPrecedence t₁.type →
      parseBinOpRHS env c lhs p =
        parseBinOpRHS env c (ExprAST.BinaryExprAST t.type lhs rhs) q) ∧
    (env.getTokenPrecedence t.type < env.getTokenPrecedence t₁.type →
      ∀ rhs₁ q₁,
        parseBinOpRHS env (env.getTokenPrecedence t.type + 1) rhs q = Outcome.ok rhs₁ q₁ →
        p.curr_token < q₁.curr_token ∧
          parseBinOpRHS env c lhs p =
            parseBinOpRHS env c (ExprAST.BinaryExprAST t.type lhs rhs₁) q₁) := by
  have hq : p.curr_token + 1 ≤ q.curr_token := le_of_post_ok (parsePrimary_post env p.next) hr
  have step : parseBinOpRHS env c lhs p =
      if env.getTokenPrecedence t.type < env.getTokenPrecedence t₁.type then
        (parseBinOpRHS env (env.getTokenPrecedence t.type + 1) rhs q).andThen fun r q₂ =>
          parseBinOpRHS env c (ExprAST.BinaryExprAST t.type lhs r) q₂
      else parseBinOpRHS env c (ExprAST.BinaryExprAST t.type lhs rhs) q := by
    rw [parseBinOpRHS_eq]
    unfold parseBinOpRHSBody
    rw [read_of_peek _ ht]
    dsimp only
    rw [if_neg hc, hr]
    simp only [Outcome.andThen]
    rw [read_of_peek _ h₁]
  refine ⟨hq, ?_, ?_⟩
  · intro h
    rw [step, if_neg h]
  · intro h rhs₁ q₁ h₂
    have hq₁ : q.curr_token ≤ q₁.curr_token :=
      le_of_post_ok (parseBinOpRHS_post env _ rhs q) h₂
    refine ⟨Nat.lt_of_lt_of_le hq hq₁, ?_⟩
    rw [step, if_pos h, h₂]
    rfl

/-- One iteration of the argument loop that goes on to the next one: the
argument and the comma after it are consumed. -/
theorem parseArgs_iteration (env : Externals) (acc : List ExprAST) (e : ExprAST)
    (p q : ListParser) (t : TokenWrapper) (he : parseExpression env p = Outcome.ok e q)
    (ht : q.peek = some t) (hc : t.type = Token.tok_comma) :
    p.curr_token < q.next.curr_token ∧
      parseArgs env acc p = parseArgs env (acc ++ [e]) q.next := by
  constructor
  · exact Nat.lt_succ_of_lt (parseExpression_progress env p e q he)
  · rw [parseArgs_eq]
    unfold parseArgsBody
    rw [he]
    simp only [Outcome.andThen]
    rw [read_of_peek _ ht, if_neg (by simp [hc]), if_pos hc]

/-- The loop of `parsePrototype` yields the same with every number of
iterations allowed that is greater than the number of remaining tokens. -/
theorem parsePrototypeLoopFuel_eq :
    ∀ (n m : Nat) (acc : List String) (p : ListParser), remaining p + 1 ≤ n → n ≤ m →
      parsePrototypeLoopFuel n acc p = parsePrototypeLoopFuel m acc p := by
  intro n
  induction n with
  | zero =>
    intro m acc p h
    omega
  | succ n ih =>
    intro m acc p h hm
    cases m with
    | zero => omega
    | succ m =>
      unfold parsePrototypeLoopFuel
      cases hp : p.peek with
      | none =>
        unfold read
        rw [hp]
      | some t =>
        rw [read_of_peek _ hp, read_of_peek _ hp]
        have hlt := peek_lt hp
        split
        · apply ih
          · unfold remaining at *
            simp only [next_tokens, next_curr_token]
            omega
          · omega
        · rfl

/-- C19.  Progress and termination.  Whenever `parsePrimary`,
`parseExpression`, `parsePrototype`, `parseIdentifierExpr`, `parseParenExpr`,
`parseIfExpr` or `parseForExpr` returns a node, the cursor is strictly greater
than before the call.  Every iteration of a loop that goes on to a next
iteration consumes at least one token: in `parseBinOpRHS` the next iteration
starts strictly after the operator the iteration started on, in the argument
list strictly after the start of the argument, in `parsePrototype` one token
further.  And every parse operation terminates on every token vector: its
calls nest to a depth of at most `budget p` (three for each remaining token,
and four), the loop of `parsePrototype` runs for at most one iteration more
than there are remaining tokens, and a larger allowance changes no outcome. -/
theorem progress_and_termination (env : Externals) (p : ListParser) :
    (Progress p (parsePrimary env p) ∧ Progress p (parseExpression env p) ∧
      Progress p (parsePrototype p) ∧ Progress p (parseIdentifierExpr env p) ∧
      Progress p (parseParenExpr env p) ∧ Progress p (parseIfExpr env p) ∧
      Progress p (parseForExpr env p)) ∧
    ((∀ c lhs rhs q t t₁, p.peek = some t → ¬ env.getTokenPrecedence t.type < c →
        parsePrimary env p.next = Outcome.ok rhs q → q.peek = some t₁ →
        p.curr_token < q.curr_token ∧
        (¬ env.getTokenPrecedence t.type < env.getTokenPrecedence t₁.type →
          parseBinOpRHS env c lhs p =
            parseBinOpRHS env c (ExprAST.BinaryExprAST t.type lhs rhs) q) ∧
        (env.getTokenPrecedence t.type < env.getTokenPrecedence t₁.type →
          ∀ rhs₁ q₁,
            parseBinOpRHS env (env.getTokenPrecedence t.type + 1) rhs q =
              Outcome.ok rhs₁ q₁ →
            p.curr_token < q₁.curr_token ∧
              parseBinOpRHS env c lhs p =
                parseBinOpRHS env c (ExprAST.BinaryExprAST t.type lhs rhs₁) q₁)) ∧
      (∀ acc e q t, parseExpression env p = Outcome.ok e q → q.peek = some t →
        t.type = Token.tok_comma →
        p.curr_token < q.next.curr_token ∧
          parseArgs env acc p = parseArgs env (acc ++ [e]) q.next) ∧
      (∀ n acc t, p.peek = some t → t.type = Token.tok_identifier →
        p.next.curr_token = p.curr_token + 1 ∧
          parsePrototypeLoopFuel (n + 1) acc p =
            parsePrototypeLoopFuel n (acc ++ [t.str_content]) p.next)) ∧
    ((parseNumberExpr p ≠ Outcome.outOfFuel ∧
        parsePrototype p ≠ Outcome.outOfFuel ∧
        parseExtern p ≠ Outcome.outOfFuel ∧
        parseDefinition env p ≠ Outcome.outOfFuel ∧
        parseTopLevelExpr env p ≠ Outcome.outOfFuel) ∧
      (parsePrimary env p ≠ Outcome.outOfFuel ∧
        ∀ n, budget p ≤ n → parsePrimaryFuel env n p = parsePrimary env p) ∧
      (parseExpression env p ≠ Outcome.outOfFuel ∧
        ∀ n, budget p ≤ n → parseExpressionFuel env n p = parseExpression env p) ∧
      (parseIdentifierExpr env p ≠ Outcome.outOfFuel ∧
        ∀ n, budget p ≤ n → parseIdentifierExprFuel env n p = parseIdentifierExpr env p) ∧
      (parseParenExpr env p ≠ Outcome.outOfFuel ∧
        ∀ n, budget p ≤ n → parseParenExprFuel env n p = parseParenExpr env p) ∧
      (parseIfExpr env p ≠ Outcome.outOfFuel ∧
        ∀ n, budget p ≤ n → parseIfExprFuel env n p = parseIfExpr env p) ∧
      (parseForExpr env p ≠ Outcome.outOfFuel ∧
        ∀ n, budget p ≤ n → parseForExprFuel env n p = parseForExpr env p) ∧
      (∀ c l, parseBinOpRHS env c l p ≠ Outcome.outOfFuel ∧
        ∀ n, budget p ≤ n → parseBinOpRHSFuel env n c l p = parseBinOpRHS env c l p) ∧
      (∀ acc, parseArgs env acc p ≠ Outcome.outOfFuel ∧
        ∀ n, budget p ≤ n → parseArgsFuel env n acc p = parseArgs env acc p) ∧
      (∀ acc, parsePrototypeLoop acc p ≠ Outcome.outOfFuel ∧
        ∀ n, remaining p + 1 ≤ n →
          parsePrototypeLoopFuel n acc p = parsePrototypeLoop acc p)) := by
  refine ⟨⟨parsePrimary_progress env p, parseExpression_progress env p,
    parsePrototype_progress p, parseIdentifierExpr_progress env p,
    parseParenExpr_progress env p, parseIfExpr_progress env p,
    parseForExpr_progress env p⟩, ⟨?_, ?_, ?_⟩,
    ⟨post_ne_outOfFuel (parseNumberExpr_post p), post_ne_outOfFuel (parsePrototype_post p),
      postS_ne_outOfFuel (parseExtern_post p), postS_ne_outOfFuel (parseDefinition_post env p),
      post_ne_outOfFuel (parseTopLevelExpr_post env p)⟩,
    ⟨post_ne_outOfFuel (parsePrimary_post env p), ?_⟩,
    ⟨post_ne_outOfFuel (parseExpression_post env p), ?_⟩,
    ⟨post_ne_outOfFuel (parseIdentifierExpr_post env p), ?_⟩,
    ⟨postS_ne_outOfFuel (parseParenExpr_post env p), ?_⟩,
    ⟨postS_ne_outOfFuel (parseIfExpr_post env p), ?_⟩,
    ⟨postS_ne_outOfFuel (parseForExpr_post env p), ?_⟩,
    fun c l => ⟨post_ne_outOfFuel (parseBinOpRHS_post env c l p), ?_⟩,
    fun acc => ⟨post_ne_outOfFuel (parseArgs_post env acc p).1, ?_⟩,
    fun acc => ⟨post_ne_outOfFuel
      (parsePrototypeLoopFuel_post _ acc p (Nat.le_refl _)), ?_⟩⟩
  · intro c lhs rhs q t t₁ ht hc hr h₁
    exact parseBinOpRHS_iteration env c lhs rhs p q t t₁ ht hc hr h₁
  · intro acc e q t he ht hc
    exact parseArgs_iteration env acc e p q t he ht hc
  · intro n acc t ht hty
    refine ⟨rfl, ?_⟩
    rw [parsePrototypeLoopFuel, read_of_peek _ ht, if_pos hty]
  · intro n hn
    exact (parsePrimaryFuel_eq env (by unfold budget at hn; omega)).1
  · intro n hn
    exact (parseExpressionFuel_eq env (by unfold budget at hn; omega)).1
  · intro n hn
    exact (parseIdentifierExprFuel_eq env (by unfold budget at hn; omega)).1
  · intro n hn
    exact (parseParenExprFuel_eq env (by unfold budget at hn; omega)
      (by unfold budget at hn; omega)).1
  · intro n hn
    exact (parseIfExprFuel_eq env (by unfold budget at hn; omega)
      (by unfold budget at hn; omega)).1
  · intro n hn
    exact (parseForExprFuel_eq env (by unfold budget at hn; omega)
      (by unfold budget at hn; omega)).1
  · intro n hn
    exact (parseBinOpRHSFuel_eq env c l (by unfold budget at hn; omega)).1
  · intro n hn
    exact (parseArgsFuel_eq env acc (by unfold budget at hn; omega)).1
  · intro n hn
    exact (parsePrototypeLoopFuel_eq (remaining p + 1) n acc p (Nat.le_refl _) hn).symm

/-- C19 at `a + b * c`: `parseExpression` returns a node, and the cursor has
moved forward. -/
theorem progress_and_termination_witness :
    ∃ a q, parseExpression Example.env ⟨Example.sumProduct, 0⟩ = Outcome.ok a q ∧
      0 < q.curr_token :=
  ⟨_, _, rfl, (progress_and_termination Example.env ⟨Example.sumProduct, 0⟩).1.2.1 _ _ rfl⟩

/-! ## C18: the order of operands and operators -/

theorem inorder_operandNode (t : TokenWrapper) :
    inorder (operandNode t) = [Item.operand (operandNode t)] := by
  unfold operandNode
  split
  · rfl
  · rfl

theorem itemsOf_append (a b : List (TokenWrapper × TokenWrapper)) :
    itemsOf (a ++ b) = itemsOf a ++ itemsOf b := by
  induction a with
  | nil => rfl
  | cons x a ih =>
    obtain ⟨op, t⟩ := x
    show Item.operator op.type :: Item.operand (operandNode t) :: itemsOf (a ++ b) = _
    rw [ih]
    rfl

theorem chainAt_head {env : Externals} {toks : List TokenWrapper} {stop : TokenWrapper}
    {i : Nat} {rest : List (TokenWrapper × TokenWrapper)}
    (h : ChainAt env toks stop i rest) : toks[i]? = some (nextToken rest stop) := by
  cases rest with
  | nil => exact h
  | cons x rest =>
    obtain ⟨op, t⟩ := x
    exact h.1

theorem chainAt_split {env : Externals} {toks : List TokenWrapper} {stop : TokenWrapper}
    (remaining : List (TokenWrapper × TokenWrapper)) :
    ∀ (consumed : List (TokenWrapper × TokenWrapper)) (i : Nat),
      ChainAt env toks stop i (consumed ++ remaining) →
      ChainAt env toks stop (i + 2 * consumed.length) remaining := by
  intro consumed
  induction consumed with
  | nil =>
    intro i h
    exact h
  | cons x consumed ih =>
    intro i h
    obtain ⟨op, t⟩ := x
    have h2 := ih (i + 2) h.2.2.2.2
    have e : i + 2 * ((op, t) :: consumed).length = i + 2 + 2 * consumed.length := by
      simp only [List.length_cons]
      omega
    rw [e]
    exact h2

theorem chainAt_of_operatorsAndOperands {env : Externals} {stop : TokenWrapper}
    (post : List TokenWrapper) :
    ∀ (rest : List (TokenWrapper × TokenWrapper)) (front : List TokenWrapper),
      OperatorsAndOperands env rest stop →
      ChainAt env (front ++ (tokensOf rest ++ stop :: post)) stop front.length rest := by
  intro rest
  induction rest with
  | nil =>
    intro front _
    exact (getElem?_append_offset front ([] ++ stop :: post) 0).trans (by simp)
  | cons x rest ih =>
    intro front h
    obtain ⟨op, t⟩ := x
    have h2 := ih (front ++ [op, t]) h.2.2
    have e1 : (front ++ [op, t]) ++ (tokensOf rest ++ stop :: post) =
        front ++ (tokensOf ((op, t) :: rest) ++ stop :: post) := by
      simp [tokensOf]
    have e2 : (front ++ [op, t]).length = front.length + 2 := by simp
    rw [e1, e2] at h2
    refine ⟨?_, ?_, h.1, h.2.1, h2⟩
    · exact (getElem?_append_offset front _ 0).trans (by simp [tokensOf])
    · exact (getElem?_append_offset front _ 1).trans (by simp [tokensOf])

/-- The loop of `parseBinOpRHS`, run on operators and number or variable
tokens: it consumes a first part of them, the traversal of the tree it returns
is the traversal of the left operand followed by what it consumed, and it
stops at a token of lower precedence. -/
theorem parseBinOpRHS_chain (env : Externals) (toks : List TokenWrapper)
    (stop : TokenWrapper) (hstop : ¬ HasPrecedence env stop.type) :
    ∀ (n : Nat) (rest : List (TokenWrapper × TokenWrapper)), rest.length ≤ n →
      ∀ (i : Nat) (c : Int) (lhs : ExprAST), 0 ≤ c → ChainAt env toks stop i rest →
        ∃ consumed remaining tree, rest = consumed ++ remaining ∧
          parseBinOpRHS env c lhs ⟨toks, i⟩ =
            Outcome.ok tree ⟨toks, i + 2 * consumed.length⟩ ∧
          inorder tree = inorder lhs ++ itemsOf consumed ∧
          env.getTokenPrecedence (nextToken remaining stop).type < c := by
  unfold HasPrecedence at hstop
  have base : ∀ (i : Nat) (c : Int) (lhs : ExprAST), 0 ≤ c → ChainAt env toks stop i [] →
      ∃ consumed remaining tree, [] = consumed ++ remaining ∧
        parseBinOpRHS env c lhs ⟨toks, i⟩ =
          Outcome.ok tree ⟨toks, i + 2 * consumed.length⟩ ∧
        inorder tree = inorder lhs ++ itemsOf consumed ∧
        env.getTokenPrecedence (nextToken remaining stop).type < c := by
    intro i c lhs hc hch
    have hlt : env.getTokenPrecedence stop.type < c := by omega
    exact ⟨[], [], lhs, rfl, parseBinOpRHS_stop env lhs (p := ⟨toks, i⟩) hch hlt,
      by simp [itemsOf], hlt⟩
  intro n
  induction n with
  | zero =>
    intro rest hlen i c lhs hc hch
    have e : rest = [] := List.length_eq_zero.mp (Nat.le_zero.mp hlen)
    subst e
    exact base i c lhs hc hch
  | succ n ih =>
    intro rest hlen i c lhs hc hch
    cases rest with
    | nil => exact base i c lhs hc hch
    | cons a rest =>
      obtain ⟨op, x⟩ := a
      obtain ⟨hop, hx, hprec, hopnd, hrest⟩ := hch
      unfold HasPrecedence at hprec
      have hlen2 : rest.length ≤ n := by
        simp only [List.length_cons] at hlen
        omega
      by_cases hlt : env.getTokenPrecedence op.type < c
      · exact ⟨[], (op, x) :: rest, lhs, rfl,
          parseBinOpRHS_stop env lhs (p := ⟨toks, i⟩) hop hlt, by simp [itemsOf], hlt⟩
      · have hhead := chainAt_head hrest
        have step := parseBinOpRHS_operand env lhs (p := ⟨toks, i⟩) (c := c) hop (by omega)
          hx hhead hopnd
        by_cases hn : env.getTokenPrecedence op.type <
            env.getTokenPrecedence (nextToken rest stop).type
        · rw [if_pos hn] at step
          obtain ⟨c₁, r₁, tree₁, e₁, run₁, in₁, _⟩ :=
            ih rest hlen2 (i + 2) (env.getTokenPrecedence op.type + 1) (operandNode x)
              (by omega) hrest
          subst e₁
          have hch₂ := chainAt_split r₁ c₁ (i + 2) hrest
          have hlen3 : r₁.length ≤ n := by
            simp only [List.length_append] at hlen2
            omega
          obtain ⟨c₂, r₂, tree, e₂, run₂, in₂, lt₂⟩ :=
            ih r₁ hlen3 (i + 2 + 2 * c₁.length) c
              (ExprAST.BinaryExprAST op.type lhs tree₁) hc hch₂
          subst e₂
          refine ⟨(op, x) :: (c₁ ++ c₂), r₂, tree, by simp, ?_, ?_, lt₂⟩
          · have e : i + 2 * ((op, x) :: (c₁ ++ c₂)).length =
                i + 2 + 2 * c₁.length + 2 * c₂.length := by
              simp only [List.length_cons, List.length_append]
              omega
            rw [step, e, ← run₂]
            change (parseBinOpRHS env (env.getTokenPrecedence op.type + 1) (operandNode x)
              ⟨toks, i + 2⟩).andThen _ = _
            rw [run₁]
            rfl
          · rw [in₂]
            simp only [inorder, in₁, inorder_operandNode, itemsOf, itemsOf_append,
              List.append_assoc, List.cons_append, List.nil_append, List.singleton_append]
        · rw [if_neg hn] at step
          obtain ⟨c₁, r₁, tree, e₁, run₁, in₁, lt₁⟩ :=
            ih rest hlen2 (i + 2) c
              (ExprAST.BinaryExprAST op.type lhs (operandNode x)) hc hrest
          subst e₁
          refine ⟨(op, x) :: c₁, r₁, tree, rfl, ?_, ?_, lt₁⟩
          · have e : i + 2 * ((op, x) :: c₁).length = i + 2 + 2 * c₁.length := by
              simp only [List.length_cons]
              omega
            rw [step, e, ← run₁]
            rfl
          · rw [in₁]
            simp only [inorder, inorder_operandNode, itemsOf,
              List.append_assoc, List.cons_append, List.nil_append, List.singleton_append]

/-- C18.  Operand and operator order is preserved.  For every precedence
lookup and every token vector in which the cursor is on
`first OP1 p2 OP2 ... pk stop` (`rest` holds the pairs `OPi`, `pi+1`, and may
be empty), where `first` and each `pi` is a number or variable token, each
`OPi` has a precedence and `stop` has none: `parseExpression` returns a tree,
leaves the cursor on `stop`, and the in-order traversal of the tree (left
operand, operator, right operand) is the node of `first` followed by, for each
pair in order, the kind of the operator token and the node of the operand
token. -/
theorem parseExpression_preserves_order (env : Externals)
    (pre post : List TokenWrapper) (first stop : TokenWrapper)
    (rest : List (TokenWrapper × TokenWrapper))
    (hfirst : IsOperand first (nextToken rest stop))
    (hrest : OperatorsAndOperands env rest stop)
    (hstop : ¬ HasPrecedence env stop.type) :
    ∃ tree,
      parseExpression env ⟨pre ++ first :: (tokensOf rest ++ stop :: post), pre.length⟩ =
        Outcome.ok tree
          ⟨pre ++ first :: (tokensOf rest ++ stop :: post),
            pre.length + 1 + 2 * rest.length⟩ ∧
      (pre ++ first :: (tokensOf rest ++ stop :: post))[pre.length + 1 + 2 * rest.length]? =
        some stop ∧
      inorder tree = Item.operand (operandNode first) :: itemsOf rest := by
  have hch := chainAt_of_operatorsAndOperands post rest (pre ++ [first]) hrest
  have e1 : (pre ++ [first]) ++ (tokensOf rest ++ stop :: post) =
      pre ++ first :: (tokensOf rest ++ stop :: post) := by simp
  have e2 : (pre ++ [first]).length = pre.length + 1 := by simp
  rw [e1, e2] at hch
  have hk0 : (pre ++ first :: (tokensOf rest ++ stop :: post))[pre.length]? = some first :=
    (getElem?_append_offset pre _ 0).trans (by simp)
  generalize pre ++ first :: (tokensOf rest ++ stop :: post) = toks at hch hk0 ⊢
  obtain ⟨consumed, remaining, tree, e, run, ino, lt⟩ :=
    parseBinOpRHS_chain env toks stop hstop rest.length rest (Nat.le_refl _)
      (pre.length + 1) 0 (operandNode first) (Int.le_refl _) hch
  subst e
  have hend := chainAt_split remaining consumed (pre.length + 1) hch
  cases remaining with
  | cons a remaining =>
    obtain ⟨op, x⟩ := a
    have hp : 0 ≤ env.getTokenPrecedence op.type := hend.2.2.1
    have lt2 : env.getTokenPrecedence op.type < 0 := lt
    omega
  | nil =>
    rw [List.append_nil] at hch hfirst ⊢
    refine ⟨tree, ?_, hend, ?_⟩
    · rw [parseExpression_eq]
      unfold parseExpressionBody
      rw [parsePrimary_operand env (p := ⟨toks, pre.length⟩) hk0 (chainAt_head hch) hfirst]
      exact run
    · rw [ino, inorder_operandNode]
      rfl

/-- C18 at `1 - 2 - 3 * 4 + 5` with the example table: the tree is
`((1 - 2) - (3 * 4)) + 5`, and its traversal gives the tokens back in their
order. -/
theorem parseExpression_preserves_order_witness :
    ∃ tree,
      parseExpression Example.env ⟨Example.fiveOperands, 0⟩ =
        Outcome.ok tree ⟨Example.fiveOperands, 9⟩ ∧
      Example.fiveOperands[9]? = some (Example.tk Token.tok_eof) ∧
      inorder tree =
        [Item.operand (ExprAST.NumberExprAST 1), Item.operator (Token.tok_op 2),
          Item.operand (ExprAST.NumberExprAST 2), Item.operator (Token.tok_op 2),
          Item.operand (ExprAST.NumberExprAST 3), Item.operator (Token.tok_op 3),
          Item.operand (ExprAST.NumberExprAST 4), Item.operator (Token.tok_op 1),
          Item.operand (ExprAST.NumberExprAST 5)] :=
  parseExpression_preserves_order Example.env [] [] (Example.num 1)
    (Example.tk Token.tok_eof)
    [(Example.tk (Token.tok_op 2), Example.num 2), (Example.tk (Token.tok_op 2), Example.num 3),
      (Example.tk (Token.tok_op 3), Example.num 4), (Example.tk (Token.tok_op 1), Example.num 5)]
    (Or.inl rfl)
    ⟨by unfold HasPrecedence; decide, Or.inl rfl, by unfold HasPrecedence; decide, Or.inl rfl,
      by unfold HasPrecedence; decide, Or.inl rfl, by unfold HasPrecedence; decide, Or.inl rfl,
      trivial⟩
    (by unfold HasPrecedence; decide)

/-! ## C20: reads within the bounds of the token vector -/

theorem safeOut_inBounds {α : Type} {P : ListParser → Prop} {r : Outcome α}
    (h : SafeOut P r) : InBounds r := by
  intro i e
  rw [e] at h
  exact h

theorem safeOut_mono {α : Type} {P Q : ListParser → Prop} {r : Outcome α}
    (h : SafeOut P r) (hpq : ∀ q, P q → Q q) : SafeOut Q r := by
  cases r with
  | ok a q => exact hpq q h
  | absent msg q => trivial
  | undefined u =>
    cases u with
    | outOfBounds i => exact h
    | noReturn => trivial
  | outOfFuel => trivial

theorem safeOut_read {β : Type} {toks : List TokenWrapper} {P : ListParser → Prop}
    {p : ListParser} {k : TokenWrapper → Outcome β} (hp : OnToken toks p)
    (hk : ∀ t, p.peek = some t → SafeOut P (k t)) : SafeOut P (p.read k) := by
  cases h : p.peek with
  | none =>
    have hlt : p.curr_token < p.tokens.length := by
      rw [hp.1]
      exact hp.2
    unfold peek at h
    rw [List.getElem?_eq_none_iff] at h
    omega
  | some t =>
    rw [read_of_peek _ h]
    exact hk t h

theorem safeOut_andThen {α β : Type} {P Q : ListParser → Prop} {r : Outcome α}
    {k : α → ListParser → Outcome β} (hr : SafeOut P r)
    (hk : ∀ a q, r = Outcome.ok a q → P q → SafeOut Q (k a q)) :
    SafeOut Q (r.andThen k) := by
  cases r with
  | ok a q => exact hk a q rfl hr
  | absent msg q => trivial
  | undefined u =>
    cases u with
    | outOfBounds i => exact hr
    | noReturn => trivial
  | outOfFuel => trivial

/-- The cursor can move over a token that is not an end-of-stream token: the
last token is one, so there is a token after it. -/
theorem onToken_next {env : Externals} {toks : List TokenWrapper} {p : ListParser}
    {t : TokenWrapper} (hend : EndsWithEndKind env toks) (hp : OnToken toks p)
    (ht : p.peek = some t) (hne : ¬ IsEndKind env t.type) : OnToken toks p.next := by
  obtain ⟨e, he, hk⟩ := hend
  refine ⟨hp.1, ?_⟩
  show p.curr_token + 1 < toks.length
  by_contra hge
  have hcur : p.curr_token = toks.length - 1 := by
    have := hp.2
    omega
  have h2 : toks[toks.length - 1]? = some t := by
    rw [← hcur, ← hp.1]
    exact ht
  rw [List.getLast?_eq_getElem?, h2] at he
  cases he
  exact hne hk

theorem precedenceKind_notEnd {env : Externals} {ty : Token}
    (h : 0 ≤ env.getTokenPrecedence ty) : ¬ IsEndKind env ty := fun e => e.1 h

theorem identifierKind_notEnd {env : Externals} {ty : Token}
    (h : ty = Token.tok_identifier) : ¬ IsEndKind env ty := fun e => e.2.1 h

theorem numberKind_notEnd {env : Externals} {ty : Token}
    (h : ty = Token.tok_number) : ¬ IsEndKind env ty := fun e => e.2.2.1 h

theorem lparenKind_notEnd {env : Externals} {ty : Token}
    (h : ty = Token.tok_lparen) : ¬ IsEndKind env ty := fun e => e.2.2.2.1 h

theorem rparenKind_notEnd {env : Externals} {ty : Token}
    (h : ty = Token.tok_rparen) : ¬ IsEndKind env ty := fun e => e.2.2.2.2.1 h

theorem commaKind_notEnd {env : Externals} {ty : Token}
    (h : ty = Token.tok_comma) : ¬ IsEndKind env ty := fun e => e.2.2.2.2.2.1 h

theorem equalKind_notEnd {env : Externals} {ty : Token}
    (h : ty = Token.tok_equal) : ¬ IsEndKind env ty := fun e => e.2.2.2.2.2.2.1 h

theorem ifKind_notEnd {env : Externals} {ty : Token}
    (h : ty = Token.tok_if) : ¬ IsEndKind env ty := fun e => e.2.2.2.2.2.2.2.1 h

theorem forKind_notEnd {env : Externals} {ty : Token}
    (h : ty = Token.tok_for) : ¬ IsEndKind env ty :=
  fun e => e.2.2.2.2.2.2.2.2.2.2.1 h

theorem inKind_notEnd {env : Externals} {ty : Token}
    (h : ty = Token.tok_in) : ¬ IsEndKind env ty :=
  fun e => e.2.2.2.2.2.2.2.2.2.2.2.1 h

theorem defKind_notEnd {env : Externals} {ty : Token}
    (h : ty = Token.tok_def) : ¬ IsEndKind env ty :=
  fun e => e.2.2.2.2.2.2.2.2.2.2.2.2.1 h

theorem externKind_notEnd {env : Externals} {ty : Token}
    (h : ty = Token.tok_extern) : ¬ IsEndKind env ty :=
  fun e => e.2.2.2.2.2.2.2.2.2.2.2.2.2 h

theorem parseNumberExpr_safe {env : Externals} {toks : List TokenWrapper}
    (hend : EndsWithEndKind env toks) {p : ListParser} {t : TokenWrapper}
    (hp : OnToken toks p) (ht : p.peek = some t) (hty : t.type = Token.tok_number) :
    SafeOut (OnToken toks) (parseNumberExpr p) := by
  unfold parseNumberExpr
  rw [read_of_peek _ ht]
  exact onToken_next hend hp ht (numberKind_notEnd hty)

theorem parseParenExprBody_safe {env : Externals} {toks : List TokenWrapper}
    (hend : EndsWithEndKind env toks) {f : ListParser → Outcome ExprAST}
    (hf : ∀ q, OnToken toks q → SafeOut (OnToken toks) (f q))
    {p : ListParser} {t : TokenWrapper}
    (hp : OnToken toks p) (ht : p.peek = some t) (hty : t.type = Token.tok_lparen) :
    SafeOut (OnToken toks) (parseParenExprBody f p) := by
  unfold parseParenExprBody
  have h1 := onToken_next hend hp ht (lparenKind_notEnd hty)
  apply safeOut_andThen (hf _ h1)
  intro V q _ hq
  apply safeOut_read hq
  intro t₁ ht₁
  split
  · trivial
  · rename_i h
    exact onToken_next hend hq ht₁ (rparenKind_notEnd (not_not.mp h))

theorem parseArgsBody_safe {env : Externals} {toks : List TokenWrapper}
    (hend : EndsWithEndKind env toks) {f : ListParser → Outcome ExprAST}
    {g : List ExprAST → ListParser → Outcome (List ExprAST)}
    (hf : ∀ q, OnToken toks q → SafeOut (OnToken toks) (f q))
    (hg : ∀ a q, OnToken toks q → SafeOut (OnRparen toks) (g a q))
    (acc : List ExprAST) {p : ListParser} (hp : OnToken toks p) :
    SafeOut (OnRparen toks) (parseArgsBody f g acc p) := by
  unfold parseArgsBody
  apply safeOut_andThen (hf _ hp)
  intro a q _ hq
  apply safeOut_read hq
  intro t ht
  split
  · rename_i h
    exact ⟨hq, t, ht, h⟩
  · split
    · rename_i hc
      exact hg _ _ (onToken_next hend hq ht (commaKind_notEnd hc))
    · trivial

theorem parseIdentifierExprBody_safe {env : Externals} {toks : List TokenWrapper}
    (hend : EndsWithEndKind env toks)
    {g : List ExprAST → ListParser → Outcome (List ExprAST)}
    (hg : ∀ a q, OnToken toks q → SafeOut (OnRparen toks) (g a q))
    {p : ListParser} {t : TokenWrapper}
    (hp : OnToken toks p) (ht : p.peek = some t) (hty : t.type = Token.tok_identifier) :
    SafeOut (OnToken toks) (parseIdentifierExprBody g p) := by
  unfold parseIdentifierExprBody
  rw [read_of_peek _ ht]
  have h1 := onToken_next hend hp ht (identifierKind_notEnd hty)
  apply safeOut_read h1
  intro t₁ ht₁
  split
  · exact h1
  · rename_i h
    have h2 := onToken_next hend h1 ht₁ (lparenKind_notEnd (not_not.mp h))
    apply safeOut_read h2
    intro t₂ ht₂
    split
    · apply safeOut_andThen (hg [] _ h2)
      intro args q _ hq
      obtain ⟨hq1, t₃, ht₃, hty₃⟩ := hq
      exact onToken_next hend hq1 ht₃ (rparenKind_notEnd hty₃)
    · rename_i h₂
      exact onToken_next hend h2 ht₂ (rparenKind_notEnd (not_not.mp h₂))

theorem parsePrimaryBody_safe {env : Externals} {toks : List TokenWrapper}
    (hend : EndsWithEndKind env toks)
    {fid fparen fif ffor : ListParser → Outcome ExprAST}
    (hid : ∀ q t, OnToken toks q → q.peek = some t → t.type = Token.tok_identifier →
      SafeOut (OnToken toks) (fid q))
    (hparen : ∀ q t, OnToken toks q → q.peek = some t → t.type = Token.tok_lparen →
      SafeOut (OnToken toks) (fparen q))
    (hif : ∀ q t, OnToken toks q → q.peek = some t → t.type = Token.tok_if →
      SafeOut (OnToken toks) (fif q))
    (hfor : ∀ q t, OnToken toks q → q.peek = some t → t.type = Token.tok_for →
      SafeOut (OnToken toks) (ffor q))
    {p : ListParser} (hp : OnToken toks p) :
    SafeOut (OnToken toks) (parsePrimaryBody env fid fparen fif ffor p) := by
  unfold parsePrimaryBody
  apply safeOut_read hp
  intro t ht
  split
  · rename_i h
    exact hid p t hp ht h
  · rename_i h
    exact parseNumberExpr_safe hend hp ht h
  · rename_i h
    exact hparen p t hp ht h
  · rename_i h
    exact hif p t hp ht h
  · rename_i h
    exact hfor p t hp ht h
  · trivial

theorem parseBinOpRHSBody_safe {env : Externals} {toks : List TokenWrapper}
    (hend : EndsWithEndKind env toks) {f : ListParser → Outcome ExprAST}
    {g : Int → ExprAST → ListParser → Outcome ExprAST}
    (hf : ∀ q, OnToken toks q → SafeOut (OnToken toks) (f q))
    (hg : ∀ c l q, 0 ≤ c → OnToken toks q → SafeOut (OnToken toks) (g c l q))
    (c : Int) (hc : 0 ≤ c) (lhs : ExprAST) {p : ListParser} (hp : OnToken toks p) :
    SafeOut (OnToken toks) (parseBinOpRHSBody env f g c lhs p) := by
  unfold parseBinOpRHSBody
  apply safeOut_read hp
  intro t ht
  dsimp only
  split
  · exact hp
  · rename_i h
    have hprec : 0 ≤ env.getTokenPrecedence t.type := by omega
    have h1 := onToken_next hend hp ht (precedenceKind_notEnd hprec)
    apply safeOut_andThen (hf _ h1)
    intro rhs q _ hq
    apply safeOut_read hq
    intro t₁ ht₁
    dsimp only
    split
    · apply safeOut_andThen (hg _ _ _ (by omega) hq)
      intro rhs₁ q₁ _ hq₁
      exact hg _ _ _ hc hq₁
    · exact hg _ _ _ hc hq

theorem parseExpressionBody_safe {toks : List TokenWrapper}
    {f : ListParser → Outcome ExprAST}
    {g : Int → ExprAST → ListParser → Outcome ExprAST}
    (hf : ∀ q, OnToken toks q → SafeOut (OnToken toks) (f q))
    (hg : ∀ c l q, 0 ≤ c → OnToken toks q → SafeOut (OnToken toks) (g c l q))
    {p : ListParser} (hp : OnToken toks p) :
    SafeOut (OnToken toks) (parseExpressionBody f g p) := by
  unfold parseExpressionBody
  apply safeOut_andThen (hf _ hp)
  intro l q _ hq
  exact hg 0 l q (Int.le_refl _) hq

theorem parseIfExprBody_safe {env : Externals} {toks : List TokenWrapper}
    (hend : EndsWithEndKind env toks) (hv : env.tokenValue Token.tok_then ≠ 0)
    {f : ListParser → Outcome ExprAST}
    (hf : ∀ q, OnToken toks q → SafeOut (OnToken toks) (f q))
    {p : ListParser} {t : TokenWrapper}
    (hp : OnToken toks p) (ht : p.peek = some t) (hty : t.type = Token.tok_if) :
    SafeOut (OnToken toks) (parseIfExprBody env f p) := by
  unfold parseIfExprBody
  have h1 := onToken_next hend hp ht (ifKind_notEnd hty)
  apply safeOut_andThen (hf _ h1)
  intro C q _ hq
  apply safeOut_read hq
  intro t₁ _
  split
  · trivial
  · rename_i h
    exact absurd hv h

theorem parseForExprIn_safe {env : Externals} {toks : List TokenWrapper}
    (hend : EndsWithEndKind env toks) {f : ListParser → Outcome ExprAST}
    (hf : ∀ q, OnToken toks q → SafeOut (OnToken toks) (f q))
    (identifier : String) (S E : ExprAST) (step : Option ExprAST)
    {q : ListParser} (hq : OnToken toks q) :
    SafeOut (OnToken toks) (parseForExprIn f identifier S E step q) := by
  unfold parseForExprIn
  apply safeOut_read hq
  intro t ht
  split
  · trivial
  · rename_i h
    apply safeOut_andThen (hf _ (onToken_next hend hq ht (inKind_notEnd (not_not.mp h))))
    intro B q₁ _ hq₁
    exact hq₁

theorem parseForExprBody_safe {env : Externals} {toks : List TokenWrapper}
    (hend : EndsWithEndKind env toks) {f : ListParser → Outcome ExprAST}
    (hf : ∀ q, OnToken toks q → SafeOut (OnToken toks) (f q))
    {p : ListParser} {t : TokenWrapper}
    (hp : OnToken toks p) (ht : p.peek = some t) (hty : t.type = Token.tok_for) :
    SafeOut (OnToken toks) (parseForExprBody f p) := by
  unfold parseForExprBody
  have h1 := onToken_next hend hp ht (forKind_notEnd hty)
  apply safeOut_read h1
  intro t₁ ht₁
  split
  · trivial
  · rename_i hid
    have h2 := onToken_next hend h1 ht₁ (identifierKind_notEnd (not_not.mp hid))
    apply safeOut_read h2
    intro t₂ ht₂
    split
    · trivial
    · rename_i heq
      have h3 := onToken_next hend h2 ht₂ (equalKind_notEnd (not_not.mp heq))
      apply safeOut_andThen (hf _ h3)
      intro S q₁ _ hq₁
      apply safeOut_read hq₁
      intro t₃ ht₃
      split
      · trivial
      · rename_i hc
        have h4 := onToken_next hend hq₁ ht₃ (commaKind_notEnd (not_not.mp hc))
        apply safeOut_andThen (hf _ h4)
        intro E q₂ _ hq₂
        apply safeOut_read hq₂
        intro t₄ ht₄
        split
        · rename_i hc₂
          have h5 := onToken_next hend hq₂ ht₄ (commaKind_notEnd hc₂)
          apply safeOut_andThen (hf _ h5)
          intro P q₃ _ hq₃
          exact parseForExprIn_safe hend hf _ S E (some P) hq₃
        · exact parseForExprIn_safe hend hf _ S E none hq₂

theorem parsePrototypeLoopFuel_safe {env : Externals} {toks : List TokenWrapper}
    (hend : EndsWithEndKind env toks) :
    ∀ (n : Nat) (acc : List String) (p : ListParser), OnToken toks p →
      SafeOut (OnToken toks) (parsePrototypeLoopFuel n acc p) := by
  intro n
  induction n with
  | zero =>
    intro acc p _
    trivial
  | succ n ih =>
    intro acc p hp
    unfold parsePrototypeLoopFuel
    apply safeOut_read hp
    intro t ht
    split
    · rename_i h
      exact ih _ _ (onToken_next hend hp ht (identifierKind_notEnd h))
    · exact hp

theorem parsePrototype_safe {env : Externals} {toks : List TokenWrapper}
    (hend : EndsWithEndKind env toks) {p : ListParser} (hp : OnToken toks p) :
    SafeOut (OnToken toks) (parsePrototype p) := by
  unfold parsePrototype
  apply safeOut_read hp
  intro t ht
  split
  · trivial
  · rename_i hid
    have h1 := onToken_next hend hp ht (identifierKind_notEnd (not_not.mp hid))
    apply safeOut_read h1
    intro t₁ ht₁
    split
    · trivial
    · rename_i hl
      have h2 := onToken_next hend h1 ht₁ (lparenKind_notEnd (not_not.mp hl))
      apply safeOut_andThen (parsePrototypeLoopFuel_safe hend _ [] _ h2)
      intro names q _ hq
      apply safeOut_read hq
      intro t₂ ht₂
      split
      · trivial
      · rename_i hr
        exact onToken_next hend hq ht₂ (rparenKind_notEnd (not_not.mp hr))

/-- No call of a method, at any call depth allowed, reads past the end of a
vector that ends with an end-of-stream token, when the method is started on
the token it is called on and `tok_then` is a non-zero enumerator. -/
theorem fuel_safe {env : Externals} {toks : List TokenWrapper}
    (hend : EndsWithEndKind env toks) (hv : env.tokenValue Token.tok_then ≠ 0) (n : Nat) :
    (∀ p, OnToken toks p → SafeOut (OnToken toks) (parsePrimaryFuel env n p)) ∧
    (∀ p t, OnToken toks p → p.peek = some t → t.type = Token.tok_identifier →
      SafeOut (OnToken toks) (parseIdentifierExprFuel env n p)) ∧
    (∀ a p, OnToken toks p → SafeOut (OnRparen toks) (parseArgsFuel env n a p)) ∧
    (∀ p t, OnToken toks p → p.peek = some t → t.type = Token.tok_lparen →
      SafeOut (OnToken toks) (parseParenExprFuel env n p)) ∧
    (∀ p t, OnToken toks p → p.peek = some t → t.type = Token.tok_if →
      SafeOut (OnToken toks) (parseIfExprFuel env n p)) ∧
    (∀ p t, OnToken toks p → p.peek = some t → t.type = Token.tok_for →
      SafeOut (OnToken toks) (parseForExprFuel env n p)) ∧
    (∀ c l p, 0 ≤ c → OnToken toks p →
      SafeOut (OnToken toks) (parseBinOpRHSFuel env n c l p)) ∧
    (∀ p, OnToken toks p → SafeOut (OnToken toks) (parseExpressionFuel env n p)) := by
  induction n with
  | zero =>
    refine ⟨?_, ?_, ?_, ?_, ?_, ?_, ?_, ?_⟩
    · intro p _
      trivial
    · intro p t _ _ _
      trivial
    · intro a p _
      trivial
    · intro p t _ _ _
      trivial
    · intro p t _ _ _
      trivial
    · intro p t _ _ _
      trivial
    · intro c l p _ _
      trivial
    · intro p _
      trivial
  | succ n ih =>
    obtain ⟨iPrimary, iId, iArgs, iParen, iIf, iFor, iBin, iExpr⟩ := ih
    refine ⟨?_, ?_, ?_, ?_, ?_, ?_, ?_, ?_⟩
    · intro p hp
      simp only [parsePrimaryFuel]
      exact parsePrimaryBody_safe hend iId iParen iIf iFor hp
    · intro p t hp ht hty
      simp only [parseIdentifierExprFuel]
      exact parseIdentifierExprBody_safe hend iArgs hp ht hty
    · intro a p hp
      simp only [parseArgsFuel]
      exact parseArgsBody_safe hend iExpr iArgs a hp
    · intro p t hp ht hty
      simp only [parseParenExprFuel]
      exact parseParenExprBody_safe hend iExpr hp ht hty
    · intro p t hp ht hty
      simp only [parseIfExprFuel]
      exact parseIfExprBody_safe hend hv iExpr hp ht hty
    · intro p t hp ht hty
      simp only [parseForExprFuel]
      exact parseForExprBody_safe hend iExpr hp ht hty
    · intro c l p hc hp
      simp only [parseBinOpRHSFuel]
      exact parseBinOpRHSBody_safe hend iPrimary iBin c hc l hp
    · intro p hp
      simp only [parseExpressionFuel]
      exact parseExpressionBody_safe iPrimary iBin hp

theorem parseExpression_safe {env : Externals} {toks : List TokenWrapper}
    (hend : EndsWithEndKind env toks) (hv : env.tokenValue Token.tok_then ≠ 0)
    (p : ListParser) (hp : OnToken toks p) :
    SafeOut (OnToken toks) (parseExpression env p) :=
  (fuel_safe hend hv (budget p)).2.2.2.2.2.2.2 p hp

theorem parseTopLevelExpr_safe {env : Externals} {toks : List TokenWrapper}
    (hend : EndsWithEndKind env toks) (hv : env.tokenValue Token.tok_then ≠ 0)
    {p : ListParser} (hp : OnToken toks p) :
    SafeOut (OnToken toks) (parseTopLevelExpr env p) := by
  have h := parseExpression_safe hend hv p hp
  unfold parseTopLevelExpr
  cases he : parseExpression env p with
  | ok a r =>
    rw [he] at h
    exact h
  | absent msg r => trivial
  | undefined u =>
    rw [he] at h
    cases u with
    | outOfBounds i => exact h
    | noReturn => trivial
  | outOfFuel => trivial

theorem parseDefinition_safe {env : Externals} {toks : List TokenWrapper}
    (hend : EndsWithEndKind env toks) (hv : env.tokenValue Token.tok_then ≠ 0)
    {p : ListParser} {t : TokenWrapper}
    (hp : OnToken toks p) (ht : p.peek = some t) (hty : t.type = Token.tok_def) :
    SafeOut (OnToken toks) (parseDefinition env p) := by
  unfold parseDefinition
  have h1 := onToken_next hend hp ht (defKind_notEnd hty)
  apply safeOut_andThen (parsePrototype_safe hend h1)
  intro proto q _ hq
  have h := parseExpression_safe hend hv q hq
  cases he : parseExpression env q with
  | ok a r =>
    rw [he] at h
    exact h
  | absent msg r => trivial
  | undefined u =>
    rw [he] at h
    cases u with
    | outOfBounds i => exact h
    | noReturn => trivial
  | outOfFuel => trivial

theorem parseExtern_safe {env : Externals} {toks : List TokenWrapper}
    (hend : EndsWithEndKind env toks) {p : ListParser} {t : TokenWrapper}
    (hp : OnToken toks p) (ht : p.peek = some t) (hty : t.type = Token.tok_extern) :
    SafeOut (OnToken toks) (parseExtern p) :=
  parsePrototype_safe hend (onToken_next hend hp ht (externKind_notEnd hty))

theorem parseNumberExpr_inBounds {p : ListParser} (hp : p.curr_token < p.tokens.length) :
    InBounds (parseNumberExpr p) := by
  intro i e
  unfold parseNumberExpr read at e
  cases h : p.peek with
  | none =>
    unfold peek at h
    rw [List.getElem?_eq_none_iff] at h
    omega
  | some t =>
    rw [h] at e
    cases e

/-- C20, counterexample.  The vector that holds only an end-of-stream token
ends with an end-of-stream token, and the cursor 0 is on a token of it; but
`parseForExpr`, started there, moves the cursor over that token and reads the
element at index 1, the size of the vector. -/
theorem parseForExpr_reads_past_end_counterexample :
    EndsWithEndKind Example.env [Example.tk Token.tok_eof] ∧
      (ListParser.mk [Example.tk Token.tok_eof] 0).curr_token <
        (ListParser.mk [Example.tk Token.tok_eof] 0).tokens.length ∧
      parseForExpr Example.env ⟨[Example.tk Token.tok_eof], 0⟩ =
        Outcome.undefined (Undefined.outOfBounds 1) ∧
      ¬ InBounds (parseForExpr Example.env ⟨[Example.tk Token.tok_eof], 0⟩) :=
  ⟨⟨Example.tk Token.tok_eof, rfl, by unfold IsEndKind HasPrecedence; decide⟩,
    by decide, rfl, fun h => h 1 rfl⟩

/-- C20, amended.  For every precedence lookup, every token vector whose last
token is an end-of-stream token (a kind that has no precedence and is none of
identifier, number, `(`, `)`, `,`, `=`, `if`, `then`, `else`, `for`, `in`,
`def`, `extern`) and every cursor on a token of it, no read of a call is a read
past the end of the vector: for `parseNumberExpr` and `parsePrototype` started
on any token and `parseExtern` started on `extern`; and, when the enumerator
`tok_then` is not zero, for `parsePrimary`, `parseExpression` and
`parseTopLevelExpr` started on any token, `parseBinOpRHS` with a minimum
precedence that is not negative, and `parseIdentifierExpr`, `parseParenExpr`,
`parseIfExpr`, `parseForExpr` and `parseDefinition` started on an identifier,
on `(`, on `if`, on `for` and on `def`.  A vector without such a last token
can be read at the index that is its size: `parseExpression` does so on the
vector that holds one number token. -/
theorem reads_in_bounds (env : Externals) :
    (∀ p : ListParser, EndsWithEndKind env p.tokens → p.curr_token < p.tokens.length →
      InBounds (parseNumberExpr p) ∧ InBounds (parsePrototype p) ∧
      (∀ t, p.peek = some t → t.type = Token.tok_extern → InBounds (parseExtern p)) ∧
      (env.tokenValue Token.tok_then ≠ 0 →
        InBounds (parsePrimary env p) ∧ InBounds (parseExpression env p) ∧
        InBounds (parseTopLevelExpr env p) ∧
        (∀ c l, 0 ≤ c → InBounds (parseBinOpRHS env c l p)) ∧
        (∀ t, p.peek = some t →
          (t.type = Token.tok_identifier → InBounds (parseIdentifierExpr env p)) ∧
          (t.type = Token.tok_lparen → InBounds (parseParenExpr env p)) ∧
          (t.type = Token.tok_if → InBounds (parseIfExpr env p)) ∧
          (t.type = Token.tok_for → InBounds (parseForExpr env p)) ∧
          (t.type = Token.tok_def → InBounds (parseDefinition env p))))) ∧
    (∀ t : TokenWrapper, t.type = Token.tok_number →
      parseExpression env ⟨[t], 0⟩ = Outcome.undefined (Undefined.outOfBounds 1)) := by
  constructor
  · intro p hend hlt
    have hp : OnToken p.tokens p := ⟨rfl, hlt⟩
    refine ⟨parseNumberExpr_inBounds hlt, safeOut_inBounds (parsePrototype_safe hend hp),
      fun t ht hty => safeOut_inBounds (parseExtern_safe hend hp ht hty), ?_⟩
    intro hv
    have hf := fuel_safe hend hv (budget p)
    refine ⟨safeOut_inBounds (hf.1 p hp), safeOut_inBounds (parseExpression_safe hend hv p hp),
      safeOut_inBounds (parseTopLevelExpr_safe hend hv hp),
      fun c l hc => safeOut_inBounds (hf.2.2.2.2.2.2.1 c l p hc hp), ?_⟩
    intro t ht
    exact ⟨fun hty => safeOut_inBounds (hf.2.1 p t hp ht hty),
      fun hty => safeOut_inBounds (hf.2.2.2.1 p t hp ht hty),
      fun hty => safeOut_inBounds (hf.2.2.2.2.1 p t hp ht hty),
      fun hty => safeOut_inBounds (hf.2.2.2.2.2.1 p t hp ht hty),
      fun hty => safeOut_inBounds (parseDefinition_safe hend hv hp ht hty)⟩
  · intro t hty
    have h0 : (ListParser.mk [t] 0).peek = some t := rfl
    rw [parseExpression_eq]
    unfold parseExpressionBody
    rw [parsePrimary_eq]
    unfold parsePrimaryBody
    rw [read_of_peek _ h0]
    simp only [hty]
    unfold parseNumberExpr
    rw [read_of_peek _ h0]
    simp only [Outcome.andThen]
    rw [parseBinOpRHS_eq]
    rfl

/-- C20, amended, at `a + b * c` followed by the end-of-stream token, with the
example table: `parseExpression`, started on the first token, makes no read
past the end; on the number token alone it reads at index 1. -/
theorem reads_in_bounds_witness :
    InBounds (parseExpression Example.env ⟨Example.sumProduct, 0⟩) ∧
      parseExpression Example.env ⟨[Example.num 1], 0⟩ =
        Outcome.undefined (Undefined.outOfBounds 1) :=
  ⟨(((reads_in_bounds Example.env).1 ⟨Example.sumProduct, 0⟩
      ⟨Example.tk Token.tok_eof, rfl, by unfold IsEndKind HasPrecedence; decide⟩
      (by decide)).2.2.2 (by decide)).2.1,
    (reads_in_bounds Example.env).2 (Example.num 1) rfl⟩

end ListParser

/-! ## C10: the cursor invariant -/

namespace ListParser

theorem reachesReturn_read {β : Type} {p : ListParser} {k : TokenWrapper → Outcome β}
    (hk : ∀ t, ReachesReturn (k t)) : ReachesReturn (p.read k) := by
  unfold read
  cases p.peek with
  | none =>
    intro e
    cases e
  | some t => exact hk t

theorem reachesReturn_andThen {α β : Type} {r : Outcome α}
    {k : α → ListParser → Outcome β} (hr : ReachesReturn r)
    (hk : ∀ a q, ReachesReturn (k a q)) : ReachesReturn (r.andThen k) := by
  cases r with
  | ok a q => exact hk a q
  | absent msg q =>
    intro e
    cases e
  | undefined u => exact fun e => hr (by cases e; rfl)
  | outOfFuel =>
    intro e
    cases e

theorem reachesReturn_ok {α : Type} (a : α) (q : ListParser) :
    ReachesReturn (Outcome.ok a q) := by
  intro e
  cases e

theorem reachesReturn_logError {α : Type} (msg : String) (q : ListParser) :
    ReachesReturn (LogError msg q : Outcome α) := by
  intro e
  cases e

theorem parseParenExprBody_reachesReturn {f : ListParser → Outcome ExprAST}
    (hf : ∀ q, ReachesReturn (f q)) (p : ListParser) :
    ReachesReturn (parseParenExprBody f p) := by
  unfold parseParenExprBody
  apply reachesReturn_andThen (hf _)
  intro V q
  apply reachesReturn_read
  intro t
  split
  · exact reachesReturn_logError _ _
  · exact reachesReturn_ok _ _

theorem parseNumberExpr_reachesReturn (p : ListParser) :
    ReachesReturn (parseNumberExpr p) := by
  unfold parseNumberExpr
  apply reachesReturn_read
  intro t
  exact reachesReturn_ok _ _

theorem parseArgsBody_reachesReturn {f : ListParser → Outcome ExprAST}
    {g : List ExprAST → ListParser → Outcome (List ExprAST)}
    (hf : ∀ q, ReachesReturn (f q)) (hg : ∀ a q, ReachesReturn (g a q))
    (acc : List ExprAST) (p : ListParser) :
    ReachesReturn (parseArgsBody f g acc p) := by
  unfold parseArgsBody
  apply reachesReturn_andThen (hf _)
  intro a q
  apply reachesReturn_read
  intro t
  split
  · exact reachesReturn_ok _ _
  · split
    · exact hg _ _
    · exact reachesReturn_logError _ _

theorem parseIdentifierExprBody_reachesReturn
    {g : List ExprAST → ListParser → Outcome (List ExprAST)}
    (hg : ∀ a q, ReachesReturn (g a q)) (p : ListParser) :
    ReachesReturn (parseIdentifierExprBody g p) := by
  unfold parseIdentifierExprBody
  apply reachesReturn_read
  intro t
  apply reachesReturn_read
  intro t₁
  split
  · exact reachesReturn_ok _ _
  · apply reachesReturn_read
    intro t₂
    split
    · apply reachesReturn_andThen (hg _ _)
      intro args q
      exact reachesReturn_ok _ _
    · exact reachesReturn_ok _ _

theorem parsePrimaryBody_reachesReturn (env : Externals)
    {fid fparen fif ffor : ListParser → Outcome ExprAST}
    (hid : ∀ q, ReachesReturn (fid q)) (hparen : ∀ q, ReachesReturn (fparen q))
    (hif : ∀ q, ReachesReturn (fif q)) (hfor : ∀ q, ReachesReturn (ffor q))
    (p : ListParser) :
    ReachesReturn (parsePrimaryBody env fid fparen fif ffor p) := by
  unfold parsePrimaryBody
  apply reachesReturn_read
  intro t
  split
  · exact hid p
  · exact parseNumberExpr_reachesReturn p
  · exact hparen p
  · exact hif p
  · exact hfor p
  · exact reachesReturn_logError _ _

theorem parseBinOpRHSBody_reachesReturn (env : Externals)
    {f : ListParser → Outcome ExprAST}
    {g : Int → ExprAST → ListParser → Outcome ExprAST}
    (hf : ∀ q, ReachesReturn (f q)) (hg : ∀ c l q, ReachesReturn (g c l q))
    (c : Int) (lhs : ExprAST) (p : ListParser) :
    ReachesReturn (parseBinOpRHSBody env f g c lhs p) := by
  unfold parseBinOpRHSBody
  apply reachesReturn_read
  intro t
  dsimp only
  split
  · exact reachesReturn_ok _ _
  · apply reachesReturn_andThen (hf _)
    intro rhs q
    apply reachesReturn_read
    intro t₁
    dsimp only
    split
    · apply reachesReturn_andThen (hg _ _ _)
      intro rhs₁ q₁
      exact hg _ _ _
    · exact hg _ _ _

theorem parseExpressionBody_reachesReturn {f : ListParser → Outcome ExprAST}
    {g : Int → ExprAST → ListParser → Outcome ExprAST}
    (hf : ∀ q, ReachesReturn (f q)) (hg : ∀ c l q, ReachesReturn (g c l q))
    (p : ListParser) : ReachesReturn (parseExpressionBody f g p) := by
  unfold parseExpressionBody
  apply reachesReturn_andThen (hf _)
  intro l q
  exact hg _ _ _

theorem parseIfExprBody_reachesReturn (env : Externals)
    {f : ListParser → Outcome ExprAST} (hf : ∀ q, ReachesReturn (f q)) (p : ListParser) :
    ReachesReturn (parseIfExprBody env f p) := by
  unfold parseIfExprBody
  apply reachesReturn_andThen (hf _)
  intro C q
  apply reachesReturn_read
  intro t
  split
  · exact reachesReturn_logError _ _
  · apply reachesReturn_andThen (hf _)
    intro T q₂
    apply reachesReturn_read
    intro t₂
    split
    · exact reachesReturn_logError _ _
    · apply reachesReturn_andThen (hf _)
      intro E q₃
      exact reachesReturn_ok _ _

theorem parseForExprIn_reachesReturn {f : ListParser → Outcome ExprAST}
    (hf : ∀ q, ReachesReturn (f q)) (identifier : String) (S E : ExprAST)
    (step : Option ExprAST) (q : ListParser) :
    ReachesReturn (parseForExprIn f identifier S E step q) := by
  unfold parseForExprIn
  apply reachesReturn_read
  intro t
  split
  · exact reachesReturn_logError _ _
  · apply reachesReturn_andThen (hf _)
    intro B q₁
    exact reachesReturn_ok _ _

theorem parseForExprBody_reachesReturn {f : ListParser → Outcome ExprAST}
    (hf : ∀ q, ReachesReturn (f q)) (p : ListParser) :
    ReachesReturn (parseForExprBody f p) := by
  unfold parseForExprBody
  apply reachesReturn_read
  intro t₁
  split
  · exact reachesReturn_logError _ _
  · apply reachesReturn_read
    intro t₂
    split
    · exact reachesReturn_logError _ _
    · apply reachesReturn_andThen (hf _)
      intro S q₁
      apply reachesReturn_read
      intro t₃
      split
      · exact reachesReturn_logError _ _
      · apply reachesReturn_andThen (hf _)
        intro E q₂
        apply reachesReturn_read
        intro t₄
        split
        · apply reachesReturn_andThen (hf _)
          intro P q₃
          exact parseForExprIn_reachesReturn hf _ S E (some P) q₃
        · exact parseForExprIn_reachesReturn hf _ S E none q₂

/-- No method, at any call depth allowed, ends at the closing brace of a
function without a `return`: only `parseDefinition` and `parseTopLevelExpr`
can. -/
theorem fuel_reachesReturn (env : Externals) (n : Nat) :
    (∀ p, ReachesReturn (parsePrimaryFuel env n p)) ∧
    (∀ p, ReachesReturn (parseIdentifierExprFuel env n p)) ∧
    (∀ a p, ReachesReturn (parseArgsFuel env n a p)) ∧
    (∀ p, ReachesReturn (parseParenExprFuel env n p)) ∧
    (∀ p, ReachesReturn (parseIfExprFuel env n p)) ∧
    (∀ p, ReachesReturn (parseForExprFuel env n p)) ∧
    (∀ c l p, ReachesReturn (parseBinOpRHSFuel env n c l p)) ∧
    (∀ p, ReachesReturn (parseExpressionFuel env n p)) := by
  induction n with
  | zero =>
    refine ⟨?_, ?_, ?_, ?_, ?_, ?_, ?_, ?_⟩
    · intro p e
      cases e
    · intro p e
      cases e
    · intro a p e
      cases e
    · intro p e
      cases e
    · intro p e
      cases e
    · intro p e
      cases e
    · intro c l p e
      cases e
    · intro p e
      cases e
  | succ n ih =>
    obtain ⟨iPrimary, iId, iArgs, iParen, iIf, iFor, iBin, iExpr⟩ := ih
    refine ⟨?_, ?_, ?_, ?_, ?_, ?_, ?_, ?_⟩
    · intro p
      simp only [parsePrimaryFuel]
      exact parsePrimaryBody_reachesReturn env iId iParen iIf iFor p
    · intro p
      simp only [parseIdentifierExprFuel]
      exact parseIdentifierExprBody_reachesReturn iArgs p
    · intro a p
      simp only [parseArgsFuel]
      exact parseArgsBody_reachesReturn iExpr iArgs a p
    · intro p
      simp only [parseParenExprFuel]
      exact parseParenExprBody_reachesReturn iExpr p
    · intro p
      simp only [parseIfExprFuel]
      exact parseIfExprBody_reachesReturn env iExpr p
    · intro p
      simp only [parseForExprFuel]
      exact parseForExprBody_reachesReturn iExpr p
    · intro c l p
      simp only [parseBinOpRHSFuel]
      exact parseBinOpRHSBody_reachesReturn env iPrimary iBin c l p
    · intro p
      simp only [parseExpressionFuel]
      exact parseExpressionBody_reachesReturn iPrimary iBin p

theorem parseExpression_reachesReturn (env : Externals) (p : ListParser) :
    ReachesReturn (parseExpression env p) :=
  (fuel_reachesReturn env (budget p)).2.2.2.2.2.2.2 p

theorem parsePrototypeLoopFuel_reachesReturn :
    ∀ (n : Nat) (acc : List String) (p : ListParser),
      ReachesReturn (parsePrototypeLoopFuel n acc p) := by
  intro n
  induction n with
  | zero =>
    intro acc p e
    cases e
  | succ n ih =>
    intro acc p
    unfold parsePrototypeLoopFuel
    apply reachesReturn_read
    intro t
    split
    · exact ih _ _
    · exact reachesReturn_ok _ _

theorem parsePrototype_reachesReturn (p : ListParser) :
    ReachesReturn (parsePrototype p) := by
  unfold parsePrototype
  apply reachesReturn_read
  intro t
  split
  · exact reachesReturn_logError _ _
  · apply reachesReturn_read
    intro t₁
    split
    · exact reachesReturn_logError _ _
    · apply reachesReturn_andThen (parsePrototypeLoopFuel_reachesReturn _ _ _)
      intro names q
      apply reachesReturn_read
      intro t₂
      split
      · exact reachesReturn_logError _ _
      · exact reachesReturn_ok _ _

/-- The failures of `parseParenExpr` and the state each is returned in. -/
theorem parseParenExpr_failures (env : Externals) (p : ListParser) :
    HandsOn (parseExpression env p.next) (parseParenExpr env p) ∧
    (∀ V q t, parseExpression env p.next = Outcome.ok V q → q.peek = some t →
      t.type ≠ Token.tok_rparen →
      parseParenExpr env p = Outcome.absent "Expected ')'" q) := by
  constructor
  · intro msg r h
    rw [parseParenExpr_eq]
    unfold parseParenExprBody
    dsimp only
    rw [h]
    rfl
  · intro V q t hV ht hne
    rw [parseParenExpr_eq]
    unfold parseParenExprBody
    dsimp only
    rw [hV]
    simp only [Outcome.andThen]
    rw [read_of_peek _ ht, if_pos hne]
    rfl

/-- The failures of the argument loop and the state each is returned in. -/
theorem parseArgs_failures (env : Externals) (p : ListParser) :
    ∀ acc : List ExprAST,
    HandsOn (parseExpression env p) (parseArgs env acc p) ∧
    (∀ e q t, parseExpression env p = Outcome.ok e q → q.peek = some t →
      (t.type = Token.tok_comma →
        parseArgs env acc p = parseArgs env (acc ++ [e]) q.next) ∧
      (t.type ≠ Token.tok_rparen → t.type ≠ Token.tok_comma →
        parseArgs env acc p =
          Outcome.absent "Expected ')' or ',' in the argument list" q)) := by
  intro acc
  constructor
  · intro msg r h
    rw [parseArgs_eq]
    unfold parseArgsBody
    rw [h]
    rfl
  · intro e q t he ht
    have step : parseArgs env acc p =
        if t.type = Token.tok_rparen then Outcome.ok (acc ++ [e]) q
        else if t.type = Token.tok_comma then parseArgs env (acc ++ [e]) q.next
        else LogError "Expected ')' or ',' in the argument list" q := by
      rw [parseArgs_eq]
      unfold parseArgsBody
      rw [he]
      simp only [Outcome.andThen]
      rw [read_of_peek _ ht]
    constructor
    · intro hc
      rw [step, if_neg (by simp [hc]), if_pos hc]
    · intro h1 h2
      rw [step, if_neg h1, if_neg h2]
      rfl

/-- The failure of the argument list is the failure of `parseIdentifierExpr`.
-/
theorem parseIdentifierExpr_failures (env : Externals) (p : ListParser) :
    ∀ t t₁ t₂, p.peek = some t → p.next.peek = some t₁ → t₁.type = Token.tok_lparen →
    p.next.next.peek = some t₂ → t₂.type ≠ Token.tok_rparen →
    HandsOn (parseArgs env [] p.next.next) (parseIdentifierExpr env p) := by
  intro t t₁ t₂ ht h₁ hl h₂ hr msg r h
  rw [parseIdentifierExpr_eq]
  unfold parseIdentifierExprBody
  rw [read_of_peek _ ht]
  dsimp only
  rw [read_of_peek _ h₁, if_neg (by simp [hl]), read_of_peek _ h₂, if_pos hr, h]
  rfl

/-- The outcome of `parsePrimary` is the outcome of the method it calls, and
its own failure is returned in the state of the call. -/
theorem parsePrimary_dispatch (env : Externals) (p : ListParser) :
    ∀ t, p.peek = some t →
    (t.type = Token.tok_identifier → parsePrimary env p = parseIdentifierExpr env p) ∧
    (t.type = Token.tok_number → parsePrimary env p = parseNumberExpr p) ∧
    (t.type = Token.tok_lparen → parsePrimary env p = parseParenExpr env p) ∧
    (t.type = Token.tok_if → parsePrimary env p = parseIfExpr env p) ∧
    (t.type = Token.tok_for → parsePrimary env p = parseForExpr env p) ∧
    (t.type ≠ Token.tok_identifier → t.type ≠ Token.tok_number →
      t.type ≠ Token.tok_lparen → t.type ≠ Token.tok_if → t.type ≠ Token.tok_for →
      parsePrimary env p =
        Outcome.absent
          ("Unknown token when expecting an expression: " ++ env.formatToken t.type) p) := by
  intro t ht
  rw [parsePrimary_eq]
  unfold parsePrimaryBody
  rw [read_of_peek _ ht]
  refine ⟨?_, ?_, ?_, ?_, ?_, ?_⟩
  · intro h
    simp only [h]
  · intro h
    simp only [h]
  · intro h
    simp only [h]
  · intro h
    simp only [h]
  · intro h
    simp only [h]
  · intro h1 h2 h3 h4 h5
    split
    · contradiction
    · contradiction
    · contradiction
    · contradiction
    · contradiction
    · rfl

/-- The failures of `parseBinOpRHS` and the state each is returned in. -/
theorem parseBinOpRHS_failures (env : Externals) (p : ListParser) :
    ∀ (c : Int) (l : ExprAST) (t : TokenWrapper), p.peek = some t →
    ¬ env.getTokenPrecedence t.type < c →
    HandsOn (parsePrimary env p.next) (parseBinOpRHS env c l p) ∧
    (∀ rhs q t₁, parsePrimary env p.next = Outcome.ok rhs q → q.peek = some t₁ →
      (¬ env.getTokenPrecedence t.type < env.getTokenPrecedence t₁.type →
        parseBinOpRHS env c l p =
          parseBinOpRHS env c (ExprAST.BinaryExprAST t.type l rhs) q) ∧
      (env.getTokenPrecedence t.type < env.getTokenPrecedence t₁.type →
        HandsOn (parseBinOpRHS env (env.getTokenPrecedence t.type + 1) rhs q)
          (parseBinOpRHS env c l p) ∧
        ∀ rhs₁ q₁,
          parseBinOpRHS env (env.getTokenPrecedence t.type + 1) rhs q =
            Outcome.ok rhs₁ q₁ →
          parseBinOpRHS env c l p =
            parseBinOpRHS env c (ExprAST.BinaryExprAST t.type l rhs₁) q₁)) := by
  intro c l t ht hc
  constructor
  · intro msg r h
    rw [parseBinOpRHS_eq]
    unfold parseBinOpRHSBody
    rw [read_of_peek _ ht]
    dsimp only
    rw [if_neg hc, h]
    rfl
  · intro rhs q t₁ hr h₁
    have it := parseBinOpRHS_iteration env c l rhs p q t t₁ ht hc hr h₁
    refine ⟨it.2.1, ?_⟩
    intro hlt
    refine ⟨?_, fun rhs₁ q₁ h₂ => (it.2.2 hlt rhs₁ q₁ h₂).2⟩
    intro msg r h
    rw [parseBinOpRHS_eq]
    unfold parseBinOpRHSBody
    rw [read_of_peek _ ht]
    dsimp only
    rw [if_neg hc, hr]
    simp only [Outcome.andThen]
    rw [read_of_peek _ h₁, if_pos hlt, h]

/-- The failures of `parseExpression` and the state each is returned in. -/
theorem parseExpression_failures (env : Externals) (p : ListParser) :
    HandsOn (parsePrimary env p) (parseExpression env p) ∧
    (∀ l q, parsePrimary env p = Outcome.ok l q →
      parseExpression env p = parseBinOpRHS env 0 l q) := by
  constructor
  · intro msg r h
    rw [parseExpression_eq]
    unfold parseExpressionBody
    rw [h]
    rfl
  · intro l q h
    rw [parseExpression_eq]
    unfold parseExpressionBody
    rw [h]
    rfl

/-- The failures of `parseIfExpr` and the state each is returned in. -/
theorem parseIfExpr_failures (env : Externals) (p : ListParser) :
    HandsOn (parseExpression env p.next) (parseIfExpr env p) ∧
    (∀ C q t, parseExpression env p.next = Outcome.ok C q → q.peek = some t →
      (env.tokenValue Token.tok_then ≠ 0 →
        parseIfExpr env p =
          Outcome.absent "expected then" (q.assignType t Token.tok_then)) ∧
      (env.tokenValue Token.tok_then = 0 →
        HandsOn (parseExpression env (q.assignType t Token.tok_then).next)
          (parseIfExpr env p) ∧
        ∀ T q₂ t₂,
          parseExpression env (q.assignType t Token.tok_then).next = Outcome.ok T q₂ →
          q₂.peek = some t₂ →
          (t₂.type ≠ Token.tok_else →
            parseIfExpr env p = Outcome.absent "Expected else" q₂) ∧
          (t₂.type = Token.tok_else →
            HandsOn (parseExpression env q₂.next) (parseIfExpr env p)))) := by
  constructor
  · intro msg r h
    rw [parseIfExpr_eq]
    unfold parseIfExprBody
    dsimp only
    rw [h]
    rfl
  · intro C q t hC ht
    constructor
    · intro hv
      exact parseIfExpr_of_nonzero env hC ht hv
    · intro hv
      have step := parseIfExpr_of_zero env hC ht hv
      constructor
      · intro msg r h
        rw [step, h]
        rfl
      · intro T q₂ t₂ hT h₂
        rw [hT] at step
        simp only [Outcome.andThen] at step
        rw [read_of_peek _ h₂] at step
        constructor
        · intro hne
          rw [step, if_pos hne]
          rfl
        · intro he msg r h
          rw [step, if_neg (by simp [he]), h]

/-- The failures of `parseForExpr` and the state each is returned in. -/
theorem parseForExpr_failures (env : Externals) (p : ListParser) :
    (∀ t, p.next.peek = some t → t.type ≠ Token.tok_identifier →
      parseForExpr env p = Outcome.absent "expected identifier after for" p.next) ∧
    (∀ tid teq, p.next.peek = some tid → tid.type = Token.tok_identifier →
      p.next.next.peek = some teq →
      (teq.type ≠ Token.tok_equal →
        parseForExpr env p = Outcome.absent "expected '=' after for" p.next.next) ∧
      (teq.type = Token.tok_equal →
        HandsOn (parseExpression env p.next.next.next) (parseForExpr env p) ∧
        (∀ S q₁ tc, parseExpression env p.next.next.next = Outcome.ok S q₁ →
          q₁.peek = some tc →
          (tc.type ≠ Token.tok_comma →
            parseForExpr env p =
              Outcome.absent "expected ',' after for start value" q₁) ∧
          (tc.type = Token.tok_comma →
            HandsOn (parseExpression env q₁.next) (parseForExpr env p) ∧
            (∀ E q₂ t₂, parseExpression env q₁.next = Outcome.ok E q₂ →
              q₂.peek = some t₂ →
              (t₂.type ≠ Token.tok_comma → t₂.type ≠ Token.tok_in →
                parseForExpr env p = Outcome.absent "expected 'in' after for" q₂) ∧
              (t₂.type = Token.tok_in →
                HandsOn (parseExpression env q₂.next) (parseForExpr env p)) ∧
              (t₂.type = Token.tok_comma →
                HandsOn (parseExpression env q₂.next) (parseForExpr env p) ∧
                (∀ P q₃ t₃, parseExpression env q₂.next = Outcome.ok P q₃ →
                  q₃.peek = some t₃ →
                  (t₃.type ≠ Token.tok_in →
                    parseForExpr env p = Outcome.absent "expected 'in' after for" q₃) ∧
                  (t₃.type = Token.tok_in →
                    HandsOn (parseExpression env q₃.next) (parseForExpr env p))))))))) := by
  constructor
  · intro t ht hty
    rw [parseForExpr_eq]
    unfold parseForExprBody
    dsimp only
    rw [read_of_peek _ ht, if_pos hty]
    rfl
  · intro tid teq hid hidt heq
    have step1 : parseForExpr env p =
        if teq.type ≠ Token.tok_equal then LogError "expected '=' after for" p.next.next
        else
          (parseExpression env p.next.next.next).andThen fun start q =>
            q.read fun t =>
              if t.type ≠ Token.tok_comma then
                LogError "expected ',' after for start value" q
              else
                (parseExpression env q.next).andThen fun end_ q' =>
                  q'.read fun t' =>
                    if t'.type = Token.tok_comma then
                      (parseExpression env q'.next).andThen fun step r =>
                        parseForExprIn (parseExpression env) tid.str_content start end_
                          (some step) r
                    else
                      parseForExprIn (parseExpression env) tid.str_content start end_
                        none q' := by
      rw [parseForExpr_eq]
      unfold parseForExprBody
      dsimp only
      rw [read_of_peek _ hid, if_neg (by simp [hidt]), read_of_peek _ heq]
    constructor
    · intro hne
      rw [step1, if_pos hne]
      rfl
    · intro he
      rw [if_neg (by simp [he])] at step1
      constructor
      · intro msg r hS
        rw [step1, hS]
        rfl
      · intro S q₁ tc hS hc
        rw [hS] at step1
        simp only [Outcome.andThen] at step1
        rw [read_of_peek _ hc] at step1
        constructor
        · intro hne
          rw [step1, if_pos hne]
          rfl
        · intro hct
          rw [if_neg (by simp [hct])] at step1
          constructor
          · intro msg r hE
            rw [step1, hE]
          · intro E q₂ t₂ hE h₂
            rw [hE] at step1
            simp only [] at step1
            rw [read_of_peek _ h₂] at step1
            refine ⟨?_, ?_, ?_⟩
            · intro hnc hni
              rw [step1, if_neg hnc]
              exact (parseForExprIn_errors env _ S E none q₂ t₂ h₂).1 hni
            · intro hin msg r hB
              rw [step1, if_neg (by simp [hin])]
              exact (parseForExprIn_errors env _ S E none q₂ t₂ h₂).2 hin msg r hB
            · intro hcomma
              rw [if_pos hcomma] at step1
              constructor
              · intro msg r hP
                rw [step1, hP]
              · intro P q₃ t₃ hP h₃
                rw [hP] at step1
                simp only [] at step1
                constructor
                · intro hni
                  rw [step1]
                  exact (parseForExprIn_errors env _ S E (some P) q₃ t₃ h₃).1 hni
                · intro hin msg r hB
                  rw [step1]
                  exact (parseForExprIn_errors env _ S E (some P) q₃ t₃ h₃).2 hin msg r hB

/-- The failures of `parsePrototype` and the state each is returned in. -/
theorem parsePrototype_failures (p : ListParser) :
    ∀ t, p.peek = some t →
    (t.type ≠ Token.tok_identifier →
      parsePrototype p = Outcome.absent "Expected function name in prototype" p) ∧
    (t.type = Token.tok_identifier → ∀ t₁, p.next.peek = some t₁ →
      (t₁.type ≠ Token.tok_lparen →
        parsePrototype p = Outcome.absent "Expected '(' in prototype" p.next) ∧
      (t₁.type = Token.tok_lparen →
        ∀ names q t₂, parsePrototypeLoop [] p.next.next = Outcome.ok names q →
          q.peek = some t₂ → t₂.type ≠ Token.tok_rparen →
          parsePrototype p = Outcome.absent "Expected ')' in prototype" q)) := by
  intro t ht
  constructor
  · intro hne
    unfold parsePrototype
    rw [read_of_peek _ ht, if_pos hne]
    rfl
  · intro hid t₁ h₁
    have step : parsePrototype p =
        if t₁.type ≠ Token.tok_lparen then LogError "Expected '(' in prototype" p.next
        else
          (parsePrototypeLoop [] p.next.next).andThen fun argument_names q =>
            q.read fun t₂ =>
              if t₂.type ≠ Token.tok_rparen then LogError "Expected ')' in prototype" q
              else Outcome.ok (PrototypeAST.mk t.str_content argument_names) q.next := by
      unfold parsePrototype
      rw [read_of_peek _ ht, if_neg (by simp [hid])]
      dsimp only
      rw [read_of_peek _ h₁]
    constructor
    · intro hne
      rw [step, if_pos hne]
      rfl
    · intro hl names q t₂ hloop h₂ hne
      rw [step, if_neg (by simp [hl]), hloop]
      simp only [Outcome.andThen]
      rw [read_of_peek _ h₂, if_pos hne]
      rfl

/-- The failures of `parseDefinition`: that of the prototype is handed on; the
call ends without a `return` exactly when the body expression is absent, with
the cursor where the body left it. -/
theorem parseDefinition_failures (env : Externals) (p : ListParser) :
    HandsOn (parsePrototype p.next) (parseDefinition env p) ∧
    (parseDefinition env p = Outcome.undefined Undefined.noReturn ↔
      ∃ proto q msg r, parsePrototype p.next = Outcome.ok proto q ∧
        parseExpression env q = Outcome.absent msg r) ∧
    (∀ proto q msg r, parsePrototype p.next = Outcome.ok proto q →
      parseExpression env q = Outcome.absent msg r →
      r.tokens.length = p.tokens.length ∧ p.curr_token < r.curr_token ∧
        r.curr_token ≤ p.tokens.length) := by
  refine ⟨?_, ?_, ?_⟩
  · intro msg r h
    unfold parseDefinition
    dsimp only
    rw [h]
    rfl
  · constructor
    · intro h
      unfold parseDefinition at h
      dsimp only at h
      cases hp : parsePrototype p.next with
      | ok proto q =>
        rw [hp] at h
        simp only [Outcome.andThen] at h
        cases he : parseExpression env q with
        | ok a r =>
          rw [he] at h
          cases h
        | absent msg r => exact ⟨proto, q, msg, r, rfl, he⟩
        | undefined u =>
          rw [he] at h
          have hu : (Outcome.undefined u : Outcome FunctionAST) =
              Outcome.undefined Undefined.noReturn := h
          cases hu
          exact absurd he (parseExpression_reachesReturn env q)
        | outOfFuel =>
          rw [he] at h
          cases h
      | absent msg q =>
        rw [hp] at h
        cases h
      | undefined u =>
        rw [hp] at h
        have hu : (Outcome.undefined u : Outcome FunctionAST) =
            Outcome.undefined Undefined.noReturn := h
        cases hu
        exact absurd hp (parsePrototype_reachesReturn p.next)
      | outOfFuel =>
        rw [hp] at h
        cases h
    · rintro ⟨proto, q, msg, r, hp, he⟩
      unfold parseDefinition
      dsimp only
      rw [hp]
      simp only [Outcome.andThen]
      rw [he]
  · intro proto q msg r hp he
    have h1 := parsePrototype_post p.next
    rw [hp] at h1
    have h2 := parseExpression_post env q
    rw [he] at h2
    obtain ⟨a1, a2, a3, a4⟩ := h1
    obtain ⟨b1, b2, b3, b4⟩ := h2
    rw [next_tokens] at a2
    rw [next_curr_token] at a3
    refine ⟨b2.trans a2, by omega, ?_⟩
    rw [← a2, ← b2]
    exact b4

/-- The call of `parseTopLevelExpr` ends without a `return` exactly when its
expression is absent, with the cursor where the expression left it. -/
theorem parseTopLevelExpr_failures (env : Externals) (p : ListParser) :
    (parseTopLevelExpr env p = Outcome.undefined Undefined.noReturn ↔
      ∃ msg r, parseExpression env p = Outcome.absent msg r) ∧
    (∀ msg r, parseExpression env p = Outcome.absent msg r →
      r.tokens.length = p.tokens.length ∧ p.curr_token ≤ r.curr_token ∧
        r.curr_token ≤ p.tokens.length) := by
  constructor
  · constructor
    · intro h
      unfold parseTopLevelExpr at h
      cases he : parseExpression env p with
      | ok a r =>
        rw [he] at h
        cases h
      | absent msg r => exact ⟨msg, r, rfl⟩
      | undefined u =>
        rw [he] at h
        have hu : (Outcome.undefined u : Outcome FunctionAST) =
            Outcome.undefined Undefined.noReturn := h
        cases hu
        exact absurd he (parseExpression_reachesReturn env p)
      | outOfFuel =>
        rw [he] at h
        cases h
    · rintro ⟨msg, r, he⟩
      unfold parseTopLevelExpr
      rw [he]
  · intro msg r he
    have h2 := parseExpression_post env p
    rw [he] at h2
    obtain ⟨b1, b2, b3, b4⟩ := h2
    refine ⟨b2, b3, ?_⟩
    rw [← b2]
    exact b4

/-- C10.  Cursor invariant: for every precedence lookup, every token vector
and every cursor position, each parse operation that returns, with a node or
with an absent result, leaves the vector at its size and the cursor at a
position that is not before the position at the start of the call and not
past the end of the vector; and when an operation started with the cursor on
a token reads past the end of the vector, the cursor is right after the last
token: it is never moved further.  The cursor is never restored after a
failure.  When a sub-parse of a method is absent, the method returns that
absent result in the very state the sub-parse returned, so the cursor stays
where the failed sub-parse left it: the expression of `parseParenExpr`, the
arguments of a call, the method `parsePrimary` dispatches to, the operand and
the recursive call of `parseBinOpRHS`, the operand of `parseExpression`, the
condition and the branches of `parseIfExpr`, the start, end, step and body of
`parseForExpr`, the prototype of `parseDefinition` and of `parseExtern`.  And
when a method itself reports an error, it returns in the state in which it
read the offending token, with every token before it consumed: `parseParenExpr`
on the token that is not `)`, the argument loop on the token that is neither
`)` nor `,`, `parsePrimary` on the token that starts no expression,
`parseIfExpr` on the token after the condition (or the one that is not
`else`), `parseForExpr` and `parsePrototype` on the token that is not the
expected one.  A loop that goes on does so from the state its last sub-parse
returned.  Of all operations only `parseDefinition` and `parseTopLevelExpr`
can end without a `return`, and they do exactly when the body expression is
absent: at that point the cursor is where the failed body expression left it,
not before its position at the start of the call and not past the end. -/
theorem cursor_never_moves_back (env : Externals) (p : ListParser) :
    (KeepsCursor p (parseNumberExpr p) ∧
      KeepsCursor p (parseParenExpr env p) ∧
      KeepsCursor p (parseIdentifierExpr env p) ∧
      KeepsCursor p (parsePrimary env p) ∧
      (∀ c l, KeepsCursor p (parseBinOpRHS env c l p)) ∧
      KeepsCursor p (parseExpression env p) ∧
      KeepsCursor p (parsePrototype p) ∧
      KeepsCursor p (parseDefinition env p) ∧
      KeepsCursor p (parseTopLevelExpr env p) ∧
      KeepsCursor p (parseExtern p) ∧
      KeepsCursor p (parseIfExpr env p) ∧
      KeepsCursor p (parseForExpr env p)) ∧
    (HandsOn (parseExpression env p.next) (parseParenExpr env p) ∧
      (∀ V q t, parseExpression env p.next = Outcome.ok V q → q.peek = some t →
        t.type ≠ Token.tok_rparen →
        parseParenExpr env p = Outcome.absent "Expected ')'" q)) ∧
    (∀ acc : List ExprAST,
      HandsOn (parseExpression env p) (parseArgs env acc p) ∧
      (∀ e q t, parseExpression env p = Outcome.ok e q → q.peek = some t →
        (t.type = Token.tok_comma →
          parseArgs env acc p = parseArgs env (acc ++ [e]) q.next) ∧
        (t.type ≠ Token.tok_rparen → t.type ≠ Token.tok_comma →
          parseArgs env acc p =
            Outcome.absent "Expected ')' or ',' in the argument list" q))) ∧
    (∀ t t₁ t₂, p.peek = some t → p.next.peek = some t₁ → t₁.type = Token.tok_lparen →
      p.next.next.peek = some t₂ → t₂.type ≠ Token.tok_rparen →
      HandsOn (parseArgs env [] p.next.next) (parseIdentifierExpr env p)) ∧
    (∀ t, p.peek = some t →
      (t.type = Token.tok_identifier → parsePrimary env p = parseIdentifierExpr env p) ∧
      (t.type = Token.tok_number → parsePrimary env p = parseNumberExpr p) ∧
      (t.type = Token.tok_lparen → parsePrimary env p = parseParenExpr env p) ∧
      (t.type = Token.tok_if → parsePrimary env p = parseIfExpr env p) ∧
      (t.type = Token.tok_for → parsePrimary env p = parseForExpr env p) ∧
      (t.type ≠ Token.tok_identifier → t.type ≠ Token.tok_number →
        t.type ≠ Token.tok_lparen → t.type ≠ Token.tok_if → t.type ≠ Token.tok_for →
        parsePrimary env p =
          Outcome.absent
            ("Unknown token when expecting an expression: " ++ env.formatToken t.type) p)) ∧
    (∀ (c : Int) (l : ExprAST) (t : TokenWrapper), p.peek = some t →
      ¬ env.getTokenPrecedence t.type < c →
      HandsOn (parsePrimary env p.next) (parseBinOpRHS env c l p) ∧
      (∀ rhs q t₁, parsePrimary env p.next = Outcome.ok rhs q → q.peek = some t₁ →
        (¬ env.getTokenPrecedence t.type < env.getTokenPrecedence t₁.type →
          parseBinOpRHS env c l p =
            parseBinOpRHS env c (ExprAST.BinaryExprAST t.type l rhs) q) ∧
        (env.getTokenPrecedence t.type < env.getTokenPrecedence t₁.type →
          HandsOn (parseBinOpRHS env (env.getTokenPrecedence t.type + 1) rhs q)
            (parseBinOpRHS env c l p) ∧
          ∀ rhs₁ q₁,
            parseBinOpRHS env (env.getTokenPrecedence t.type + 1) rhs q =
              Outcome.ok rhs₁ q₁ →
            parseBinOpRHS env c l p =
              parseBinOpRHS env c (ExprAST.BinaryExprAST t.type l rhs₁) q₁))) ∧
    (HandsOn (parsePrimary env p) (parseExpression env p) ∧
      (∀ l q, parsePrimary env p = Outcome.ok l q →
        parseExpression env p = parseBinOpRHS env 0 l q)) ∧
    (HandsOn (parseExpression env p.next) (parseIfExpr env p) ∧
      (∀ C q t, parseExpression env p.next = Outcome.ok C q → q.peek = some t →
        (env.tokenValue Token.tok_then ≠ 0 →
          parseIfExpr env p =
            Outcome.absent "expected then" (q.assignType t Token.tok_then)) ∧
        (env.tokenValue Token.tok_then = 0 →
          HandsOn (parseExpression env (q.assignType t Token.tok_then).next)
            (parseIfExpr env p) ∧
          ∀ T q₂ t₂,
            parseExpression env (q.assignType t Token.tok_then).next = Outcome.ok T q₂ →
            q₂.peek = some t₂ →
            (t₂.type ≠ Token.tok_else →
              parseIfExpr env p = Outcome.absent "Expected else" q₂) ∧
            (t₂.type = Token.tok_else →
              HandsOn (parseExpression env q₂.next) (parseIfExpr env p))))) ∧
    ((∀ t, p.next.peek = some t → t.type ≠ Token.tok_identifier →
        parseForExpr env p = Outcome.absent "expected identifier after for" p.next) ∧
      (∀ tid teq, p.next.peek = some tid → tid.type = Token.tok_identifier →
        p.next.next.peek = some teq →
        (teq.type ≠ Token.tok_equal →
          parseForExpr env p = Outcome.absent "expected '=' after for" p.next.next) ∧
        (teq.type = Token.tok_equal →
          HandsOn (parseExpression env p.next.next.next) (parseForExpr env p) ∧
          (∀ S q₁ tc, parseExpression env p.next.next.next = Outcome.ok S q₁ →
            q₁.peek = some tc →
            (tc.type ≠ Token.tok_comma →
              parseForExpr env p =
                Outcome.absent "expected ',' after for start value" q₁) ∧
            (tc.type = Token.tok_comma →
              HandsOn (parseExpression env q₁.next) (parseForExpr env p) ∧
              (∀ E q₂ t₂, parseExpression env q₁.next = Outcome.ok E q₂ →
                q₂.peek = some t₂ →
                (t₂.type ≠ Token.tok_comma → t₂.type ≠ Token.tok_in →
                  parseForExpr env p = Outcome.absent "expected 'in' after for" q₂) ∧
                (t₂.type = Token.tok_in →
                  HandsOn (parseExpression env q₂.next) (parseForExpr env p)) ∧
                (t₂.type = Token.tok_comma →
                  HandsOn (parseExpression env q₂.next) (parseForExpr env p) ∧
                  (∀ P q₃ t₃, parseExpression env q₂.next = Outcome.ok P q₃ →
                    q₃.peek = some t₃ →
                    (t₃.type ≠ Token.tok_in →
                      parseForExpr env p = Outcome.absent "expected 'in' after for" q₃) ∧
                    (t₃.type = Token.tok_in →
                      HandsOn (parseExpression env q₃.next) (parseForExpr env p)))))))))) ∧
    (∀ t, p.peek = some t →
      (t.type ≠ Token.tok_identifier →
        parsePrototype p = Outcome.absent "Expected function name in prototype" p) ∧
      (t.type = Token.tok_identifier → ∀ t₁, p.next.peek = some t₁ →
        (t₁.type ≠ Token.tok_lparen →
          parsePrototype p = Outcome.absent "Expected '(' in prototype" p.next) ∧
        (t₁.type = Token.tok_lparen →
          ∀ names q t₂, parsePrototypeLoop [] p.next.next = Outcome.ok names q →
            q.peek = some t₂ → t₂.type ≠ Token.tok_rparen →
            parsePrototype p = Outcome.absent "Expected ')' in prototype" q))) ∧
    parseExtern p = parsePrototype p.next ∧
    (HandsOn (parsePrototype p.next) (parseDefinition env p) ∧
      (parseDefinition env p = Outcome.undefined Undefined.noReturn ↔
        ∃ proto q msg r, parsePrototype p.next = Outcome.ok proto q ∧
          parseExpression env q = Outcome.absent msg r) ∧
      (∀ proto q msg r, parsePrototype p.next = Outcome.ok proto q →
        parseExpression env q = Outcome.absent msg r →
        r.tokens.length = p.tokens.length ∧ p.curr_token < r.curr_token ∧
          r.curr_token ≤ p.tokens.length)) ∧
    ((parseTopLevelExpr env p = Outcome.undefined Undefined.noReturn ↔
        ∃ msg r, parseExpression env p = Outcome.absent msg r) ∧
      (∀ msg r, parseExpression env p = Outcome.absent msg r →
        r.tokens.length = p.tokens.length ∧ p.curr_token ≤ r.curr_token ∧
          r.curr_token ≤ p.tokens.length)) ∧
    (ReachesReturn (parseNumberExpr p) ∧ ReachesReturn (parseParenExpr env p) ∧
      ReachesReturn (parseIdentifierExpr env p) ∧ ReachesReturn (parsePrimary env p) ∧
      (∀ c l, ReachesReturn (parseBinOpRHS env c l p)) ∧
      (∀ acc, ReachesReturn (parseArgs env acc p)) ∧
      ReachesReturn (parseExpression env p) ∧ ReachesReturn (parsePrototype p) ∧
      ReachesReturn (parseExtern p) ∧ ReachesReturn (parseIfExpr env p) ∧
      ReachesReturn (parseForExpr env p)) := by
  refine ⟨?_, parseParenExpr_failures env p, parseArgs_failures env p,
    parseIdentifierExpr_failures env p, parsePrimary_dispatch env p,
    parseBinOpRHS_failures env p, parseExpression_failures env p,
    parseIfExpr_failures env p, parseForExpr_failures env p, parsePrototype_failures p,
    rfl, parseDefinition_failures env p, parseTopLevelExpr_failures env p, ?_⟩
  · exact
    ⟨keepsCursor_of_post (parseNumberExpr_post p),
      keepsCursor_of_postS (parseParenExpr_post env p),
      keepsCursor_of_post (parseIdentifierExpr_post env p),
      keepsCursor_of_post (parsePrimary_post env p),
      fun c l => keepsCursor_of_post (parseBinOpRHS_post env c l p),
      keepsCursor_of_post (parseExpression_post env p),
      keepsCursor_of_post (parsePrototype_post p),
      keepsCursor_of_postS (parseDefinition_post env p),
      keepsCursor_of_post (parseTopLevelExpr_post env p),
      keepsCursor_of_postS (parseExtern_post p),
      keepsCursor_of_postS (parseIfExpr_post env p),
      keepsCursor_of_postS (parseForExpr_post env p)⟩
  · have hf := fuel_reachesReturn env (budget p)
    exact ⟨parseNumberExpr_reachesReturn p, hf.2.2.2.1 p, hf.2.1 p, hf.1 p,
      fun c l => hf.2.2.2.2.2.2.1 c l p, fun acc => hf.2.2.1 acc p,
      hf.2.2.2.2.2.2.2 p, parsePrototype_reachesReturn p,
      parsePrototype_reachesReturn p.next, hf.2.2.2.2.1 p, hf.2.2.2.2.2.1 p⟩

/-- C10 at `( 1` followed by the end of the input: the missing `)` is reported
with the cursor on the token after the `1`, at index 2, not at the `(` of
index 0; and at `def f() )`, where the absent body makes `parseDefinition`
end without a `return`. -/
theorem cursor_never_moves_back_witness :
    parseParenExpr Example.env ⟨Example.parenNoClose, 0⟩ =
        Outcome.absent "Expected ')'" ⟨Example.parenNoClose, 2⟩ ∧
      parseDefinition Example.env ⟨Example.defBadBody, 0⟩ =
        Outcome.undefined Undefined.noReturn :=
  ⟨(cursor_never_moves_back Example.env ⟨Example.parenNoClose, 0⟩).2.1.2
      (ExprAST.NumberExprAST 1) ⟨Example.parenNoClose, 2⟩ (Example.tk Token.tok_eof)
      rfl rfl (by decide),
    ((cursor_never_moves_back Example.env
      ⟨Example.defBadBody, 0⟩).2.2.2.2.2.2.2.2.2.2.2.1.2.1).mpr
      ⟨PrototypeAST.mk "f" [], ⟨Example.defBadBody, 4⟩,
        "Unknown token when expecting an expression: " ++ "token",
        ⟨Example.defBadBody, 4⟩, rfl, rfl⟩⟩

end ListParser
